import Mathlib

/-!
# SM4 block cipher and SM4-GCM: a verification development

A shallow embedding of the C++ sources of the repository.

* 32-bit words and bytes are natural numbers; every left shift of a 32-bit
  word is reduced modulo 2^32, the other operations (xor, or, and, right
  shift) never leave the word size.
* C arrays are lists, read with List.getD and written with List.set.
* A counted loop is forLoop (ascending index) or forDown (descending index);
  a loop whose trip count depends on a length takes that length as fuel, which
  is never exhausted before the loop condition fails.
* Buffer lengths and offsets (size_t) are natural numbers: buffers that exist
  in memory are far shorter than 2^64 bytes, so these never wrap. The 64-bit
  bit counts are reduced modulo 2^64, and generate_ctr keeps the low 32 bits
  of the counter, as in the source.
* A pointer with a length is a list, the length being the length of the list;
  an output buffer is a list holding the bytes the buffer had before the call.
* The cipher files define the same global names, so each file has a
  namespace: SM4Basic is "project 1/SM4基本实现.cpp", SM4Root is "SM4.cpp",
  SM4GCM is "project 1/SM4-GCM.cpp", SM4TTable is "project 1/SM4-T-table.cpp"
  and SM4AESNI is "project 1/SM4-T-table-AESNI.cpp".
* The global tables T0..T3 of the two T-table files are a value of type
  TTables that the functions reading them take as an argument.
* The files of project4 (SM3.cpp, "SM3_length-extension attack.cpp" and
  sm3_merkletree.cpp) are embedded in the namespaces SM3 and MerkleTree and at
  the top level. C++ leaves a shift of a 32-bit word by 32 or more undefined;
  SM3::rotate_left is called with such counts, and they are taken modulo 32
  (see SM3.shl32).
* The x86-64 code path of project4/SM3-optimized.h is embedded in the
  namespace SM3Optimized; its functions that can read or write outside an
  array return an Option.
-/

/-- The loop for (i = 0; i < n; ++i) body: the state after the iterations
0, 1, ..., n - 1, run in that order. -/
def forLoop {σ : Type} : Nat → (Nat → σ → σ) → σ → σ
  | 0, _, s => s
  | n + 1, body, s => body n (forLoop n body s)

/-- The loop for (j = n - 1; j >= 0; j--) body: the state after the iterations
n - 1, ..., 1, 0, run in that order. -/
def forDown {σ : Type} : Nat → (Nat → σ → σ) → σ → σ
  | 0, _, s => s
  | n + 1, body, s => forDown n body (body n s)

namespace SM4Basic

/-- S_BOX of SM4基本实现.cpp, lines 7-24. -/
def S_BOX : List Nat := [
  0xd6, 0x90, 0xe9, 0xfe, 0xcc, 0xe1, 0x3d, 0xb7, 0x16, 0xb6, 0x14, 0xc2, 0x28, 0xfb, 0x2c, 0x05,
  0x2b, 0x67, 0x9a, 0x76, 0x2a, 0xbe, 0x04, 0xc3, 0xaa, 0x44, 0x13, 0x26, 0x49, 0x86, 0x06, 0x99,
  0x9c, 0x42, 0x50, 0xf4, 0x91, 0xef, 0x98, 0x7a, 0x33, 0x54, 0x0b, 0x43, 0xed, 0xcf, 0xac, 0x62,
  0xe4, 0xb3, 0x1c, 0xa9, 0xc9, 0x08, 0xe8, 0x95, 0x80, 0xdf, 0x94, 0xfa, 0x75, 0x8f, 0x3f, 0xa6,
  0x47, 0x07, 0xa7, 0xfc, 0xf3, 0x73, 0x17, 0xba, 0x83, 0x59, 0x3c, 0x19, 0xe6, 0x85, 0x4f, 0xa8,
  0x68, 0x6b, 0x81, 0xb2, 0x71, 0x64, 0xda, 0x8b, 0xf8, 0xeb, 0x0f, 0x4b, 0x70, 0x56, 0x9d, 0x35,
  0x1e, 0x24, 0x0e, 0x5e, 0x63, 0x58, 0xd1, 0xa2, 0x25, 0x22, 0x7c, 0x3b, 0x01, 0x21, 0x78, 0x87,
  0xd4, 0x00, 0x46, 0x57, 0x9f, 0xd3, 0x27, 0x52, 0x4c, 0x36, 0x02, 0xe7, 0xa0, 0xc4, 0xc8, 0x9e,
  0xea, 0xbf, 0x8a, 0xd2, 0x40, 0xc7, 0x38, 0xb5, 0xa3, 0xf7, 0xf2, 0xce, 0xf9, 0x61, 0x15, 0xa1,
  0xe0, 0xae, 0x5d, 0xa4, 0x9b, 0x34, 0x1a, 0x55, 0xad, 0x93, 0x32, 0x30, 0xf5, 0x8c, 0xb1, 0xe3,
  0x1d, 0xf6, 0xe2, 0x2e, 0x82, 0x66, 0xca, 0x60, 0xc0, 0x29, 0x23, 0xab, 0x0d, 0x53, 0x4e, 0x6f,
  0xd5, 0xdb, 0x37, 0x45, 0xde, 0xfd, 0x8e, 0x2f, 0x03, 0xff, 0x6a, 0x72, 0x6d, 0x6c, 0x5b, 0x51,
  0x8d, 0x1b, 0xaf, 0x92, 0xbb, 0xdd, 0xbc, 0x7f, 0x11, 0xd9, 0x5c, 0x41, 0x1f, 0x10, 0x5a, 0xd8,
  0x0a, 0xc1, 0x31, 0x88, 0xa5, 0xcd, 0x7b, 0xbd, 0x2d, 0x74, 0xd0, 0x12, 0xb8, 0xe5, 0xb4, 0xb0,
  0x89, 0x69, 0x97, 0x4a, 0x0c, 0x96, 0x77, 0x7e, 0x65, 0xb9, 0xf1, 0x09, 0xc5, 0x6e, 0xc6, 0x84,
  0x18, 0xf0, 0x7d, 0xec, 0x3a, 0xdc, 0x4d, 0x20, 0x79, 0xee, 0x5f, 0x3e, 0xd7, 0xcb, 0x39, 0x48
]

/-- FK of SM4基本实现.cpp, line 29. -/
def FK : List Nat := [0xA3B1BAC6, 0x56AA3350, 0x677D9197, 0xB27022DC]

/-- CK of SM4基本实现.cpp, lines 34-43. -/
def CK : List Nat := [
  0x00070e15, 0x1c232a31, 0x383f464d, 0x545b6269,
  0x70777e85, 0x8c939aa1, 0xa8afb6bd, 0xc4cbd2d9,
  0xe0e7eef5, 0xfc030a11, 0x181f262d, 0x343b4249,
  0x50575e65, 0x6c737a81, 0x888f969d, 0xa4abb2b9,
  0xc0c7ced5, 0xdce3eaf1, 0xf8ff060d, 0x141b2229,
  0x30373e45, 0x4c535a61, 0x686f767d, 0x848b9299,
  0xa0a7aef5, 0xbcc3cad1, 0xd8dfe6ed, 0xf4fb0209,
  0x10171e25, 0x2c333a41, 0x484f565d, 0x646b7279
]

/-- The macro ROTL32(x, n) on a 32-bit word: ((x) << (n) | ((x) >> (32 - (n)))). -/
def ROTL32 (x n : Nat) : Nat := ((x <<< n) % 2 ^ 32) ||| (x >>> (32 - n))

/-- S-box lookup. -/
def sbox (byte : Nat) : Nat := S_BOX.getD byte 0

/-- The linear transform L. -/
def L (x : Nat) : Nat :=
  x ^^^ ROTL32 x 2 ^^^ ROTL32 x 10 ^^^ ROTL32 x 18 ^^^ ROTL32 x 24

/-- The transform of a word: four S-box lookups on its bytes, then L. -/
def nonlinearTransform (x : Nat) : Nat :=
  let b0 := sbox ((x >>> 24) &&& 0xFF)
  let b1 := sbox ((x >>> 16) &&& 0xFF)
  let b2 := sbox ((x >>> 8) &&& 0xFF)
  let b3 := sbox (x &&& 0xFF)
  let y := (b0 <<< 24) ||| (b1 <<< 16) ||| (b2 <<< 8) ||| b3
  L y

/-- One iteration of the key-expansion loop on the pair (K, rk). -/
def keyExpansionStep (i : Nat) (s : List Nat × List Nat) : List Nat × List Nat :=
  let K := s.1
  let rk := s.2
  let v := K.getD (i % 4) 0 ^^^
    nonlinearTransform (K.getD ((i + 1) % 4) 0 ^^^ K.getD ((i + 2) % 4) 0 ^^^
      K.getD ((i + 3) % 4) 0 ^^^ CK.getD i 0)
  (K.set (i % 4) v, rk.set i v)

/-- The 32 round keys of a key of four words. -/
def keyExpansion (key : List Nat) : List Nat :=
  let K := [key.getD 0 0 ^^^ FK.getD 0 0, key.getD 1 0 ^^^ FK.getD 1 0,
            key.getD 2 0 ^^^ FK.getD 2 0, key.getD 3 0 ^^^ FK.getD 3 0]
  (forLoop 32 keyExpansionStep (K, List.replicate 32 0)).2

/-- One round on the register X with the round key word k. -/
def round (k : Nat) (X : List Nat) : List Nat :=
  let temp := X.getD 0 0 ^^^
    nonlinearTransform (X.getD 1 0 ^^^ X.getD 2 0 ^^^ X.getD 3 0 ^^^ k)
  [X.getD 1 0, X.getD 2 0, X.getD 3 0, temp]

/-- Encryption of a block of four words under a key of four words. -/
def sm4Encrypt (plaintext key : List Nat) : List Nat :=
  let rk := keyExpansion key
  let X := forLoop 32 (fun i X => round (rk.getD i 0) X)
    [plaintext.getD 0 0, plaintext.getD 1 0, plaintext.getD 2 0, plaintext.getD 3 0]
  [X.getD 3 0, X.getD 2 0, X.getD 1 0, X.getD 0 0]

/-- Decryption: the same rounds with the round keys in reverse order. -/
def sm4Decrypt (ciphertext key : List Nat) : List Nat :=
  let rk := keyExpansion key
  let X := forLoop 32 (fun i X => round (rk.getD (31 - i) 0) X)
    [ciphertext.getD 0 0, ciphertext.getD 1 0, ciphertext.getD 2 0, ciphertext.getD 3 0]
  [X.getD 3 0, X.getD 2 0, X.getD 1 0, X.getD 0 0]

/-- Sixteen bytes to four big-endian words. -/
def bytesToWords (bytes : List Nat) : List Nat :=
  forLoop 4 (fun i words => words.set i
    ((bytes.getD (4 * i) 0 <<< 24) ||| (bytes.getD (4 * i + 1) 0 <<< 16) |||
     (bytes.getD (4 * i + 2) 0 <<< 8) ||| bytes.getD (4 * i + 3) 0))
    (List.replicate 4 0)

/-- Four words to sixteen bytes, big-endian. -/
def wordsToBytes (words : List Nat) : List Nat :=
  forLoop 4 (fun i bytes =>
    (((bytes.set (4 * i) ((words.getD i 0 >>> 24) &&& 0xFF)).set (4 * i + 1)
      ((words.getD i 0 >>> 16) &&& 0xFF)).set (4 * i + 2)
      ((words.getD i 0 >>> 8) &&& 0xFF)).set (4 * i + 3) (words.getD i 0 &&& 0xFF))
    (List.replicate 16 0)

end SM4Basic

namespace SM4Root

/-- S_BOX of SM4.cpp, lines 9-26. -/
def S_BOX : List Nat := [
  0xd6, 0x90, 0xe9, 0xfe, 0xcc, 0xe1, 0x3d, 0xb7, 0x16, 0xb6, 0x14, 0xc2, 0x28, 0xfb, 0x2c, 0x05,
  0x2b, 0x67, 0x9a, 0x76, 0x2a, 0xbe, 0x04, 0xc3, 0xaa, 0x44, 0x13, 0x26, 0x49, 0x86, 0x06, 0x99,
  0x9c, 0x42, 0x50, 0xf4, 0x91, 0xef, 0x98, 0x7a, 0x33, 0x54, 0x0b, 0x43, 0xed, 0xcf, 0xac, 0x62,
  0xe4, 0xb3, 0x1c, 0xa9, 0xc9, 0x08, 0xe8, 0x95, 0x8f, 0xa8, 0x51, 0xa3, 0x40, 0x8f, 0x3f, 0xa6,
  0x0e, 0x45, 0x9b, 0x33, 0x4d, 0x4e, 0x09, 0xcb, 0x2d, 0x5b, 0x51, 0x84, 0x8b, 0x58, 0x29, 0x00,
  0x86, 0x60, 0x87, 0x6e, 0x01, 0x66, 0x3b, 0x55, 0x21, 0x0c, 0x7c, 0xad, 0xf0, 0x3e, 0xf7, 0xc1,
  0x7b, 0xca, 0x83, 0x59, 0x96, 0x80, 0x81, 0x6f, 0xd3, 0x02, 0xa1, 0x1d, 0x2e, 0xcb, 0x73, 0x97,
  0x0f, 0x5d, 0x93, 0x27, 0x5c, 0xa0, 0x15, 0x46, 0x57, 0xa7, 0x82, 0x9d, 0x38, 0xf5, 0xca, 0x31,
  0x03, 0x41, 0x07, 0x02, 0x18, 0xc5, 0x8c, 0xe3, 0x8e, 0x8e, 0x53, 0xd1, 0x00, 0xed, 0x20, 0xfc,
  0xb1, 0x5b, 0x6a, 0xcb, 0xbe, 0x39, 0x4a, 0x4c, 0x58, 0x2c, 0x5b, 0x51, 0x84, 0x8b, 0x58, 0x29,
  0x00, 0x86, 0x60, 0x87, 0x6e, 0x01, 0x66, 0x3b, 0x55, 0x21, 0x0c, 0x7c, 0xad, 0xf0, 0x3e, 0xf7,
  0xc1, 0x7b, 0xca, 0x83, 0x59, 0x96, 0x80, 0x81, 0x6f, 0xd3, 0x02, 0xa1, 0x1d, 0x2e, 0xcb, 0x73,
  0x97, 0x0f, 0x5d, 0x93, 0x27, 0x5c, 0xa0, 0x15, 0x46, 0x57, 0xa7, 0x82, 0x9d, 0x38, 0xf5, 0xca,
  0x31, 0x03, 0x41, 0x07, 0x02, 0x18, 0xc5, 0x8c, 0xe3, 0x8e, 0x8e, 0x53, 0xd1, 0x00, 0xed, 0x20,
  0xfc, 0xb1, 0x5b, 0x6a, 0xcb, 0xbe, 0x39, 0x4a, 0x4c, 0x58, 0x2c, 0x1e, 0x72, 0xca, 0xa5, 0x64,
  0x12, 0x08, 0x7a, 0xc4, 0xa2, 0x24, 0x10, 0x19, 0x79, 0x48, 0x32, 0x6d, 0x2b, 0x11, 0x98, 0x12
]

/-- FK of SM4.cpp, line 32. -/
def FK : List Nat := [0xA3B1BAC6, 0x56AA3350, 0x677D9197, 0xB27022DC]

/-- CK of SM4.cpp, lines 38-47. -/
def CK : List Nat := [
  0x00070e15, 0x1c232a31, 0x383f464d, 0x545b6269,
  0x70777e85, 0x8c939aa1, 0xa8afb6bd, 0xc4cbd2d9,
  0xe0e7eef5, 0xfc030a11, 0x181f262d, 0x343b4249,
  0x50575e65, 0x6c737a81, 0x888f969d, 0xa4abb2b9,
  0xc0c7ced5, 0xdce3eaf1, 0xf8ff060d, 0x141b2229,
  0x30373e45, 0x4c535a61, 0x686f767d, 0x848b9299,
  0xa0a7aef5, 0xbcc3cad1, 0xd8dfe6ed, 0xf4fb0209,
  0x10171e25, 0x2c333a41, 0x484f565d, 0x646b7279
]

/-- S-box lookup. -/
def sbox (byte : Nat) : Nat := S_BOX.getD byte 0

/-- The linear transform L, each rotation written as two shifts. -/
def L (x : Nat) : Nat :=
  x ^^^ (((x <<< 2) % 2 ^ 32) ||| (x >>> 30))
    ^^^ (((x <<< 10) % 2 ^ 32) ||| (x >>> 22))
    ^^^ (((x <<< 18) % 2 ^ 32) ||| (x >>> 14))
    ^^^ (((x <<< 24) % 2 ^ 32) ||| (x >>> 8))

/-- The transform tau of a word: four S-box lookups on its bytes, then L. -/
def tau (x : Nat) : Nat :=
  let b0 := sbox ((x >>> 24) &&& 0xFF)
  let b1 := sbox ((x >>> 16) &&& 0xFF)
  let b2 := sbox ((x >>> 8) &&& 0xFF)
  let b3 := sbox (x &&& 0xFF)
  let y := (b0 <<< 24) ||| (b1 <<< 16) ||| (b2 <<< 8) ||| b3
  L y

/-- One iteration of the key-expansion loop on the pair (K, rk). -/
def keyExpansionStep (i : Nat) (s : List Nat × List Nat) : List Nat × List Nat :=
  let K := s.1
  let rk := s.2
  let v := K.getD (i % 4) 0 ^^^
    tau (K.getD ((i + 1) % 4) 0 ^^^ K.getD ((i + 2) % 4) 0 ^^^
      K.getD ((i + 3) % 4) 0 ^^^ CK.getD i 0)
  (K.set (i % 4) v, rk.set i v)

/-- The 32 round keys of a key of four words. -/
def keyExpansion (key : List Nat) : List Nat :=
  let K := [key.getD 0 0 ^^^ FK.getD 0 0, key.getD 1 0 ^^^ FK.getD 1 0,
            key.getD 2 0 ^^^ FK.getD 2 0, key.getD 3 0 ^^^ FK.getD 3 0]
  (forLoop 32 keyExpansionStep (K, List.replicate 32 0)).2

/-- One round on the register X with the round key word k. -/
def round (k : Nat) (X : List Nat) : List Nat :=
  let temp := X.getD 0 0 ^^^ tau (X.getD 1 0 ^^^ X.getD 2 0 ^^^ X.getD 3 0 ^^^ k)
  [X.getD 1 0, X.getD 2 0, X.getD 3 0, temp]

/-- Encryption of a block of four words under a key of four words. -/
def sm4Encrypt (plaintext key : List Nat) : List Nat :=
  let rk := keyExpansion key
  let X := forLoop 32 (fun i X => round (rk.getD i 0) X)
    [plaintext.getD 0 0, plaintext.getD 1 0, plaintext.getD 2 0, plaintext.getD 3 0]
  [X.getD 3 0, X.getD 2 0, X.getD 1 0, X.getD 0 0]

/-- Sixteen bytes to four big-endian words. -/
def bytesToWords (bytes : List Nat) : List Nat :=
  forLoop 4 (fun i words => words.set i
    ((bytes.getD (4 * i) 0 <<< 24) ||| (bytes.getD (4 * i + 1) 0 <<< 16) |||
     (bytes.getD (4 * i + 2) 0 <<< 8) ||| bytes.getD (4 * i + 3) 0))
    (List.replicate 4 0)

/-- Four words to sixteen bytes, big-endian. -/
def wordsToBytes (words : List Nat) : List Nat :=
  forLoop 4 (fun i bytes =>
    (((bytes.set (4 * i) ((words.getD i 0 >>> 24) &&& 0xFF)).set (4 * i + 1)
      ((words.getD i 0 >>> 16) &&& 0xFF)).set (4 * i + 2)
      ((words.getD i 0 >>> 8) &&& 0xFF)).set (4 * i + 3) (words.getD i 0 &&& 0xFF))
    (List.replicate 16 0)

end SM4Root

/-- The call memcpy(dst + dpos, src + spos, n): n bytes of src from offset spos
are written to dst from offset dpos. -/
def memcpy (dst : List Nat) (dpos : Nat) (src : List Nat) (spos n : Nat) : List Nat :=
  forLoop n (fun k d => d.set (dpos + k) (src.getD (spos + k) 0)) dst

namespace SM4GCM

/-- The class SM4 of SM4-GCM.cpp: its only data member is the round-key array. -/
structure SM4 where
  rk : List Nat

namespace SM4

/-- SM4::FK, lines 109-111. -/
def FK : List Nat := [0xA3B1BAC6, 0x56AA3350, 0x677D9197, 0xB27022DC]

/-- SM4::CK, lines 113-122. -/
def CK : List Nat := [
  0x00070e15, 0x1c232a31, 0x383f464d, 0x545b6269,
  0x70777e85, 0x8c939aa1, 0xa8afb6bd, 0xc4cbd2d9,
  0xe0e7eef5, 0xfc030a11, 0x181f262d, 0x343b4249,
  0x50575e65, 0x6c737a81, 0x888f969d, 0xa4abb2b9,
  0xc0c7ced5, 0xdce3eaf1, 0xf8ff060d, 0x141b2229,
  0x30373e45, 0x4c535a61, 0x686f767d, 0x848b9299,
  0xa0a7aeb5, 0xbcc3cad1, 0xd8dfe6ed, 0xf4fb0209,
  0x10171e25, 0x2c333a41, 0x484f565d, 0x646b7279
]

/-- Rotation to the left of a 32-bit word. -/
def rotl (x n : Nat) : Nat := ((x <<< n) % 2 ^ 32) ||| (x >>> (32 - n))

/-- The table box inside SM4::sbox, lines 23-40. -/
def box : List Nat := [
  0xd6, 0x90, 0xe9, 0xfe, 0xcc, 0xe1, 0x3d, 0xb7, 0x16, 0xb6, 0x14, 0xc2, 0x28, 0xfb, 0x2c, 0x05,
  0x2b, 0x67, 0x9a, 0x76, 0x2a, 0xbe, 0x04, 0xc3, 0xaa, 0x44, 0x13, 0x26, 0x49, 0x86, 0x06, 0x99,
  0x9c, 0x42, 0x50, 0xf4, 0x91, 0xef, 0x98, 0x7a, 0x33, 0x54, 0x0b, 0x43, 0xed, 0xcf, 0xac, 0x62,
  0xe4, 0xb3, 0x1c, 0xa9, 0xc9, 0x08, 0xe8, 0x95, 0x80, 0xdf, 0x94, 0xfa, 0x75, 0x8f, 0x3f, 0xa6,
  0x47, 0x07, 0xa7, 0xfc, 0xf3, 0x73, 0x17, 0xba, 0x83, 0x59, 0x3c, 0x19, 0xe6, 0x85, 0x4f, 0xa8,
  0x68, 0x6b, 0x81, 0xb2, 0x71, 0x64, 0xda, 0x8b, 0xf8, 0xeb, 0x0f, 0x4b, 0x70, 0x56, 0x9d, 0x35,
  0x1e, 0x24, 0x0e, 0x5e, 0x63, 0x58, 0xd1, 0xa2, 0x25, 0x22, 0x7c, 0x3b, 0x01, 0x21, 0x78, 0x87,
  0xd4, 0x00, 0x46, 0x57, 0x9f, 0xd3, 0x27, 0x52, 0x4c, 0x36, 0x02, 0xe7, 0xa0, 0xc4, 0xc8, 0x9e,
  0xea, 0xbf, 0x8a, 0xd2, 0x40, 0xc7, 0x38, 0xb5, 0xa3, 0xf7, 0xf2, 0xce, 0xf9, 0x61, 0x15, 0xa1,
  0xe0, 0xae, 0x5d, 0xa4, 0x9b, 0x34, 0x1a, 0x55, 0xad, 0x93, 0x32, 0x30, 0xf5, 0x8c, 0xb1, 0xe3,
  0x1d, 0xf6, 0xe2, 0x2e, 0x82, 0x66, 0xca, 0x60, 0xc0, 0x29, 0x23, 0xab, 0x0d, 0x53, 0x4e, 0x6f,
  0xd5, 0xdb, 0x37, 0x45, 0xde, 0xfd, 0x8e, 0x2f, 0x03, 0xff, 0x6a, 0x72, 0x6d, 0x6c, 0x5b, 0x51,
  0x8d, 0x1b, 0xaf, 0x92, 0xbb, 0xdd, 0xbc, 0x7f, 0x11, 0xd9, 0x5c, 0x41, 0x1f, 0x10, 0x5a, 0xd8,
  0x0a, 0xc1, 0x31, 0x88, 0xa5, 0xcd, 0x7b, 0xbd, 0x2d, 0x74, 0xd0, 0x12, 0xb8, 0xe5, 0xb4, 0xb0,
  0x89, 0x69, 0x97, 0x4a, 0x0c, 0x96, 0x77, 0x7e, 0x65, 0xb9, 0xf1, 0x09, 0xc5, 0x6e, 0xc6, 0x84,
  0x18, 0xf0, 0x7d, 0xec, 0x3a, 0xdc, 0x4d, 0x20, 0x79, 0xee, 0x5f, 0x3e, 0xd7, 0xcb, 0x39, 0x48
]

/-- S-box lookup. -/
def sbox (x : Nat) : Nat := box.getD x 0

/-- S-box applied to each byte of a word. -/
def byte_sub (x : Nat) : Nat :=
  let b := forLoop 4 (fun i b => b.set i (sbox ((x >>> (8 * (3 - i))) &&& 0xff)))
    (List.replicate 4 0)
  (b.getD 0 0 <<< 24) ||| (b.getD 1 0 <<< 16) ||| (b.getD 2 0 <<< 8) ||| b.getD 3 0

/-- The linear transform L. -/
def L (x : Nat) : Nat :=
  x ^^^ rotl x 2 ^^^ rotl x 10 ^^^ rotl x 18 ^^^ rotl x 24

/-- The round function F. -/
def F (x0 x1 x2 x3 rk : Nat) : Nat :=
  x0 ^^^ L (byte_sub (x1 ^^^ x2 ^^^ x3 ^^^ rk))

/-- Four big-endian words read from sixteen bytes into the first four cells of
an array. -/
def loadWords (bytes arr : List Nat) : List Nat :=
  forLoop 4 (fun i a => a.set i
    ((bytes.getD (4 * i) 0 <<< 24) ||| (bytes.getD (4 * i + 1) 0 <<< 16) |||
     (bytes.getD (4 * i + 2) 0 <<< 8) ||| bytes.getD (4 * i + 3) 0)) arr

/-- One iteration of the loop of set_key on the pair (k, rk). -/
def setKeyStep (i : Nat) (s : List Nat × List Nat) : List Nat × List Nat :=
  let k := s.1.set (i + 4)
    (s.1.getD i 0 ^^^ L (byte_sub (s.1.getD (i + 1) 0 ^^^ s.1.getD (i + 2) 0 ^^^
      s.1.getD (i + 3) 0 ^^^ CK.getD i 0)))
  (k, s.2.set i (k.getD (i + 4) 0))

/-- Key expansion: the object holding the 32 round keys of a 16-byte key. -/
def set_key (key : List Nat) : SM4 :=
  let mk := loadWords key (List.replicate 4 0)
  let k := List.replicate 36 0
  let k := k.set 0 (mk.getD 0 0 ^^^ FK.getD 0 0)
  let k := k.set 1 (mk.getD 1 0 ^^^ FK.getD 1 0)
  let k := k.set 2 (mk.getD 2 0 ^^^ FK.getD 2 0)
  let k := k.set 3 (mk.getD 3 0 ^^^ FK.getD 3 0)
  ⟨(forLoop 32 setKeyStep (k, List.replicate 32 0)).2⟩

/-- Encryption of one 16-byte block. -/
def encrypt_block (self : SM4) (inp : List Nat) : List Nat :=
  let x := loadWords inp (List.replicate 36 0)
  let x := forLoop 32 (fun i x => x.set (i + 4)
    (F (x.getD i 0) (x.getD (i + 1) 0) (x.getD (i + 2) 0) (x.getD (i + 3) 0)
      (self.rk.getD i 0))) x
  forLoop 4 (fun i out =>
    let val := x.getD (35 - i) 0
    (((out.set (4 * i) ((val >>> 24) &&& 0xff)).set (4 * i + 1)
      ((val >>> 16) &&& 0xff)).set (4 * i + 2)
      ((val >>> 8) &&& 0xff)).set (4 * i + 3) (val &&& 0xff))
    (List.replicate 16 0)

end SM4

/-- The class GCM of SM4-GCM.cpp: the cipher object and the hash subkey H. -/
structure GCM where
  sm4 : SM4
  H : List Nat

namespace GCM

/-- One of the 128 iterations of gfmul on the pair (z, v): z takes v when bit i
of x is set, then v is shifted and reduced. -/
def gfmulStep (x : List Nat) (i : Nat) (s : List Nat × List Nat) : List Nat × List Nat :=
  let z :=
    if (x.getD (i / 8) 0 >>> (7 - i % 8)) &&& 1 ≠ 0 then
      forLoop 16 (fun j z => z.set j (z.getD j 0 ^^^ s.2.getD j 0)) s.1
    else s.1
  let sh := forDown 16 (fun j (t : List Nat × Nat) =>
    let b := t.1.getD j 0 &&& 1
    (t.1.set j ((t.1.getD j 0 >>> 1) ||| (t.2 <<< 7)), b)) (s.2, 0)
  let v := if sh.2 ≠ 0 then sh.1.set 0 (sh.1.getD 0 0 ^^^ 0xe1) else sh.1
  (z, v)

/-- The function gfmul: the output z for the operands x and y. -/
def gfmul (x y : List Nat) : List Nat :=
  (forLoop 128 (gfmulStep x) (List.replicate 16 0, memcpy (List.replicate 16 0) 0 y 0 16)).1

/-- The while loop of ghash, from the position pos with the accumulator hash. -/
def ghashLoop (key data : List Nat) (len : Nat) : Nat → Nat → List Nat → List Nat
  | 0, _, hash => hash
  | fuel + 1, pos, hash =>
    if pos < len then
      let rem := len - pos
      let sz := if rem < 16 then rem else 16
      let block := memcpy (List.replicate 16 0) 0 data pos sz
      let hash := forLoop 16 (fun i h => h.set i (h.getD i 0 ^^^ block.getD i 0)) hash
      let temp := gfmul hash key
      ghashLoop key data len fuel (pos + sz) (memcpy hash 0 temp 0 16)
    else hash

/-- The function ghash over the first len bytes of data. Every iteration
advances pos by at least one, so len iterations are enough. -/
def ghash (key data : List Nat) (len : Nat) : List Nat :=
  ghashLoop key data len len 0 (List.replicate 16 0)

/-- The counter block: twelve nonce bytes, then the low 32 bits of the counter,
big-endian. -/
def generate_ctr (nonce : List Nat) (counter : Nat) : List Nat :=
  let ctr := memcpy (List.replicate 16 0) 0 nonce 0 12
  let ctr := ctr.set 12 ((counter >>> 24) &&& 0xff)
  let ctr := ctr.set 13 ((counter >>> 16) &&& 0xff)
  let ctr := ctr.set 14 ((counter >>> 8) &&& 0xff)
  ctr.set 15 (counter &&& 0xff)

/-- GCM::set_key: the round keys, and H the encryption of the zero block. -/
def set_key (key : List Nat) : GCM :=
  let sm4 := SM4.set_key key
  ⟨sm4, sm4.encrypt_block (List.replicate 16 0)⟩

/-- The counter-mode loop of encrypt, from the byte offset i, on the
ciphertext buffer. -/
def encryptCtrLoop (self : GCM) (nonce plaintext : List Nat) (plaintext_len : Nat) :
    Nat → Nat → List Nat → List Nat
  | 0, _, ciphertext => ciphertext
  | fuel + 1, i, ciphertext =>
    if i < plaintext_len then
      let ctr := generate_ctr nonce (i / 16 + 1)
      let keystream := self.sm4.encrypt_block ctr
      let block_len := if plaintext_len - i < 16 then plaintext_len - i else 16
      encryptCtrLoop self nonce plaintext plaintext_len fuel (i + 16)
        (forLoop block_len (fun j c =>
          c.set (i + j) (plaintext.getD (i + j) 0 ^^^ keystream.getD j 0)) ciphertext)
    else ciphertext

/-- GCM::encrypt. The plaintext and the associated data are the lists given
(their lengths are plaintext_len and aad_len); ciphertext is the content of the
output buffer before the call. The result is the buffer after the call and the
tag. -/
def encrypt (self : GCM) (nonce plaintext aad ciphertext : List Nat) : List Nat × List Nat :=
  let plaintext_len := plaintext.length
  let aad_len := aad.length
  let ctr0 := generate_ctr nonce 0
  let J0 := self.sm4.encrypt_block ctr0
  let ciphertext := encryptCtrLoop self nonce plaintext plaintext_len plaintext_len 0 ciphertext
  let total_len := aad_len + (if aad_len % 16 ≠ 0 then 16 - aad_len % 16 else 0) +
    plaintext_len + (if plaintext_len % 16 ≠ 0 then 16 - plaintext_len % 16 else 0) + 16
  let ghash_input := List.replicate total_len 0
  let pos := 0
  let ghash_input := memcpy ghash_input pos aad 0 aad_len
  let pos := pos + aad_len
  let pos := if aad_len % 16 ≠ 0 then pos + (16 - aad_len % 16) else pos
  let ghash_input := memcpy ghash_input pos ciphertext 0 plaintext_len
  let pos := pos + plaintext_len
  let pos := if plaintext_len % 16 ≠ 0 then pos + (16 - plaintext_len % 16) else pos
  let aad_bits := (aad_len * 8) % 2 ^ 64
  let cipher_bits := (plaintext_len * 8) % 2 ^ 64
  let ghash_input := forLoop 8 (fun i g =>
    g.set (pos + i) ((aad_bits >>> (64 - 8 * (i + 1))) &&& 0xff)) ghash_input
  let ghash_input := forLoop 8 (fun i g =>
    g.set (pos + 8 + i) ((cipher_bits >>> (64 - 8 * (i + 1))) &&& 0xff)) ghash_input
  let hash := ghash self.H ghash_input total_len
  let tag := forLoop 16 (fun i t => t.set i (hash.getD i 0 ^^^ J0.getD i 0))
    (List.replicate 16 0)
  (ciphertext, tag)

/-- The counter-mode loop of decrypt, from the byte offset i, on the plaintext
buffer. -/
def decryptCtrLoop (self : GCM) (nonce ciphertext : List Nat) (ciphertext_len : Nat) :
    Nat → Nat → List Nat → List Nat
  | 0, _, plaintext => plaintext
  | fuel + 1, i, plaintext =>
    if i < ciphertext_len then
      let ctr := generate_ctr nonce (i / 16 + 1)
      let keystream := self.sm4.encrypt_block ctr
      let block_len := if ciphertext_len - i < 16 then ciphertext_len - i else 16
      decryptCtrLoop self nonce ciphertext ciphertext_len fuel (i + 16)
        (forLoop block_len (fun j p =>
          p.set (i + j) (ciphertext.getD (i + j) 0 ^^^ keystream.getD j 0)) plaintext)
    else plaintext

/-- The tag comparison loop of decrypt from index i: false at the first
position where the two tags differ, true when no position below 16 differs. -/
def tagCompareLoop (computed_tag tag : List Nat) : Nat → Nat → Bool
  | 0, _ => true
  | fuel + 1, i =>
    if computed_tag.getD i 0 ≠ tag.getD i 0 then false
    else tagCompareLoop computed_tag tag fuel (i + 1)

/-- GCM::decrypt. The ciphertext and the associated data are the lists given;
plaintext is the content of the output buffer before the call. The result is
the returned flag and the buffer after the call. -/
def decrypt (self : GCM) (nonce ciphertext aad tag plaintext : List Nat) : Bool × List Nat :=
  let ciphertext_len := ciphertext.length
  let aad_len := aad.length
  let ctr0 := generate_ctr nonce 0
  let J0 := self.sm4.encrypt_block ctr0
  let plaintext := decryptCtrLoop self nonce ciphertext ciphertext_len ciphertext_len 0 plaintext
  let total_len := aad_len + (if aad_len % 16 ≠ 0 then 16 - aad_len % 16 else 0) +
    ciphertext_len + (if ciphertext_len % 16 ≠ 0 then 16 - ciphertext_len % 16 else 0) + 16
  let ghash_input := List.replicate total_len 0
  let pos := 0
  let ghash_input := memcpy ghash_input pos aad 0 aad_len
  let pos := pos + aad_len
  let pos := if aad_len % 16 ≠ 0 then pos + (16 - aad_len % 16) else pos
  let ghash_input := memcpy ghash_input pos ciphertext 0 ciphertext_len
  let pos := pos + ciphertext_len
  let pos := if ciphertext_len % 16 ≠ 0 then pos + (16 - ciphertext_len % 16) else pos
  let aad_bits := (aad_len * 8) % 2 ^ 64
  let cipher_bits := (ciphertext_len * 8) % 2 ^ 64
  let ghash_input := forLoop 8 (fun i g =>
    g.set (pos + i) ((aad_bits >>> (64 - 8 * (i + 1))) &&& 0xff)) ghash_input
  let ghash_input := forLoop 8 (fun i g =>
    g.set (pos + 8 + i) ((cipher_bits >>> (64 - 8 * (i + 1))) &&& 0xff)) ghash_input
  let hash := ghash self.H ghash_input total_len
  let computed_tag := forLoop 16 (fun i t => t.set i (hash.getD i 0 ^^^ J0.getD i 0))
    (List.replicate 16 0)
  (tagCompareLoop computed_tag tag 16 0, plaintext)

end GCM

end SM4GCM

/-! ## Test vectors and auxiliary definitions used by the theorems -/

namespace SM4Basic

/-- The 16 bytes used as plaintext and as key by main (lines 200-209). -/
def testBytes : List Nat :=
  [0x01, 0x23, 0x45, 0x67, 0x89, 0xab, 0xcd, 0xef, 0xfe, 0xdc, 0xba, 0x98, 0x76, 0x54, 0x32, 0x10]

end SM4Basic

namespace SM4Root

/-- The 16 bytes used as plaintext and as key by main (lines 189-202). -/
def testBytes : List Nat :=
  [0x01, 0x23, 0x45, 0x67, 0x89, 0xab, 0xcd, 0xef, 0xfe, 0xdc, 0xba, 0x98, 0x76, 0x54, 0x32, 0x10]

end SM4Root

namespace SM4Basic

/-- A register of four words read in reverse order. -/
def rev4 (X : List Nat) : List Nat := [X.getD 3 0, X.getD 2 0, X.getD 1 0, X.getD 0 0]

end SM4Basic

/-- The inverse of the standard SM4 substitution table: entry v is the index
at which the table holds v. -/
def S_BOX_inv : List Nat := [
  0x71, 0x6c, 0x7a, 0xb8, 0x16, 0x0f, 0x1e, 0x41, 0x35, 0xeb, 0xd0, 0x2a, 0xe4, 0xac, 0x62, 0x5a,
  0xcd, 0xc8, 0xdb, 0x1a, 0x0a, 0x8e, 0x08, 0x46, 0xf0, 0x4b, 0x96, 0xc1, 0x32, 0xa0, 0x60, 0xcc,
  0xf7, 0x6d, 0x69, 0xaa, 0x61, 0x68, 0x1b, 0x76, 0x0c, 0xa9, 0x14, 0x10, 0x0e, 0xd8, 0xa3, 0xb7,
  0x9b, 0xd2, 0x9a, 0x28, 0x95, 0x5f, 0x79, 0xb2, 0x86, 0xfe, 0xf4, 0x6b, 0x4a, 0x06, 0xfb, 0x3e,
  0x84, 0xcb, 0x21, 0x2b, 0x19, 0xb3, 0x72, 0x40, 0xff, 0x1c, 0xe3, 0x5b, 0x78, 0xf6, 0xae, 0x4e,
  0x22, 0xbf, 0x77, 0xad, 0x29, 0x97, 0x5d, 0x73, 0x65, 0x49, 0xce, 0xbe, 0xca, 0x92, 0x63, 0xfa,
  0xa7, 0x8d, 0x2f, 0x64, 0x55, 0xe8, 0xa5, 0x11, 0x50, 0xe1, 0xba, 0x51, 0xbd, 0xbc, 0xed, 0xaf,
  0x5c, 0x54, 0xbb, 0x45, 0xd9, 0x3c, 0x13, 0xe6, 0x6e, 0xf8, 0x27, 0xd6, 0x6a, 0xf2, 0xe7, 0xc7,
  0x38, 0x52, 0xa4, 0x48, 0xef, 0x4d, 0x1d, 0x6f, 0xd3, 0xe0, 0x82, 0x57, 0x9d, 0xc0, 0xb6, 0x3d,
  0x01, 0x24, 0xc3, 0x99, 0x3a, 0x37, 0xe5, 0xe2, 0x26, 0x1f, 0x12, 0x94, 0x20, 0x5e, 0x7f, 0x74,
  0x7c, 0x8f, 0x67, 0x88, 0x93, 0xd4, 0x3f, 0x42, 0x4f, 0x33, 0x18, 0xab, 0x2e, 0x98, 0x91, 0xc2,
  0xdf, 0x9e, 0x53, 0x31, 0xde, 0x87, 0x09, 0x07, 0xdc, 0xe9, 0x47, 0xc4, 0xc6, 0xd7, 0x15, 0x81,
  0xa8, 0xd1, 0x0b, 0x17, 0x7d, 0xec, 0xee, 0x85, 0x7e, 0x34, 0xa6, 0xfd, 0x04, 0xd5, 0x8b, 0x2d,
  0xda, 0x66, 0x83, 0x75, 0x70, 0xb0, 0x00, 0xfc, 0xcf, 0xc9, 0x56, 0xb1, 0xf5, 0xc5, 0xb4, 0x39,
  0x90, 0x05, 0xa2, 0x9f, 0x30, 0xdd, 0x4c, 0x7b, 0x36, 0x02, 0x80, 0x59, 0xf3, 0x2c, 0xf9, 0x25,
  0xf1, 0xea, 0x8a, 0x44, 0x23, 0x9c, 0xa1, 0x89, 0x58, 0x8c, 0x3b, 0x0d, 0x43, 0xb5, 0x03, 0xb9
]


namespace SM4GCM

namespace GCM

/-- The buffer that encrypt and decrypt both hash, built from the associated
data and the first len bytes of a ciphertext buffer c: the text of lines
214-238, which lines 268-292 repeat. Used to compare the two functions. -/
def ghashInputOf (aad c : List Nat) (len : Nat) : List Nat :=
  let aad_len := aad.length
  let total_len := aad_len + (if aad_len % 16 ≠ 0 then 16 - aad_len % 16 else 0) +
    len + (if len % 16 ≠ 0 then 16 - len % 16 else 0) + 16
  let ghash_input := List.replicate total_len 0
  let pos := 0
  let ghash_input := memcpy ghash_input pos aad 0 aad_len
  let pos := pos + aad_len
  let pos := if aad_len % 16 ≠ 0 then pos + (16 - aad_len % 16) else pos
  let ghash_input := memcpy ghash_input pos c 0 len
  let pos := pos + len
  let pos := if len % 16 ≠ 0 then pos + (16 - len % 16) else pos
  let aad_bits := (aad_len * 8) % 2 ^ 64
  let cipher_bits := (len * 8) % 2 ^ 64
  let ghash_input := forLoop 8 (fun i g =>
    g.set (pos + i) ((aad_bits >>> (64 - 8 * (i + 1))) &&& 0xff)) ghash_input
  forLoop 8 (fun i g =>
    g.set (pos + 8 + i) ((cipher_bits >>> (64 - 8 * (i + 1))) &&& 0xff)) ghash_input

/-- The length total_len of that buffer. -/
def totalLenOf (aad : List Nat) (len : Nat) : Nat :=
  aad.length + (if aad.length % 16 ≠ 0 then 16 - aad.length % 16 else 0) +
    len + (if len % 16 ≠ 0 then 16 - len % 16 else 0) + 16

/-- The 16-byte tag that encrypt and decrypt both compute: the hash of the
buffer xored with J0 (lines 239-245 and 293-300). -/
def tagOf (self : GCM) (nonce aad c : List Nat) (len : Nat) : List Nat :=
  forLoop 16 (fun i t => t.set i
    ((ghash self.H (ghashInputOf aad c len) (totalLenOf aad len)).getD i 0 ^^^
      (self.sm4.encrypt_block (generate_ctr nonce 0)).getD i 0)) (List.replicate 16 0)

/-- Byte m of the keystream: byte m mod 16 of the encryption of the counter
block numbered m / 16 + 1. -/
def keystreamByte (self : GCM) (nonce : List Nat) (m : Nat) : Nat :=
  (self.sm4.encrypt_block (generate_ctr nonce (m / 16 + 1))).getD (m % 16) 0

/-- A byte string with bit b of byte i flipped. -/
def flipBit (s : List Nat) (i b : Nat) : List Nat := s.set i (s.getD i 0 ^^^ 2 ^ b)

end GCM

end SM4GCM

namespace Spec

/-- A byte string followed by the fewest zero bytes that bring its length to a
multiple of 16. -/
def pad16 (d : List Nat) : List Nat :=
  d ++ List.replicate ((16 - d.length % 16) % 16) 0

/-- The big-endian encoding of the low 64 bits of n on 8 bytes. -/
def be64 (n : Nat) : List Nat :=
  [n / 2 ^ 56 % 256, n / 2 ^ 48 % 256, n / 2 ^ 40 % 256, n / 2 ^ 32 % 256,
   n / 2 ^ 24 % 256, n / 2 ^ 16 % 256, n / 2 ^ 8 % 256, n % 256]

/-- The big-endian encoding of the low 32 bits of n on 4 bytes. -/
def be32 (n : Nat) : List Nat :=
  [n / 2 ^ 24 % 256, n / 2 ^ 16 % 256, n / 2 ^ 8 % 256, n % 256]

/-- The bytewise xor of two 16-byte strings. -/
def xor16 (a b : List Nat) : List Nat :=
  (List.range 16).map (fun i => a.getD i 0 ^^^ b.getD i 0)

/-- The input of the hash: padded associated data, padded ciphertext, then the
two bit lengths on 64 bits each. -/
def hashInput (aad c : List Nat) : List Nat :=
  pad16 aad ++ pad16 c ++ be64 (aad.length * 8) ++ be64 (c.length * 8)

/-- The tag formula: the hash of the hash input under H, xored with J0, the
encryption of the counter block numbered 0. -/
def tagFormula (self : SM4GCM.GCM) (nonce aad c : List Nat) : List Nat :=
  xor16 (SM4GCM.GCM.ghash self.H (hashInput aad c) (hashInput aad c).length)
    (self.sm4.encrypt_block (SM4GCM.GCM.generate_ctr nonce 0))

end Spec

namespace SM4GCM

/-- The key of main (lines 322-325). -/
def mainKey : List Nat :=
  [0x01, 0x23, 0x45, 0x67, 0x89, 0xab, 0xcd, 0xef, 0xfe, 0xdc, 0xba, 0x98, 0x76, 0x54, 0x32, 0x10]

/-- The nonce of main (lines 326-329). -/
def mainNonce : List Nat :=
  [0x00, 0x01, 0x02, 0x03, 0x04, 0x05, 0x06, 0x07, 0x08, 0x09, 0x0a, 0x0b]

/-- A 16-byte key under which the hash subkey H is
2eaa1202d9ac1390be253bb7e5f4ba69. -/
def weakKey : List Nat := [0, 0, 0, 0, 0, 0, 0, 0, 0, 0, 0, 0, 0, 0, 0, 0xac]

end SM4GCM

/-! ## Arithmetic form of gfmul and ghash

The functions below compute what gfmul and ghash compute, on natural numbers
instead of byte arrays: a 16-byte array stands for the number it spells with
byte 0 least significant. The theorems gfmul_eq_bytesLE and ghashLoop_eq
state that they agree with the embedded functions; they are used to evaluate
gfmul and ghash on concrete inputs. -/

/-- The 16 bytes of a number, least significant byte first. -/
def bytesLE (n : Nat) : List Nat := (List.range 16).map (fun j => n / 256 ^ j % 256)

namespace SM4GCM

namespace GCM

/-- One iteration of gfmul on the numbers that z and v spell. -/
def gfmulStepN (x : List Nat) (i : Nat) (s : Nat × Nat) : Nat × Nat :=
  (if (x.getD (i / 8) 0 >>> (7 - i % 8)) &&& 1 ≠ 0 then s.1 ^^^ s.2 else s.1,
   if s.2 % 2 ≠ 0 then (s.2 >>> 1) ^^^ 0xe1 else s.2 >>> 1)

/-- The number that the output of gfmul spells, for the number y that the
second operand spells. -/
def gfmulN (x : List Nat) (y : Nat) : Nat := (forLoop 128 (gfmulStepN x) (0, y)).1

/-- The loop of ghash with gfmul computed on numbers. -/
def ghashLoopN (key : Nat) (data : List Nat) (len : Nat) : Nat → Nat → List Nat → List Nat
  | 0, _, hash => hash
  | fuel + 1, pos, hash =>
    if pos < len then
      let rem := len - pos
      let sz := if rem < 16 then rem else 16
      let block := memcpy (List.replicate 16 0) 0 data pos sz
      let hash := forLoop 16 (fun i h => h.set i (h.getD i 0 ^^^ block.getD i 0)) hash
      let temp := bytesLE (gfmulN hash key)
      ghashLoopN key data len fuel (pos + sz) (memcpy hash 0 temp 0 16)
    else hash

end GCM

end SM4GCM

/-! ## Tag comparison count, blocks as numbers, the field product of the specification -/

namespace SM4GCM

namespace GCM

/-- The tag comparison loop of decrypt from index i, counting the executions
of the byte comparison computed_tag[i] != tag[i]: the loop leaves at the first
comparison that finds a difference. -/
def tagCompareCount (computed_tag tag : List Nat) : Nat → Nat → Nat
  | 0, _ => 0
  | fuel + 1, i =>
    if computed_tag.getD i 0 ≠ tag.getD i 0 then 1
    else 1 + tagCompareCount computed_tag tag fuel (i + 1)

end GCM

end SM4GCM

/-- A 16-byte block: sixteen entries, each below 256. -/
def IsBlock (x : List Nat) : Prop := x.length = 16 ∧ ∀ j, j < 16 → x.getD j 0 < 256

/-- The number a list of bytes spells, least significant byte first. -/
def blockLE : List Nat → Nat
  | [] => 0
  | b :: bs => b + 256 * blockLE bs

namespace Spec

/-- The polynomial over GF(2) that a 16-byte string stands for, as the number
whose binary digit i is the coefficient of t^i: bit i of the string, counted
from the most significant bit of byte 0 (i = 0) to the least significant bit
of byte 15 (i = 127), is the coefficient of t^i. -/
def polyOfBlock (x : List Nat) : Nat :=
  (List.range 128).foldl
    (fun n i => if (x.getD (i / 8) 0 / 2 ^ (7 - i % 8)) % 2 = 1 then n + 2 ^ i else n) 0

/-- The 16-byte string of a polynomial of degree below 128, in the same
convention. -/
def blockOfPoly (n : Nat) : List Nat :=
  (List.range 16).map (fun j =>
    (List.range 8).foldl
      (fun b k => if (n / 2 ^ (8 * j + k)) % 2 = 1 then b + 2 ^ (7 - k) else b) 0)

/-- The product of two polynomials over GF(2). -/
def polyMul (a b : Nat) : Nat :=
  (List.range 128).foldl (fun r i => if (a / 2 ^ i) % 2 = 1 then r ^^^ (b * 2 ^ i) else r) 0

/-- The polynomial t^128 + t^7 + t^2 + t + 1. -/
def gcmPoly : Nat := 2 ^ 128 + 2 ^ 7 + 2 ^ 2 + 2 + 1

/-- The remainder of a polynomial of degree below 255 modulo gcmPoly: the
terms of degree 254 down to 128 are cancelled in turn. -/
def polyMod (r : Nat) : Nat :=
  (List.range 127).foldl
    (fun r k => if (r / 2 ^ (254 - k)) % 2 = 1 then r ^^^ (gcmPoly * 2 ^ (126 - k)) else r) r

/-- The product of two 16-byte strings in GF(2)[t]/(t^128 + t^7 + t^2 + t + 1)
under the bit convention of polyOfBlock. This definition follows the words of
the specification, not the source; gfmul of the source is compared with it. -/
def gf128Mul (x y : List Nat) : List Nat :=
  blockOfPoly (polyMod (polyMul (polyOfBlock x) (polyOfBlock y)))

/-- The block 80 00 ... 00: only bit 0 is set, so it is the polynomial 1, the
unit of the field. -/
def blockOne : List Nat := [0x80, 0, 0, 0, 0, 0, 0, 0, 0, 0, 0, 0, 0, 0, 0, 0]

/-- The block 00 80 00 ... 00: only bit 8 is set, so it is the polynomial
t^8. -/
def blockT8 : List Nat := [0, 0x80, 0, 0, 0, 0, 0, 0, 0, 0, 0, 0, 0, 0, 0, 0]

end Spec

/-! ## The T-table cipher (SM4-T-table.cpp) and the vectorised cipher (SM4-T-table-AESNI.cpp) -/

/-- The four global arrays T0, T1, T2, T3 of 256 words each. -/
structure TTables where
  T0 : List Nat
  T1 : List Nat
  T2 : List Nat
  T3 : List Nat

/-- The global arrays before initTTable: static storage is zeroed. -/
def TTables.zero : TTables :=
  { T0 := List.replicate 256 0, T1 := List.replicate 256 0,
    T2 := List.replicate 256 0, T3 := List.replicate 256 0 }

namespace SM4TTable

/-- S_BOX of SM4-T-table.cpp, lines 8-25. -/
def S_BOX : List Nat := [
  0xd6, 0x90, 0xe9, 0xfe, 0xcc, 0xe1, 0x3d, 0xb7, 0x16, 0xb6, 0x14, 0xc2, 0x28, 0xfb, 0x2c, 0x05,
  0x2b, 0x67, 0x9a, 0x76, 0x2a, 0xbe, 0x04, 0xc3, 0xaa, 0x44, 0x13, 0x26, 0x49, 0x86, 0x06, 0x99,
  0x9c, 0x42, 0x50, 0xf4, 0x91, 0xef, 0x98, 0x7a, 0x33, 0x54, 0x0b, 0x43, 0xed, 0xcf, 0xac, 0x62,
  0xe4, 0xb3, 0x1c, 0xa9, 0xc9, 0x08, 0xe8, 0x95, 0x80, 0xdf, 0x94, 0xfa, 0x75, 0x8f, 0x3f, 0xa6,
  0x47, 0x07, 0xa7, 0xfc, 0xf3, 0x73, 0x17, 0xba, 0x83, 0x59, 0x3c, 0x19, 0xe6, 0x85, 0x4f, 0xa8,
  0x68, 0x6b, 0x81, 0xb2, 0x71, 0x64, 0xda, 0x8b, 0xf8, 0xeb, 0x0f, 0x4b, 0x70, 0x56, 0x9d, 0x35,
  0x1e, 0x24, 0x0e, 0x5e, 0x63, 0x58, 0xd1, 0xa2, 0x25, 0x22, 0x7c, 0x3b, 0x01, 0x21, 0x78, 0x87,
  0xd4, 0x00, 0x46, 0x57, 0x9f, 0xd3, 0x27, 0x52, 0x4c, 0x36, 0x02, 0xe7, 0xa0, 0xc4, 0xc8, 0x9e,
  0xea, 0xbf, 0x8a, 0xd2, 0x40, 0xc7, 0x38, 0xb5, 0xa3, 0xf7, 0xf2, 0xce, 0xf9, 0x61, 0x15, 0xa1,
  0xe0, 0xae, 0x5d, 0xa4, 0x9b, 0x34, 0x1a, 0x55, 0xad, 0x93, 0x32, 0x30, 0xf5, 0x8c, 0xb1, 0xe3,
  0x1d, 0xf6, 0xe2, 0x2e, 0x82, 0x66, 0xca, 0x60, 0xc0, 0x29, 0x23, 0xab, 0x0d, 0x53, 0x4e, 0x6f,
  0xd5, 0xdb, 0x37, 0x45, 0xde, 0xfd, 0x8e, 0x2f, 0x03, 0xff, 0x6a, 0x72, 0x6d, 0x6c, 0x5b, 0x51,
  0x8d, 0x1b, 0xaf, 0x92, 0xbb, 0xdd, 0xbc, 0x7f, 0x11, 0xd9, 0x5c, 0x41, 0x1f, 0x10, 0x5a, 0xd8,
  0x0a, 0xc1, 0x31, 0x88, 0xa5, 0xcd, 0x7b, 0xbd, 0x2d, 0x74, 0xd0, 0x12, 0xb8, 0xe5, 0xb4, 0xb0,
  0x89, 0x69, 0x97, 0x4a, 0x0c, 0x96, 0x77, 0x7e, 0x65, 0xb9, 0xf1, 0x09, 0xc5, 0x6e, 0xc6, 0x84,
  0x18, 0xf0, 0x7d, 0xec, 0x3a, 0xdc, 0x4d, 0x20, 0x79, 0xee, 0x5f, 0x3e, 0xd7, 0xcb, 0x39, 0x48]

/-- FK of SM4-T-table.cpp, line 30. -/
def FK : List Nat := [0xa3b1bac6, 0x56aa3350, 0x677d9197, 0xb27022dc]

/-- CK of SM4-T-table.cpp, lines 35-44. -/
def CK : List Nat := [
  0x00070e15, 0x1c232a31, 0x383f464d, 0x545b6269,
  0x70777e85, 0x8c939aa1, 0xa8afb6bd, 0xc4cbd2d9,
  0xe0e7eef5, 0xfc030a11, 0x181f262d, 0x343b4249,
  0x50575e65, 0x6c737a81, 0x888f969d, 0xa4abb2b9,
  0xc0c7ced5, 0xdce3eaf1, 0xf8ff060d, 0x141b2229,
  0x30373e45, 0x4c535a61, 0x686f767d, 0x848b9299,
  0xa0a7aef5, 0xbcc3cad1, 0xd8dfe6ed, 0xf4fb0209,
  0x10171e25, 0x2c333a41, 0x484f565d, 0x646b7279]

/-- ROTL32, the macro of line 52: the left shift is reduced to 32 bits. -/
def ROTL32 (x n : Nat) : Nat := ((x <<< n) % 2 ^ 32) ||| (x >>> (32 - n))

/-- One iteration of the loop of initTTable: entry i of each table is the
S-box byte of i, shifted to its byte position (a byte shifted by at most 24
bits stays within 32 bits), then xored with its four rotations. -/
def initTTableStep (i : Nat) (t : TTables) : TTables :=
  let b := S_BOX.getD i 0
  let t0 := b <<< 24
  let t0 := t0 ^^^ ROTL32 t0 2 ^^^ ROTL32 t0 10 ^^^ ROTL32 t0 18 ^^^ ROTL32 t0 24
  let t1 := b <<< 16
  let t1 := t1 ^^^ ROTL32 t1 2 ^^^ ROTL32 t1 10 ^^^ ROTL32 t1 18 ^^^ ROTL32 t1 24
  let t2 := b <<< 8
  let t2 := t2 ^^^ ROTL32 t2 2 ^^^ ROTL32 t2 10 ^^^ ROTL32 t2 18 ^^^ ROTL32 t2 24
  let t3 := b
  let t3 := t3 ^^^ ROTL32 t3 2 ^^^ ROTL32 t3 10 ^^^ ROTL32 t3 18 ^^^ ROTL32 t3 24
  { T0 := t.T0.set i t0, T1 := t.T1.set i t1, T2 := t.T2.set i t2, T3 := t.T3.set i t3 }

/-- The function initTTable, on the tables as they are before the call. -/
def initTTable (t : TTables) : TTables := forLoop 256 initTTableStep t

/-- The tables after the call of initTTable that main makes first: the global
arrays start zeroed. -/
def tables : TTables := initTTable TTables.zero

/-- The function nonlinearTransform: four table lookups, with the tables t as
the global arrays hold them. -/
def nonlinearTransform (t : TTables) (x : Nat) : Nat :=
  t.T0.getD ((x >>> 24) &&& 0xFF) 0 ^^^
    t.T1.getD ((x >>> 16) &&& 0xFF) 0 ^^^
    t.T2.getD ((x >>> 8) &&& 0xFF) 0 ^^^
    t.T3.getD (x &&& 0xFF) 0

/-- One iteration of the key-expansion loop on the pair (K, rk). -/
def keyExpansionStep (t : TTables) (i : Nat) (s : List Nat × List Nat) : List Nat × List Nat :=
  let K := s.1
  let rk := s.2
  let v := K.getD (i % 4) 0 ^^^
    nonlinearTransform t (K.getD ((i + 1) % 4) 0 ^^^ K.getD ((i + 2) % 4) 0 ^^^
      K.getD ((i + 3) % 4) 0 ^^^ CK.getD i 0)
  (K.set (i % 4) v, rk.set i v)

/-- The function keyExpansion: the 32 round keys of a key of four words. -/
def keyExpansion (t : TTables) (key : List Nat) : List Nat :=
  let K := [key.getD 0 0 ^^^ FK.getD 0 0, key.getD 1 0 ^^^ FK.getD 1 0,
            key.getD 2 0 ^^^ FK.getD 2 0, key.getD 3 0 ^^^ FK.getD 3 0]
  (forLoop 32 (keyExpansionStep t) (K, List.replicate 32 0)).2

/-- One round on the register X with the round key word k. -/
def round (t : TTables) (k : Nat) (X : List Nat) : List Nat :=
  let temp := X.getD 0 0 ^^^
    nonlinearTransform t (X.getD 1 0 ^^^ X.getD 2 0 ^^^ X.getD 3 0 ^^^ k)
  [X.getD 1 0, X.getD 2 0, X.getD 3 0, temp]

/-- The function sm4Encrypt: encryption of a block of four words under a key
of four words. -/
def sm4Encrypt (t : TTables) (plaintext key : List Nat) : List Nat :=
  let rk := keyExpansion t key
  let X := forLoop 32 (fun i X => round t (rk.getD i 0) X)
    [plaintext.getD 0 0, plaintext.getD 1 0, plaintext.getD 2 0, plaintext.getD 3 0]
  [X.getD 3 0, X.getD 2 0, X.getD 1 0, X.getD 0 0]

end SM4TTable

namespace SM4AESNI

/-- S_BOX of SM4-T-table-AESNI.cpp, lines 9-26. -/
def S_BOX : List Nat := [
  0xd6, 0x90, 0xe9, 0xfe, 0xcc, 0xe1, 0x3d, 0xb7, 0x16, 0xb6, 0x14, 0xc2, 0x28, 0xfb, 0x2c, 0x05,
  0x2b, 0x67, 0x9a, 0x76, 0x2a, 0xbe, 0x04, 0xc3, 0xaa, 0x44, 0x13, 0x26, 0x49, 0x86, 0x06, 0x99,
  0x9c, 0x42, 0x50, 0xf4, 0x91, 0xef, 0x98, 0x7a, 0x33, 0x54, 0x0b, 0x43, 0xed, 0xcf, 0xac, 0x62,
  0xe4, 0xb3, 0x1c, 0xa9, 0xc9, 0x08, 0xe8, 0x95, 0x80, 0xdf, 0x94, 0xfa, 0x75, 0x8f, 0x3f, 0xa6,
  0x47, 0x07, 0xa7, 0xfc, 0xf3, 0x73, 0x17, 0xba, 0x83, 0x59, 0x3c, 0x19, 0xe6, 0x85, 0x4f, 0xa8,
  0x68, 0x6b, 0x81, 0xb2, 0x71, 0x64, 0xda, 0x8b, 0xf8, 0xeb, 0x0f, 0x4b, 0x70, 0x56, 0x9d, 0x35,
  0x1e, 0x24, 0x0e, 0x5e, 0x63, 0x58, 0xd1, 0xa2, 0x25, 0x22, 0x7c, 0x3b, 0x01, 0x21, 0x78, 0x87,
  0xd4, 0x00, 0x46, 0x57, 0x9f, 0xd3, 0x27, 0x52, 0x4c, 0x36, 0x02, 0xe7, 0xa0, 0xc4, 0xc8, 0x9e,
  0xea, 0xbf, 0x8a, 0xd2, 0x40, 0xc7, 0x38, 0xb5, 0xa3, 0xf7, 0xf2, 0xce, 0xf9, 0x61, 0x15, 0xa1,
  0xe0, 0xae, 0x5d, 0xa4, 0x9b, 0x34, 0x1a, 0x55, 0xad, 0x93, 0x32, 0x30, 0xf5, 0x8c, 0xb1, 0xe3,
  0x1d, 0xf6, 0xe2, 0x2e, 0x82, 0x66, 0xca, 0x60, 0xc0, 0x29, 0x23, 0xab, 0x0d, 0x53, 0x4e, 0x6f,
  0xd5, 0xdb, 0x37, 0x45, 0xde, 0xfd, 0x8e, 0x2f, 0x03, 0xff, 0x6a, 0x72, 0x6d, 0x6c, 0x5b, 0x51,
  0x8d, 0x1b, 0xaf, 0x92, 0xbb, 0xdd, 0xbc, 0x7f, 0x11, 0xd9, 0x5c, 0x41, 0x1f, 0x10, 0x5a, 0xd8,
  0x0a, 0xc1, 0x31, 0x88, 0xa5, 0xcd, 0x7b, 0xbd, 0x2d, 0x74, 0xd0, 0x12, 0xb8, 0xe5, 0xb4, 0xb0,
  0x89, 0x69, 0x97, 0x4a, 0x0c, 0x96, 0x77, 0x7e, 0x65, 0xb9, 0xf1, 0x09, 0xc5, 0x6e, 0xc6, 0x84,
  0x18, 0xf0, 0x7d, 0xec, 0x3a, 0xdc, 0x4d, 0x20, 0x79, 0xee, 0x5f, 0x3e, 0xd7, 0xcb, 0x39, 0x48]

/-- FK of SM4-T-table-AESNI.cpp, line 31. -/
def FK : List Nat := [0xa3b1bac6, 0x56aa3350, 0x677d9197, 0xb27022dc]

/-- CK of SM4-T-table-AESNI.cpp, lines 36-45. -/
def CK : List Nat := [
  0x00070e15, 0x1c232a31, 0x383f464d, 0x545b6269,
  0x70777e85, 0x8c939aa1, 0xa8afb6bd, 0xc4cbd2d9,
  0xe0e7eef5, 0xfc030a11, 0x181f262d, 0x343b4249,
  0x50575e65, 0x6c737a81, 0x888f969d, 0xa4abb2b9,
  0xc0c7ced5, 0xdce3eaf1, 0xf8ff060d, 0x141b2229,
  0x30373e45, 0x4c535a61, 0x686f767d, 0x848b9299,
  0xa0a7aef5, 0xbcc3cad1, 0xd8dfe6ed, 0xf4fb0209,
  0x10171e25, 0x2c333a41, 0x484f565d, 0x646b7279]

/-- ROTL32, the macro of line 53: the left shift is reduced to 32 bits. -/
def ROTL32 (x n : Nat) : Nat := ((x <<< n) % 2 ^ 32) ||| (x >>> (32 - n))

/-- One iteration of the loop of initTTable: entry i of each table is the
S-box byte of i, shifted to its byte position (a byte shifted by at most 24
bits stays within 32 bits), then xored with its four rotations. -/
def initTTableStep (i : Nat) (t : TTables) : TTables :=
  let b := S_BOX.getD i 0
  let t0 := b <<< 24
  let t0 := t0 ^^^ ROTL32 t0 2 ^^^ ROTL32 t0 10 ^^^ ROTL32 t0 18 ^^^ ROTL32 t0 24
  let t1 := b <<< 16
  let t1 := t1 ^^^ ROTL32 t1 2 ^^^ ROTL32 t1 10 ^^^ ROTL32 t1 18 ^^^ ROTL32 t1 24
  let t2 := b <<< 8
  let t2 := t2 ^^^ ROTL32 t2 2 ^^^ ROTL32 t2 10 ^^^ ROTL32 t2 18 ^^^ ROTL32 t2 24
  let t3 := b
  let t3 := t3 ^^^ ROTL32 t3 2 ^^^ ROTL32 t3 10 ^^^ ROTL32 t3 18 ^^^ ROTL32 t3 24
  { T0 := t.T0.set i t0, T1 := t.T1.set i t1, T2 := t.T2.set i t2, T3 := t.T3.set i t3 }

/-- The function initTTable, on the tables as they are before the call. -/
def initTTable (t : TTables) : TTables := forLoop 256 initTTableStep t

/-- The tables after the call of initTTable that main makes first: the global
arrays start zeroed. -/
def tables : TTables := initTTable TTables.zero

/-- The function nonlinearTransform: four table lookups, with the tables t as
the global arrays hold them. -/
def nonlinearTransform (t : TTables) (x : Nat) : Nat :=
  t.T0.getD ((x >>> 24) &&& 0xFF) 0 ^^^
    t.T1.getD ((x >>> 16) &&& 0xFF) 0 ^^^
    t.T2.getD ((x >>> 8) &&& 0xFF) 0 ^^^
    t.T3.getD (x &&& 0xFF) 0

/-! A value of type __m128i is the list of its four 32-bit lanes, lane 0
first: lane k holds the bits 32k to 32k + 31, and a load or a store of four
consecutive words puts word k of memory in lane k. The intrinsics below have
the meaning the Intel Intrinsics Guide gives them. -/

/-- The intrinsic _mm_loadu_si128 on four words of an array, from index p. -/
def _mm_loadu_si128 (a : List Nat) (p : Nat) : List Nat :=
  [a.getD p 0, a.getD (p + 1) 0, a.getD (p + 2) 0, a.getD (p + 3) 0]

/-- The intrinsic _mm_storeu_si128 to four words of an array, from index p. -/
def _mm_storeu_si128 (a : List Nat) (p : Nat) (v : List Nat) : List Nat :=
  (((a.set p (v.getD 0 0)).set (p + 1) (v.getD 1 0)).set (p + 2) (v.getD 2 0)).set (p + 3)
    (v.getD 3 0)

/-- The intrinsic _mm_xor_si128. -/
def _mm_xor_si128 (a b : List Nat) : List Nat :=
  [a.getD 0 0 ^^^ b.getD 0 0, a.getD 1 0 ^^^ b.getD 1 0, a.getD 2 0 ^^^ b.getD 2 0,
   a.getD 3 0 ^^^ b.getD 3 0]

/-- The macro _MM_SHUFFLE(z, y, x, w). -/
def _MM_SHUFFLE (z y x w : Nat) : Nat := (z <<< 6) ||| (y <<< 4) ||| (x <<< 2) ||| w

/-- The intrinsic _mm_shuffle_epi32: lane k of the result is the lane of a
selected by the bits 2k and 2k + 1 of the immediate. -/
def _mm_shuffle_epi32 (a : List Nat) (imm8 : Nat) : List Nat :=
  [a.getD (imm8 &&& 3) 0, a.getD ((imm8 >>> 2) &&& 3) 0, a.getD ((imm8 >>> 4) &&& 3) 0,
   a.getD ((imm8 >>> 6) &&& 3) 0]

/-- The intrinsic _mm_extract_epi32. -/
def _mm_extract_epi32 (a : List Nat) (k : Nat) : Nat := a.getD k 0

/-- The intrinsic _mm_set1_epi32. -/
def _mm_set1_epi32 (w : Nat) : List Nat := [w, w, w, w]

/-- The intrinsic _mm_insert_epi32. -/
def _mm_insert_epi32 (a : List Nat) (w k : Nat) : List Nat := a.set k w

/-- One iteration of the loop of keyExpansionAESNI (i = 0, 4, ..., 28) on the
pair (K, rk); it is the iteration number m, with i = 4 m. -/
def keyExpansionAESNIStep (t : TTables) (m : Nat) (s : List Nat × List Nat) :
    List Nat × List Nat :=
  let i := 4 * m
  let K := s.1
  let rk := s.2
  let ck_low := _mm_loadu_si128 CK 0
  let ck_mid1 := _mm_loadu_si128 CK 4
  let ck_mid2 := _mm_loadu_si128 CK 8
  let ck_high := _mm_loadu_si128 CK 12
  let ck_vec :=
    if i < 16 then
      if i < 8 then (if i < 4 then ck_low else ck_mid1)
      else ck_mid2
    else ck_high
  let K1 := _mm_shuffle_epi32 K (_MM_SHUFFLE 0 3 2 1)
  let K2 := _mm_shuffle_epi32 K (_MM_SHUFFLE 1 0 3 2)
  let K3 := _mm_shuffle_epi32 K (_MM_SHUFFLE 2 1 0 3)
  let temp := _mm_xor_si128 K1 K2
  let temp := _mm_xor_si128 temp K3
  let temp := _mm_xor_si128 temp ck_vec
  let temp_words := _mm_storeu_si128 (List.replicate 4 0) 0 temp
  let trans_words := forLoop 4 (fun j (tw : List Nat) =>
    if i + j < 32 then tw.set j (nonlinearTransform t (temp_words.getD j 0))
    else tw.set j 0) (List.replicate 4 0)
  let trans_vec := _mm_loadu_si128 trans_words 0
  let new_K := _mm_xor_si128 K trans_vec
  let rk :=
    if i < 28 then _mm_storeu_si128 rk (i + 4) new_K
    else
      let last_words := _mm_storeu_si128 (List.replicate 4 0) 0 new_K
      forLoop 4 (fun j (r : List Nat) =>
        if i + 4 + j < 32 then r.set (i + 4 + j) (last_words.getD j 0) else r) rk
  (new_K, rk)

/-- The function keyExpansionAESNI: the array rk after the call. -/
def keyExpansionAESNI (t : TTables) (key : List Nat) : List Nat :=
  let key_vec := _mm_loadu_si128 key 0
  let fk_vec := _mm_loadu_si128 FK 0
  let K := _mm_xor_si128 key_vec fk_vec
  let rk := _mm_storeu_si128 (List.replicate 32 0) 0 K
  (forLoop 8 (keyExpansionAESNIStep t) (K, rk)).2

/-- One round of sm4EncryptAESNI on the register X, for the round number i
and the vectors rk_vecs of round keys. -/
def roundAESNI (t : TTables) (rk_vecs : List (List Nat)) (i : Nat) (X : List Nat) : List Nat :=
  let rk_vec := rk_vecs.getD (i / 4) []
  let rk_word :=
    if i % 4 = 0 then _mm_extract_epi32 rk_vec 0
    else if i % 4 = 1 then _mm_extract_epi32 rk_vec 1
    else if i % 4 = 2 then _mm_extract_epi32 rk_vec 2
    else _mm_extract_epi32 rk_vec 3
  let X1 := _mm_shuffle_epi32 X (_MM_SHUFFLE 0 3 2 1)
  let X2 := _mm_shuffle_epi32 X (_MM_SHUFFLE 1 0 3 2)
  let X3 := _mm_shuffle_epi32 X (_MM_SHUFFLE 2 1 0 3)
  let temp := _mm_xor_si128 X1 X2
  let temp := _mm_xor_si128 temp X3
  let rk_broadcast := _mm_set1_epi32 rk_word
  let temp := _mm_xor_si128 temp rk_broadcast
  let temp_word := _mm_extract_epi32 temp 0
  let trans_word := nonlinearTransform t temp_word
  let X0 := _mm_extract_epi32 X 0
  let new_X3 := X0 ^^^ trans_word
  let X := _mm_shuffle_epi32 X (_MM_SHUFFLE 0 3 2 1)
  _mm_insert_epi32 X new_X3 3

/-- The function sm4EncryptAESNI: the four ciphertext words. -/
def sm4EncryptAESNI (t : TTables) (plaintext key : List Nat) : List Nat :=
  let rk := keyExpansionAESNI t key
  let X := _mm_loadu_si128 plaintext 0
  let rk_vecs := forLoop 8 (fun i (v : List (List Nat)) => v.set i (_mm_loadu_si128 rk (i * 4)))
    (List.replicate 8 [])
  let X := forLoop 32 (roundAESNI t rk_vecs) X
  let cipher := _mm_shuffle_epi32 X (_MM_SHUFFLE 0 1 2 3)
  _mm_storeu_si128 (List.replicate 4 0) 0 cipher

end SM4AESNI

/-- The block and the key of the main functions: 01 23 45 67 89 ab cd ef fe dc
ba 98 76 54 32 10 as four big-endian words. -/
def testWords : List Nat := [0x01234567, 0x89abcdef, 0xfedcba98, 0x76543210]

/-! ## The hash function SM3 (project4/SM3.cpp)

The class SM3 of "project4/SM3_length-extension attack.cpp" is the same text
with every member public, and sm3_merkletree.cpp includes SM3.cpp, so this one
embedding serves the three files. An object of the class is a value of the
structure SM3; a member function that changes the object returns the new
object. -/

/-- The members of the class SM3: the block buffer, the number of bytes in it,
the bit count and the chaining value. -/
structure SM3 where
  message_block : List Nat
  message_length : Nat
  total_bits : Nat
  digest : List Nat

namespace SM3

/-- IV of SM3.cpp, lines 189-192. -/
def IV : List Nat :=
  [0x7380166F, 0x4914B2B9, 0x172442D7, 0xDA8A0600,
   0xA96F30BC, 0x163138AA, 0xE38DEE4D, 0xB0FB0E4E]

/-- The expression x << n on a 32-bit word. C++ defines it for the counts 0 to
31 only, and compress calls rotate_left(T(j), j) with j up to 63. The count is
taken modulo 32 here, which is what the shift instructions of x86 do and what
the rotation _rotl that SM3-optimized.h puts in the place of this expression
does; for the counts 0 to 31 this is the C++ value. -/
def shl32 (x n : Nat) : Nat := (x <<< (n % 32)) % 2 ^ 32

/-- The expression x >> n on a 32-bit word, with the count taken modulo 32 in
the same way. -/
def shr32 (x n : Nat) : Nat := x >>> (n % 32)

/-- The function rotate_left: (x << n) | (x >> (32 - n)), the subtraction being
one of 32-bit unsigned numbers. -/
def rotate_left (x n : Nat) : Nat := shl32 x n ||| shr32 x ((32 + 2 ^ 32 - n) % 2 ^ 32)

/-- The permutation P0. -/
def P0 (x : Nat) : Nat := x ^^^ rotate_left x 9 ^^^ rotate_left x 17

/-- The permutation P1. -/
def P1 (x : Nat) : Nat := x ^^^ rotate_left x 15 ^^^ rotate_left x 23

/-- The boolean function FF; j is never negative. -/
def FF (x y z j : Nat) : Nat :=
  if j ≤ 15 then x ^^^ y ^^^ z else (x &&& y) ||| (x &&& z) ||| (y &&& z)

/-- The boolean function GG; the complement is the one of a 32-bit word. -/
def GG (x y z j : Nat) : Nat :=
  if j ≤ 15 then x ^^^ y ^^^ z else (x &&& y) ||| ((x ^^^ 0xFFFFFFFF) &&& z)

/-- The constant T(j). -/
def T (j : Nat) : Nat := if j ≤ 15 then 0x79CC4519 else 0x7A879D8A

/-- The function expand: the arrays W (68 words) and W1 (64 words) of a block
of 64 bytes. -/
def expand (block : List Nat) : List Nat × List Nat :=
  let W := forLoop 16 (fun i (W : List Nat) => W.set i
    ((block.getD (4 * i) 0 <<< 24) ||| (block.getD (4 * i + 1) 0 <<< 16) |||
     (block.getD (4 * i + 2) 0 <<< 8) ||| block.getD (4 * i + 3) 0)) (List.replicate 68 0)
  let W := forLoop 52 (fun k (W : List Nat) =>
    let j := k + 16
    W.set j (P1 (W.getD (j - 16) 0 ^^^ W.getD (j - 9) 0 ^^^ rotate_left (W.getD (j - 3) 0) 15) ^^^
      rotate_left (W.getD (j - 13) 0) 7 ^^^ W.getD (j - 6) 0)) W
  let W1 := forLoop 64 (fun j (W1 : List Nat) => W1.set j (W.getD j 0 ^^^ W.getD (j + 4) 0))
    (List.replicate 64 0)
  (W, W1)

/-- One of the 64 rounds of compress on the working variables
[A, B, C, D, E, F, G, H]; the sums are sums of 32-bit words. -/
def compressRound (W W1 : List Nat) (j : Nat) (v : List Nat) : List Nat :=
  let A := v.getD 0 0
  let B := v.getD 1 0
  let C := v.getD 2 0
  let D := v.getD 3 0
  let E := v.getD 4 0
  let F := v.getD 5 0
  let G := v.getD 6 0
  let H := v.getD 7 0
  let SS1 := rotate_left ((rotate_left A 12 + E + rotate_left (T j) j) % 2 ^ 32) 7
  let SS2 := SS1 ^^^ rotate_left A 12
  let TT1 := (FF A B C j + D + SS2 + W1.getD j 0) % 2 ^ 32
  let TT2 := (GG E F G j + H + SS1 + W.getD j 0) % 2 ^ 32
  [TT1, A, rotate_left B 9, C, P0 TT2, E, rotate_left F 19, G]

/-- The function compress: the array digest after the call, for the array
digest before the call and a block of 64 bytes. -/
def compress (digest block : List Nat) : List Nat :=
  let WW := expand block
  let v := forLoop 64 (compressRound WW.1 WW.2)
    [digest.getD 0 0, digest.getD 1 0, digest.getD 2 0, digest.getD 3 0,
     digest.getD 4 0, digest.getD 5 0, digest.getD 6 0, digest.getD 7 0]
  forLoop 8 (fun i (d : List Nat) => d.set i (d.getD i 0 ^^^ v.getD i 0)) digest

/-- The function reset, which the constructor calls: the fresh object. -/
def reset : SM3 :=
  { message_block := List.replicate 64 0, message_length := 0, total_bits := 0,
    digest := memcpy (List.replicate 8 0) 0 IV 0 8 }

/-- One iteration of the loop of update, for the byte data[i]. -/
def updateByte (byte : Nat) (self : SM3) : SM3 :=
  let message_block := self.message_block.set self.message_length byte
  let message_length := self.message_length + 1
  if message_length = 64 then
    { message_block := message_block, message_length := 0,
      total_bits := (self.total_bits + 512) % 2 ^ 64,
      digest := compress self.digest message_block }
  else
    { message_block := message_block, message_length := message_length,
      total_bits := self.total_bits, digest := self.digest }

/-- The function update on the bytes of data; length is the length of the
list. -/
def update (self : SM3) (data : List Nat) : SM3 :=
  forLoop data.length (fun i s => updateByte (data.getD i 0) s) self

/-- The loops while (message_length < limit) message_block[message_length++] =
0x00 of final, on the pair (message_block, message_length). At most 64
iterations run, so the fuel 64 is never exhausted. -/
def zeroFill (limit : Nat) : Nat → List Nat × Nat → List Nat × Nat
  | 0, s => s
  | fuel + 1, s =>
    if s.2 < limit then zeroFill limit fuel (s.1.set s.2 0x00, s.2 + 1) else s

/-- The function final: the 32 bytes written to result, and the object after
the call (which final resets). -/
def final (self : SM3) : List Nat × SM3 :=
  let total_bits := (self.total_bits + self.message_length * 8) % 2 ^ 64
  let message_block := self.message_block.set self.message_length 0x80
  let message_length := self.message_length + 1
  let s :=
    if message_length > 56 then
      let p := zeroFill 64 64 (message_block, message_length)
      (p.1, 0, compress self.digest p.1)
    else (message_block, message_length, self.digest)
  let p := zeroFill 56 64 (s.1, s.2.1)
  let message_block := forLoop 8 (fun i (b : List Nat) =>
    b.set (56 + i) ((total_bits >>> (8 * (7 - i))) &&& 0xFF)) p.1
  let digest := compress s.2.2 message_block
  let result := forLoop 8 (fun i (r : List Nat) =>
    (((r.set (4 * i) ((digest.getD i 0 >>> 24) &&& 0xFF)).set (4 * i + 1)
      ((digest.getD i 0 >>> 16) &&& 0xFF)).set (4 * i + 2)
      ((digest.getD i 0 >>> 8) &&& 0xFF)).set (4 * i + 3) (digest.getD i 0 &&& 0xFF))
    (List.replicate 32 0)
  (result, reset)

/-- The function hash: a fresh object, update, final. -/
def hash (data : List Nat) : List Nat := (final (update reset data)).1

end SM3

/-! ## The length-extension demonstration (project4/SM3_length-extension attack.cpp)

A std::string is the list of the codes of its characters. -/

/-- The string hex_chars of bytes_to_hex: "0123456789ABCDEF". -/
def hex_chars : List Nat :=
  [0x30, 0x31, 0x32, 0x33, 0x34, 0x35, 0x36, 0x37, 0x38, 0x39, 0x41, 0x42, 0x43, 0x44, 0x45, 0x46]

/-- The function bytes_to_hex: two upper-case hexadecimal digits for each
byte. -/
def bytes_to_hex (bytes : List Nat) : List Nat :=
  forLoop bytes.length (fun i (hex_str : List Nat) =>
    (hex_str ++ [hex_chars.getD ((bytes.getD i 0 >>> 4) &&& 0x0F) 0]) ++
      [hex_chars.getD (bytes.getD i 0 &&& 0x0F) 0]) []

/-- The value hex_to_bytes gives one character: a digit 0-9 or A-F is its
value, every other character is 0. -/
def hexDigitValue (c : Nat) : Nat :=
  if 0x30 ≤ c ∧ c ≤ 0x39 then c - 0x30
  else if 0x41 ≤ c ∧ c ≤ 0x46 then c - 0x41 + 10 else 0

/-- The function hex_to_bytes: one byte for each pair of characters; the
character read past the end of a string of odd length is the terminating
zero. -/
def hex_to_bytes (hex : List Nat) : List Nat :=
  forLoop ((hex.length + 1) / 2) (fun k (bytes : List Nat) =>
    let i := 2 * k
    let byte := (hexDigitValue (hex.getD i 0) <<< 4) % 2 ^ 8
    let byte := byte ||| hexDigitValue (hex.getD (i + 1) 0)
    bytes ++ [byte]) []

/-- The function length_extension_attack. -/
def length_extension_attack (original_hash : List Nat) (original_length : Nat)
    (append_data : List Nat) : List Nat :=
  let hash_bytes := hex_to_bytes original_hash
  let forged_digest := forLoop 8 (fun i (d : List Nat) => d.set i
    ((hash_bytes.getD (4 * i) 0 <<< 24) ||| (hash_bytes.getD (4 * i + 1) 0 <<< 16) |||
     (hash_bytes.getD (4 * i + 2) 0 <<< 8) ||| hash_bytes.getD (4 * i + 3) 0)) (List.replicate 8 0)
  let forged_sm3 := SM3.reset
  let forged_sm3 := { forged_sm3 with digest := memcpy forged_sm3.digest 0 forged_digest 0 8 }
  let total_bits := (original_length * 8) % 2 ^ 64
  let padding_length :=
    if original_length % 64 < 56 then 56 - original_length % 64
    else 64 + 56 - original_length % 64
  let padding_length := padding_length + 1
  let forged_sm3 := { forged_sm3 with
    total_bits := (total_bits + padding_length * 8) % 2 ^ 64, message_length := 0 }
  let forged_sm3 := SM3.update forged_sm3 append_data
  bytes_to_hex (SM3.final forged_sm3).1

/-! ## The Merkle tree (project4/sm3_merkletree.cpp)

A node is represented by its field hash, the only field the functions below
read; a vector of node pointers is the list of these hashes. Every pointer the
tree stores comes from new, so none is null. A proof is a list of pairs
(sibling hash, flag). Leaf counts are far below 2^64 and do not wrap. -/

/-- The constant HASH_SIZE. -/
def HASH_SIZE : Nat := 32

/-- EMPTY_HASH of sm3_merkletree.cpp, lines 31-36. -/
def EMPTY_HASH : List Nat :=
  [0x1A, 0xB2, 0x1D, 0x83, 0x55, 0xCF, 0xA1, 0x7F,
   0x8E, 0x61, 0x19, 0x48, 0x31, 0xE8, 0x1A, 0x8F,
   0x79, 0xC2, 0xB6, 0x77, 0x3A, 0x0F, 0xF8, 0xE5,
   0x34, 0xDF, 0xB6, 0x40, 0x6B, 0x7E, 0xDE, 0xE]

/-- The function combineHashes: the hash of the 64 bytes left, right. -/
def combineHashes (left right : List Nat) : List Nat :=
  let combined := memcpy (List.replicate (HASH_SIZE * 2) 0) 0 left 0 HASH_SIZE
  let combined := memcpy combined HASH_SIZE right 0 HASH_SIZE
  SM3.hash combined

/-- The test memcmp(a, b, n) == 0. -/
def memcmpEq (a b : List Nat) (n : Nat) : Bool :=
  (List.range n).all (fun k => a.getD k 0 == b.getD k 0)

/-- The members of the class MerkleTree; root is none for nullptr. -/
structure MerkleTree where
  root : Option (List Nat)
  leaves : List (List Nat)
  leafCount : Nat
  levels : List (List (List Nat))

namespace MerkleTree

/-- The constructor: no root, no leaves. -/
def new : MerkleTree := { root := none, leaves := [], leafCount := 0, levels := [] }

/-- The loop while (required < leafCount) required <<= 1 of buildTree. The
value doubles at every iteration, so leafCount iterations are enough. -/
def requiredLoop (leafCount : Nat) : Nat → Nat → Nat
  | 0, required => required
  | fuel + 1, required =>
    if required < leafCount then requiredLoop leafCount fuel (required <<< 1) else required

/-- The inner loop of buildTree: the level above a level. The iteration number
k has i = 2 k. -/
def nextLevel (level : List (List Nat)) : List (List Nat) :=
  forLoop ((level.length + 1) / 2) (fun k (nextLevel : List (List Nat)) =>
    let i := 2 * k
    let left := level.getD i []
    let right := if i + 1 < level.length then level.getD (i + 1) [] else left
    nextLevel ++ [combineHashes left right]) []

/-- The loop while (levels.back().size() > 1) of buildTree. The size of the
last level at least halves (rounded up) at every iteration, so as many
iterations as there are leaves are enough. -/
def levelsLoop : Nat → List (List (List Nat)) → List (List (List Nat))
  | 0, levels => levels
  | fuel + 1, levels =>
    if (levels.getLastD []).length > 1 then
      levelsLoop fuel (levels ++ [nextLevel (levels.getLastD [])])
    else levels

/-- The function buildTree. -/
def buildTree (self : MerkleTree) : MerkleTree :=
  if self.leafCount = 0 then { self with root := none }
  else
    let required := requiredLoop self.leafCount self.leafCount 1
    let leaves := forLoop (required - self.leafCount) (fun _ (l : List (List Nat)) =>
      l ++ [EMPTY_HASH]) self.leaves
    let levels := levelsLoop leaves.length [leaves]
    { root := some ((levels.getLastD []).getD 0 []), leaves := leaves, leafCount := required,
      levels := levels }

/-- The function MerkleTree::initialize (its name is a keyword of Lean, hence
init). -/
def init (self : MerkleTree) (dataList : List (List Nat)) : MerkleTree :=
  let leaves := forLoop dataList.length (fun i (l : List (List Nat)) =>
    l ++ [SM3.hash (dataList.getD i [])]) []
  buildTree { self with leaves := leaves, leafCount := dataList.length }

/-- The function getRootHash: the 32 bytes written to result. -/
def getRootHash (self : MerkleTree) : List Nat :=
  match self.root with
  | none => List.replicate HASH_SIZE 0
  | some h => memcpy (List.replicate HASH_SIZE 0) 0 h 0 HASH_SIZE

/-- One iteration of the loop of generateInclusionProof, for the level i, on
the pair (proof, currentIndex). -/
def proofStep (levels : List (List (List Nat))) (i : Nat)
    (s : List (List Nat × Bool) × Nat) : List (List Nat × Bool) × Nat :=
  let currentIndex := s.2
  let isLeft := currentIndex % 2 == 0
  let siblingIndex := if isLeft then currentIndex + 1 else currentIndex - 1
  let siblingIndex :=
    if siblingIndex ≥ (levels.getD i []).length then currentIndex else siblingIndex
  let siblingHash := memcpy (List.replicate HASH_SIZE 0) 0
    ((levels.getD i []).getD siblingIndex []) 0 HASH_SIZE
  (s.1 ++ [(siblingHash, isLeft)], currentIndex / 2)

/-- The function generateInclusionProof: the returned flag and the vector
proof after the call, for the vector proof before the call. -/
def generateInclusionProof (self : MerkleTree) (index : Nat) (proof : List (List Nat × Bool)) :
    Bool × List (List Nat × Bool) :=
  if index ≥ self.leafCount ∨ self.root = none then (false, proof)
  else (true, (forLoop (self.levels.length - 1) (proofStep self.levels) ([], index)).1)

/-- One iteration of the loop of verifyInclusionProof: the array currentHash
after the iteration for the proof entry p. -/
def verifyStep (currentHash : List Nat) (p : List Nat × Bool) : List Nat :=
  let combinedHash :=
    if p.2 then combineHashes currentHash p.1 else combineHashes p.1 currentHash
  memcpy currentHash 0 combinedHash 0 HASH_SIZE

/-- The function verifyInclusionProof; it does not read its parameter
index. -/
def verifyInclusionProof (dataHash : List Nat) (_index : Nat) (proof : List (List Nat × Bool))
    (rootHash : List Nat) : Bool :=
  let currentHash := memcpy (List.replicate HASH_SIZE 0) 0 dataHash 0 HASH_SIZE
  let currentHash := proof.foldl verifyStep currentHash
  memcmpEq currentHash rootHash HASH_SIZE

/-- What generateExclusionProof leaves in its reference parameters. -/
structure ExclusionProof where
  leftProof : List (List Nat × Bool)
  rightProof : List (List Nat × Bool)
  leftIndex : Nat
  rightIndex : Nat

/-- The function generateExclusionProof: the returned flag and the reference
parameters after the call, for their values p before the call. The index
arithmetic is that of size_t, so index - 1 is 2^64 - 1 for the index 0. No
element of leaves is null, so the two loops that skip null leaves do not
iterate. -/
def generateExclusionProof (self : MerkleTree) (index : Nat) (p : ExclusionProof) :
    Bool × ExclusionProof :=
  if index ≥ self.leafCount ∨ self.leafCount < 2 ∨ self.root = none then (false, p)
  else
    let leftIndex := (index + 2 ^ 64 - 1) % 2 ^ 64
    let rightIndex := (index + 1) % 2 ^ 64
    if leftIndex ≥ self.leafCount ∧ rightIndex ≥ self.leafCount then
      (false, { p with leftIndex := leftIndex, rightIndex := rightIndex })
    else
      let leftProof :=
        if leftIndex < self.leafCount then (generateInclusionProof self leftIndex p.leftProof).2
        else p.leftProof
      let rightProof :=
        if rightIndex < self.leafCount then (generateInclusionProof self rightIndex p.rightProof).2
        else p.rightProof
      (true, { leftProof := leftProof, rightProof := rightProof, leftIndex := leftIndex,
               rightIndex := rightIndex })

/-- The function verifyExclusionProof. -/
def verifyExclusionProof (self : MerkleTree) (index : Nat)
    (leftProof rightProof : List (List Nat × Bool)) (leftIndex rightIndex : Nat)
    (leftHash rightHash rootHash : List Nat) : Bool :=
  let leftValid :=
    if leftIndex < self.leafCount then verifyInclusionProof leftHash leftIndex leftProof rootHash
    else false
  if leftIndex < self.leafCount ∧ (!leftValid ∨ leftIndex ≥ index) then false
  else
    let rightValid :=
      if rightIndex < self.leafCount then
        verifyInclusionProof rightHash rightIndex rightProof rootHash
      else false
    if rightIndex < self.leafCount ∧ (!rightValid ∨ rightIndex ≤ index) then false
    else if leftIndex < self.leafCount ∧ rightIndex < self.leafCount ∧
        rightIndex ≠ leftIndex + 1 then false
    else leftValid || rightValid

/-- The function getLeafHash: the returned flag and the 32 bytes written to
result (result is left as it was, here result0, when the flag is false). -/
def getLeafHash (self : MerkleTree) (index : Nat) (result0 : List Nat) : Bool × List Nat :=
  if index ≥ self.leafCount then (false, result0)
  else (true, memcpy result0 0 (self.leaves.getD index []) 0 HASH_SIZE)

end MerkleTree

namespace Spec

/-- The update of the shifting copy of gfmul as the specification words it: v
read as a 128-bit big-endian value is shifted right by one bit (the low bit of
byte k becomes the high bit of byte k + 1, the high bit of byte 0 becomes 0),
then 0xe1 is xored into byte 0 when the bit shifted out of byte 15 was 1. -/
def shiftRightBE (v : List Nat) : List Nat :=
  let shifted := (List.range 16).map (fun k =>
    (v.getD k 0 >>> 1) ||| (if k = 0 then 0 else (v.getD (k - 1) 0 &&& 1) <<< 7))
  if v.getD 15 0 &&& 1 = 1 then shifted.set 0 (shifted.getD 0 0 ^^^ 0xe1) else shifted

end Spec

/-- The string key_message of test_length_extension_attack: "key" followed by
"msg". -/
def testKeyMessage : List Nat := [0x6b, 0x65, 0x79, 0x6d, 0x73, 0x67]

/-- The string append_data of test_length_extension_attack: "ext". -/
def testAppendData : List Nat := [0x65, 0x78, 0x74]

/-- One iteration of the loop of ghash on a whole block of 16 bytes at the
position pos: the accumulator after the iteration (lines 164-173 with
sz = 16). -/
def SM4GCM.GCM.ghashBlock (key data : List Nat) (pos : Nat) (hash : List Nat) : List Nat :=
  let block := memcpy (List.replicate 16 0) 0 data pos 16
  let hash := forLoop 16 (fun i h => h.set i (h.getD i 0 ^^^ block.getD i 0)) hash
  let temp := SM4GCM.GCM.gfmul hash key
  memcpy hash 0 temp 0 16

/-- The array of HASH_SIZE bytes that memcpy(dst, h, HASH_SIZE) fills from
h. -/
def hashCopy (h : List Nat) : List Nat := memcpy (List.replicate HASH_SIZE 0) 0 h 0 HASH_SIZE

/-- The state in which buildTree leaves a tree with at least one leaf: the
first level is the vector of leaves, every further level is built from the
level below it, the last level is one node, and root is that node. -/
def MerkleTree.WellBuilt (t : MerkleTree) : Prop :=
  t.levels ≠ [] ∧ t.levels.getD 0 [] = t.leaves ∧ t.leaves.length = t.leafCount ∧
  (∀ k, k + 1 < t.levels.length →
    t.levels.getD (k + 1) [] = MerkleTree.nextLevel (t.levels.getD k [])) ∧
  (t.levels.getLastD []).length = 1 ∧
  t.root = some ((t.levels.getLastD []).getD 0 [])

/-- The vector testData of testMerkleTree: 100000 strings of 16 bytes, byte j
of string i being (i + j) mod 256. -/
def testData : List (List Nat) :=
  (List.range 100000).map (fun i => (List.range 16).map (fun j => (i + j) % 256))

/-- The tree mt of testMerkleTree after mt.initialize(testData). -/
def testTree : MerkleTree := MerkleTree.new.init testData

/-- The result of the call mt.generateExclusionProof(nonExistentIndex, ...) of
testMerkleTree, where nonExistentIndex is 100000 / 2 + 1000 = 51000 and the
two proof vectors are empty before the call. -/
def testExclusion : Bool × MerkleTree.ExclusionProof :=
  testTree.generateExclusionProof 51000
    { leftProof := [], rightProof := [], leftIndex := 0, rightIndex := 0 }

/-- The function getLeafCount of sm3_merkletree.cpp. -/
def MerkleTree.getLeafCount (self : MerkleTree) : Nat := self.leafCount

/-- The object forged_sm3 of length_extension_attack at the moment update is
called on it (lines 222-247 of "SM3_length-extension attack.cpp"): the fresh
object with the digest and the bit count that the function installs. -/
def forgedContext (original_hash : List Nat) (original_length : Nat) : SM3 :=
  let hash_bytes := hex_to_bytes original_hash
  let forged_digest := forLoop 8 (fun i (d : List Nat) => d.set i
    ((hash_bytes.getD (4 * i) 0 <<< 24) ||| (hash_bytes.getD (4 * i + 1) 0 <<< 16) |||
     (hash_bytes.getD (4 * i + 2) 0 <<< 8) ||| hash_bytes.getD (4 * i + 3) 0)) (List.replicate 8 0)
  let forged_sm3 := SM3.reset
  let forged_sm3 := { forged_sm3 with digest := memcpy forged_sm3.digest 0 forged_digest 0 8 }
  let total_bits := (original_length * 8) % 2 ^ 64
  let padding_length :=
    if original_length % 64 < 56 then 56 - original_length % 64
    else 64 + 56 - original_length % 64
  let padding_length := padding_length + 1
  { forged_sm3 with
    total_bits := (total_bits + padding_length * 8) % 2 ^ 64, message_length := 0 }

namespace Spec

/-- The byte length of a message of n bytes after the padding of SM3 (the byte
0x80, zero bytes, the bit count on 8 bytes), as the specification words it: the
smallest multiple of 64 that is at least n + 9. -/
def sm3PaddedLength (n : Nat) : Nat := (n + 9 + 63) / 64 * 64

end Spec

/-- The four data members of an object of the class SM3, as one tuple. -/
def SM3.members (self : SM3) : List Nat × Nat × Nat × List Nat :=
  (self.message_block, self.message_length, self.total_bits, self.digest)

/-! ## The optimised SM3 (project4/SM3-optimized.h), x86-64 code path

The embedding follows the branches that are compiled when X86_64_ARCH is
defined. The class has the data members of the class SM3 of SM3.cpp, so an
object is again a value of the structure SM3. A 128-bit register (__m128i) is
the list of its 16 bytes, lowest address first; an array of 32-bit words is
read into and written from a register in little-endian byte order, as on
x86-64. A member function whose text can read or write outside an array
returns an Option, and none stands for such an access. -/

namespace SM3Optimized

/-- The array SM3::IV, lines 430-433. -/
def IV : List Nat :=
  [0x7380166F, 0x4914B2B9, 0x172442D7, 0xDA8A0600,
   0xA96F30BC, 0x163138AA, 0xE38DEE4D, 0xB0FB0E4E]

/-- The intrinsic _rotl: rotation of a 32-bit word to the left, the count
taken modulo 32. -/
def _rotl (x n : Nat) : Nat := ((x <<< (n % 32)) % 2 ^ 32) ||| (x >>> (32 - n % 32))

/-- The function rotate_left, lines 23-34. -/
def rotate_left (x n : Nat) : Nat := if n = 0 then x else _rotl x n

/-- The permutation P0, lines 37-47. -/
def P0 (x : Nat) : Nat :=
  let r9 := rotate_left x 9
  let r17 := rotate_left x 17
  x ^^^ r9 ^^^ r17

/-- The permutation P1, lines 50-58. -/
def P1 (x : Nat) : Nat :=
  let r15 := rotate_left x 15
  let r23 := rotate_left x 23
  x ^^^ r15 ^^^ r23

/-- The intrinsic _mm_setr_epi8: the register holding the 16 bytes in the
order given. -/
def _mm_setr_epi8 (e0 e1 e2 e3 e4 e5 e6 e7 e8 e9 e10 e11 e12 e13 e14 e15 : Nat) : List Nat :=
  [e0, e1, e2, e3, e4, e5, e6, e7, e8, e9, e10, e11, e12, e13, e14, e15]

/-- The intrinsic _mm_loadu_si128 on the address of byte p of a byte array. -/
def _mm_loadu_si128_u8 (a : List Nat) (p : Nat) : List Nat :=
  (List.range 16).map (fun k => a.getD (p + k) 0)

/-- The intrinsic _mm_loadu_si128 on the address of word p of an array of
32-bit words: the bytes of four words, each lowest byte first. -/
def _mm_loadu_si128_u32 (a : List Nat) (p : Nat) : List Nat :=
  (List.range 16).map (fun k => (a.getD (p + k / 4) 0 >>> (8 * (k % 4))) &&& 0xFF)

/-- The intrinsic _mm_storeu_si128 on the address of word p of an array of
32-bit words. -/
def _mm_storeu_si128_u32 (a : List Nat) (p : Nat) (v : List Nat) : List Nat :=
  forLoop 4 (fun k (a : List Nat) => a.set (p + k)
    (v.getD (4 * k) 0 ||| (v.getD (4 * k + 1) 0 <<< 8) ||| (v.getD (4 * k + 2) 0 <<< 16) |||
     (v.getD (4 * k + 3) 0 <<< 24))) a

/-- The intrinsic _mm_storeu_si128 on the address of byte p of a byte array. -/
def _mm_storeu_si128_u8 (a : List Nat) (p : Nat) (v : List Nat) : List Nat :=
  memcpy a p v 0 16

/-- The intrinsic _mm_shuffle_epi8: byte i of the result is zero when bit 7 of
byte i of b is set, and byte (b[i] & 15) of a otherwise. -/
def _mm_shuffle_epi8 (a b : List Nat) : List Nat :=
  (List.range 16).map (fun i =>
    if b.getD i 0 &&& 0x80 ≠ 0 then 0 else a.getD (b.getD i 0 &&& 0x0F) 0)

/-- The intrinsic _mm_xor_si128 on registers of 16 bytes. -/
def _mm_xor_si128_u8 (a b : List Nat) : List Nat :=
  (List.range 16).map (fun i => a.getD i 0 ^^^ b.getD i 0)

/-- The intrinsic _byteswap_uint64: the 8 bytes of a 64-bit word in the
opposite order. -/
def _byteswap_uint64 (x : Nat) : Nat :=
  forLoop 8 (fun i r => r ||| (((x >>> (8 * i)) &&& 0xFF) <<< (8 * (7 - i)))) 0

/-- The function expand, lines 97-169: the arrays W (68 words) and W1 (64
words) of a block of 64 bytes. -/
def expand (block : List Nat) : List Nat × List Nat :=
  let mask := _mm_setr_epi8 3 2 1 0 7 6 5 4 11 10 9 8 15 14 13 12
  let vec0 := _mm_loadu_si128_u8 block 0
  let vec1 := _mm_loadu_si128_u8 block 16
  let vec2 := _mm_loadu_si128_u8 block 32
  let vec3 := _mm_loadu_si128_u8 block 48
  let W := List.replicate 68 0
  let W := _mm_storeu_si128_u32 W 0 (_mm_shuffle_epi8 vec0 mask)
  let W := _mm_storeu_si128_u32 W 4 (_mm_shuffle_epi8 vec1 mask)
  let W := _mm_storeu_si128_u32 W 8 (_mm_shuffle_epi8 vec2 mask)
  let W := _mm_storeu_si128_u32 W 12 (_mm_shuffle_epi8 vec3 mask)
  let W := forLoop 52 (fun k (W : List Nat) =>
    let j := k + 16
    W.set j (P1 (W.getD (j - 16) 0 ^^^ W.getD (j - 9) 0 ^^^ rotate_left (W.getD (j - 3) 0) 15) ^^^
      rotate_left (W.getD (j - 13) 0) 7 ^^^ W.getD (j - 6) 0)) W
  let W1 := forLoop 16 (fun k (W1 : List Nat) =>
    let j := 4 * k
    let w := _mm_loadu_si128_u32 W j
    let w4 := _mm_loadu_si128_u32 W (j + 4)
    let xor_res := _mm_xor_si128_u8 w w4
    _mm_storeu_si128_u32 W1 j xor_res) (List.replicate 64 0)
  (W, W1)

/-- One iteration of the first loop of compress (rounds 0 to 15, lines
189-203) on the working variables [A, B, C, D, E, F, G, H]. -/
def compressRoundLow (W W1 : List Nat) (j : Nat) (v : List Nat) : List Nat :=
  let A := v.getD 0 0
  let B := v.getD 1 0
  let C := v.getD 2 0
  let D := v.getD 3 0
  let E := v.getD 4 0
  let F := v.getD 5 0
  let G := v.getD 6 0
  let H := v.getD 7 0
  let Tj := 0x79CC4519
  let SS1 := rotate_left ((rotate_left A 12 + E + rotate_left Tj j) % 2 ^ 32) 7
  let SS2 := SS1 ^^^ rotate_left A 12
  let TT1 := ((A ^^^ B ^^^ C) + D + SS2 + W1.getD j 0) % 2 ^ 32
  let TT2 := ((E ^^^ F ^^^ G) + H + SS1 + W.getD j 0) % 2 ^ 32
  [TT1, A, rotate_left B 9, C, P0 TT2, E, rotate_left F 19, G]

/-- One iteration of the second loop of compress (rounds 16 to 63, lines
205-219). -/
def compressRoundHigh (W W1 : List Nat) (j : Nat) (v : List Nat) : List Nat :=
  let A := v.getD 0 0
  let B := v.getD 1 0
  let C := v.getD 2 0
  let D := v.getD 3 0
  let E := v.getD 4 0
  let F := v.getD 5 0
  let G := v.getD 6 0
  let H := v.getD 7 0
  let Tj := 0x7A879D8A
  let SS1 := rotate_left ((rotate_left A 12 + E + rotate_left Tj j) % 2 ^ 32) 7
  let SS2 := SS1 ^^^ rotate_left A 12
  let TT1 := (((A &&& B) ||| (A &&& C) ||| (B &&& C)) + D + SS2 + W1.getD j 0) % 2 ^ 32
  let TT2 := (((E &&& F) ||| ((E ^^^ 0xFFFFFFFF) &&& G)) + H + SS1 + W.getD j 0) % 2 ^ 32
  [TT1, A, rotate_left B 9, C, P0 TT2, E, rotate_left F 19, G]

/-- The function compress, lines 172-277: the array digest after the call, for
the array digest before the call and the 64 bytes that block points to. -/
def compress (digest block : List Nat) : List Nat :=
  let WW := expand block
  let v := forLoop 16 (compressRoundLow WW.1 WW.2)
    [digest.getD 0 0, digest.getD 1 0, digest.getD 2 0, digest.getD 3 0,
     digest.getD 4 0, digest.getD 5 0, digest.getD 6 0, digest.getD 7 0]
  let v := forLoop 48 (fun k v => compressRoundHigh WW.1 WW.2 (k + 16) v) v
  forLoop 8 (fun i (d : List Nat) => d.set i (d.getD i 0 ^^^ v.getD i 0)) digest

/-- The function reset, lines 286-291. -/
def reset : SM3 :=
  { message_block := List.replicate 64 0, message_length := 0, total_bits := 0,
    digest := memcpy (List.replicate 8 0) 0 IV 0 8 }

/-- The loop for (i = 0; i < block_aligned; i += 64) of update (lines 301-316)
from the value i of its counter, which the body changes as well; the sums are
sums of 64-bit unsigned numbers. The result is none when compress is handed 64
bytes that do not all lie in data, or when memcpy reads beyond data or writes
beyond message_block. The first iteration empties the buffer and every later
one moves i forward by 64, so the loop ends within length / 64 + 2 tests of its
condition. -/
def updateLoop (data : List Nat) (block_aligned : Nat) : Nat → Nat → SM3 → Option SM3
  | 0, _, self => some self
  | fuel + 1, i, self =>
    if i < block_aligned then
      if self.message_length = 0 then
        if i + 64 ≤ data.length then
          updateLoop data block_aligned fuel ((i + 64) % 2 ^ 64)
            { self with
              digest := compress self.digest (data.drop i),
              total_bits := (self.total_bits + 512) % 2 ^ 64 }
        else none
      else
        let copy_len := (64 + 2 ^ 64 - self.message_length) % 2 ^ 64
        if self.message_length + copy_len ≤ 64 ∧ i + copy_len ≤ data.length then
          let message_block := memcpy self.message_block self.message_length data i copy_len
          let digest := compress self.digest message_block
          let i := (i + (copy_len + 2 ^ 64 - 64) % 2 ^ 64) % 2 ^ 64
          updateLoop data block_aligned fuel ((i + 64) % 2 ^ 64)
            { message_block := message_block, message_length := 0,
              total_bits := (self.total_bits + 512) % 2 ^ 64, digest := digest }
        else none
    else some self

/-- The function update, lines 294-322, on the bytes of data; length is the
length of the list. The result is none when a memcpy of the function writes
beyond message_block or the loop reads beyond data. -/
def update (self : SM3) (data : List Nat) : Option SM3 :=
  let length := data.length
  let block_aligned := length &&& 0xFFFFFFFFFFFFFFC0
  let remaining := length - block_aligned
  match updateLoop data block_aligned (length / 64 + 2) 0 self with
  | none => none
  | some self =>
    if remaining > 0 then
      if self.message_length + remaining ≤ 64 then
        some { self with
          message_block :=
            memcpy self.message_block self.message_length data block_aligned remaining,
          message_length := self.message_length + remaining }
      else none
    else some self

/-- The function final, lines 360-419: the 32 bytes written to result, and the
object after the call. The result is none when the byte 0x80 is written beyond
message_block. The two padding loops are those of SM3.cpp. -/
def final (self : SM3) : Option (List Nat × SM3) :=
  let total_bits := (self.total_bits + self.message_length * 8) % 2 ^ 64
  if self.message_length < 64 then
    let message_block := self.message_block.set self.message_length 0x80
    let message_length := self.message_length + 1
    let s :=
      if message_length > 56 then
        let p := SM3.zeroFill 64 64 (message_block, message_length)
        (p.1, 0, compress self.digest p.1)
      else (message_block, message_length, self.digest)
    let p := SM3.zeroFill 56 64 (s.1, s.2.1)
    let swapped := _byteswap_uint64 total_bits
    let message_block := forLoop 8 (fun i (b : List Nat) =>
      b.set (56 + i) ((swapped >>> (8 * i)) &&& 0xFF)) p.1
    let digest := compress s.2.2 message_block
    let mask := _mm_setr_epi8 3 2 1 0 7 6 5 4 11 10 9 8 15 14 13 12
    let v0 := _mm_loadu_si128_u32 digest 0
    let v1 := _mm_loadu_si128_u32 digest 4
    let v0 := _mm_shuffle_epi8 v0 mask
    let v1 := _mm_shuffle_epi8 v1 mask
    let result := _mm_storeu_si128_u8 (List.replicate 32 0) 0 v0
    let result := _mm_storeu_si128_u8 result 16 v1
    some (result, reset)
  else none

/-- The function hash, lines 422-426: a fresh object, update, final. -/
def hash (data : List Nat) : Option (List Nat) :=
  (update reset data).bind (fun sm3 => (final sm3).map (fun r => r.1))

/-- The string long_data of main (line 496), 108 bytes in the UTF-8 encoding of
the source file. -/
def long_data : List Nat := [
  0xe8, 0xbf, 0x99, 0xe6, 0x98, 0xaf, 0xe4, 0xb8, 0x80, 0xe4, 0xb8, 0xaa,
  0xe7, 0x94, 0xa8, 0xe4, 0xba, 0x8e, 0xe6, 0xb5, 0x8b, 0xe8, 0xaf, 0x95,
  0x53, 0x4d, 0x33, 0xe7, 0xae, 0x97, 0xe6, 0xb3, 0x95, 0xe5, 0x88, 0x86,
  0xe5, 0x9d, 0x97, 0xe5, 0xa4, 0x84, 0xe7, 0x90, 0x86, 0xe7, 0x9a, 0x84,
  0xe9, 0x95, 0xbf, 0xe5, 0xad, 0x97, 0xe7, 0xac, 0xa6, 0xe4, 0xb8, 0xb2,
  0xef, 0xbc, 0x8c, 0xe5, 0xb0, 0x86, 0xe5, 0x88, 0x86, 0xe5, 0xa4, 0x9a,
  0xe6, 0xac, 0xa1, 0xe8, 0xb0, 0x83, 0xe7, 0x94, 0xa8, 0x75, 0x70, 0x64,
  0x61, 0x74, 0x65, 0xe6, 0x96, 0xb9, 0xe6, 0xb3, 0x95, 0xe6, 0x9d, 0xa5,
  0xe5, 0xa4, 0x84, 0xe7, 0x90, 0x86, 0xe5, 0xae, 0x83, 0xe3, 0x80, 0x82]

/-- The bytes that the call number k (from 0) of update in the loop of main
(lines 499-504) receives: chunk_size = 10 bytes of long_data from the offset
10 * k, fewer at the end of the string. -/
def mainChunk (k : Nat) : List Nat := (long_data.drop (10 * k)).take 10

/-- The object sm3 of main after the first n calls of update in that loop. -/
def mainAfter : Nat → Option SM3
  | 0 => some reset
  | n + 1 => (mainAfter n).bind (fun sm3 => update sm3 (mainChunk n))

/-- A first input of 32 bytes: the bytes 0 to 31. -/
def firstInput : List Nat := List.range 32

/-- A second input of 96 bytes: the bytes 32 to 127. -/
def secondInput : List Nat := (List.range 96).map (fun k => k + 32)

/-- The digest that the optimised class returns for update on a, update on b,
final, on a fresh object. -/
def twoUpdates (a b : List Nat) : Option (List Nat) :=
  ((update reset a).bind (fun sm3 => update sm3 b)).bind
    (fun sm3 => (final sm3).map (fun r => r.1))

end SM3Optimized

/-! ## Loop lemmas -/

theorem forLoop_succ {σ : Type} (n : Nat) (body : Nat → σ → σ) (s : σ) :
    forLoop (n + 1) body s = body n (forLoop n body s) := rfl

/-- The first iteration of a counted loop can be peeled off the front. -/
theorem forLoop_succ_front {σ : Type} (n : Nat) (body : Nat → σ → σ) (s : σ) :
    forLoop (n + 1) body s = forLoop n (fun i => body (i + 1)) (body 0 s) := by
  induction n with
  | zero => rfl
  | succ n ih =>
    rw [forLoop_succ (n + 1), ih]
    rfl

/-! ## The round trip of the reference cipher -/

namespace SM4Basic

theorem round_rev4_round (k a b c d : Nat) :
    round k (rev4 (round k [a, b, c, d])) = rev4 [a, b, c, d] := by
  have h1 : d ^^^ c ^^^ b ^^^ k = b ^^^ c ^^^ d ^^^ k := by
    rw [Nat.xor_comm d c, Nat.xor_assoc c d b, Nat.xor_comm c (d ^^^ b), Nat.xor_comm d b,
      Nat.xor_assoc b d c, Nat.xor_comm d c, ← Nat.xor_assoc b c d]
  simp only [round, rev4, List.getD_cons_zero, List.getD_cons_succ, h1]
  rw [Nat.xor_assoc, Nat.xor_self, Nat.xor_zero]

theorem rounds_shape (f : Nat → Nat) (n : Nat) (a b c d : Nat) :
    ∃ a' b' c' d', forLoop n (fun i X => round (f i) X) [a, b, c, d] = [a', b', c', d'] := by
  induction n with
  | zero => exact ⟨a, b, c, d, rfl⟩
  | succ n ih =>
    obtain ⟨a', b', c', d', h⟩ := ih
    rw [forLoop_succ, h]
    exact ⟨_, _, _, _, rfl⟩

/-- Running n rounds with the keys f 0, ..., f (n - 1), reversing the register
and running n rounds with the keys in the opposite order gives back the
reversed input register. -/
theorem rounds_inverse (f : Nat → Nat) (n : Nat) (a b c d : Nat) :
    forLoop n (fun i X => round (f (n - 1 - i)) X)
      (rev4 (forLoop n (fun i X => round (f i) X) [a, b, c, d])) = rev4 [a, b, c, d] := by
  induction n with
  | zero => rfl
  | succ n ih =>
    obtain ⟨a', b', c', d', h⟩ := rounds_shape f n a b c d
    rw [forLoop_succ_front, forLoop_succ n, h]
    simp only [Nat.add_sub_cancel, Nat.sub_zero]
    rw [round_rev4_round, ← h]
    have hf : (fun i X => round (f (n - (i + 1))) X) = (fun i X => round (f (n - 1 - i)) X) := by
      funext i X
      rw [Nat.sub_sub, Nat.add_comm 1 i]
    rw [hf]
    exact ih

end SM4Basic

/-- C1: in SM4基本实现.cpp, for every key and every block of four words p0..p3,
sm4Decrypt applied to sm4Encrypt of the block under the same key gives the block back. -/
theorem C1_sm4_decrypt_encrypt (p0 p1 p2 p3 : Nat) (key : List Nat) :
    SM4Basic.sm4Decrypt (SM4Basic.sm4Encrypt [p0, p1, p2, p3] key) key = [p0, p1, p2, p3] := by
  have h := SM4Basic.rounds_inverse (fun i => (SM4Basic.keyExpansion key).getD i 0) 32 p0 p1 p2 p3
  simp only [SM4Basic.sm4Decrypt, SM4Basic.sm4Encrypt, List.getD_cons_zero, List.getD_cons_succ]
  simp only [SM4Basic.rev4, List.getD_cons_zero, List.getD_cons_succ] at h
  rw [h]
  rfl

/-! ## Known-answer vectors -/

/-- C3: in SM4基本实现.cpp the standard test block, encrypted under the equal
key, comes out as d8fdb05c09a878b25eeaa0bf50ada41d and not as the ciphertext
681edf34d206965e86b3e94f536e4246 of the SM4 standard. -/
theorem C3_basic_known_answer_fails :
    SM4Basic.wordsToBytes (SM4Basic.sm4Encrypt (SM4Basic.bytesToWords SM4Basic.testBytes)
        (SM4Basic.bytesToWords SM4Basic.testBytes)) =
      [0xd8, 0xfd, 0xb0, 0x5c, 0x09, 0xa8, 0x78, 0xb2, 0x5e, 0xea, 0xa0, 0xbf, 0x50, 0xad, 0xa4, 0x1d] ∧
    SM4Basic.wordsToBytes (SM4Basic.sm4Encrypt (SM4Basic.bytesToWords SM4Basic.testBytes)
        (SM4Basic.bytesToWords SM4Basic.testBytes)) ≠
      [0x68, 0x1e, 0xdf, 0x34, 0xd2, 0x06, 0x96, 0x5e, 0x86, 0xb3, 0xe9, 0x4f, 0x53, 0x6e, 0x42, 0x46] := by
  have h : SM4Basic.wordsToBytes (SM4Basic.sm4Encrypt (SM4Basic.bytesToWords SM4Basic.testBytes)
        (SM4Basic.bytesToWords SM4Basic.testBytes)) =
      [0xd8, 0xfd, 0xb0, 0x5c, 0x09, 0xa8, 0x78, 0xb2, 0x5e, 0xea, 0xa0, 0xbf, 0x50, 0xad, 0xa4, 0x1d] := by
    decide!
  refine ⟨h, ?_⟩
  rw [h]
  decide

/-- C4: in SM4.cpp the test block of main, encrypted under the equal key, comes
out as d88a6080fe095f3e5299e4264ebc216b and not as the expected ciphertext
681edf34d206965e86b3e94f536e4246 written in the comment of main. -/
theorem C4_root_known_answer_fails :
    SM4Root.wordsToBytes (SM4Root.sm4Encrypt (SM4Root.bytesToWords SM4Root.testBytes)
        (SM4Root.bytesToWords SM4Root.testBytes)) =
      [0xd8, 0x8a, 0x60, 0x80, 0xfe, 0x09, 0x5f, 0x3e, 0x52, 0x99, 0xe4, 0x26, 0x4e, 0xbc, 0x21, 0x6b] ∧
    SM4Root.wordsToBytes (SM4Root.sm4Encrypt (SM4Root.bytesToWords SM4Root.testBytes)
        (SM4Root.bytesToWords SM4Root.testBytes)) ≠
      [0x68, 0x1e, 0xdf, 0x34, 0xd2, 0x06, 0x96, 0x5e, 0x86, 0xb3, 0xe9, 0x4f, 0x53, 0x6e, 0x42, 0x46] := by
  have h : SM4Root.wordsToBytes (SM4Root.sm4Encrypt (SM4Root.bytesToWords SM4Root.testBytes)
        (SM4Root.bytesToWords SM4Root.testBytes)) =
      [0xd8, 0x8a, 0x60, 0x80, 0xfe, 0x09, 0x5f, 0x3e, 0x52, 0x99, 0xe4, 0x26, 0x4e, 0xbc, 0x21, 0x6b] := by
    decide!
  refine ⟨h, ?_⟩
  rw [h]
  decide

/-! ## The substitution tables -/

/-- A 256-entry table with a two-sided inverse table takes every byte value at
exactly one index. -/
theorem table_bijective_of_inverse (t inv : List Nat)
    (h1 : ∀ b, b < 256 → inv.getD (t.getD b 0) 0 = b)
    (h2 : ∀ v, v < 256 → inv.getD v 0 < 256 ∧ t.getD (inv.getD v 0) 0 = v)
    (v : Nat) (hv : v < 256) : ∃! b, b < 256 ∧ t.getD b 0 = v := by
  refine ⟨inv.getD v 0, h2 v hv, ?_⟩
  rintro b ⟨hb, hbv⟩
  rw [← h1 b hb, hbv]

theorem SM4Basic.S_BOX_inv_left :
    ∀ b, b < 256 → S_BOX_inv.getD (SM4Basic.S_BOX.getD b 0) 0 = b := by
  decide!

theorem SM4Basic.S_BOX_inv_right :
    ∀ v, v < 256 → S_BOX_inv.getD v 0 < 256 ∧
      SM4Basic.S_BOX.getD (S_BOX_inv.getD v 0) 0 = v := by
  decide!

theorem SM4GCM.SM4.box_eq_S_BOX : SM4GCM.SM4.box = SM4Basic.S_BOX := by decide!

/-- C5: the S-box of SM4基本实现.cpp and the S-box of SM4-GCM.cpp are
bijections on bytes: every byte value v is the image of exactly one byte b. -/
theorem C5_sbox_bijective (v : Nat) (hv : v < 256) :
    (∃! b, b < 256 ∧ SM4Basic.sbox b = v) ∧ (∃! b, b < 256 ∧ SM4GCM.SM4.sbox b = v) :=
  ⟨table_bijective_of_inverse SM4Basic.S_BOX _ SM4Basic.S_BOX_inv_left
      SM4Basic.S_BOX_inv_right v hv,
   table_bijective_of_inverse SM4GCM.SM4.box _
      (SM4GCM.SM4.box_eq_S_BOX ▸ SM4Basic.S_BOX_inv_left)
      (SM4GCM.SM4.box_eq_S_BOX ▸ SM4Basic.S_BOX_inv_right) v hv⟩

/-- C5 at the byte value 0x48, the last entry of both tables. -/
theorem C5_sbox_bijective_witness :
    0x48 < 256 ∧ ((∃! b, b < 256 ∧ SM4Basic.sbox b = 0x48) ∧
      (∃! b, b < 256 ∧ SM4GCM.SM4.sbox b = 0x48)) :=
  ⟨by decide, C5_sbox_bijective 0x48 (by decide)⟩

/-- C6: the table S_BOX of SM4.cpp holds the value 0x2c at the two indices 14
and 153, so two distinct indices share an entry and sbox of that file is not a
bijection on bytes. -/
theorem C6_root_sbox_duplicates :
    (∃ a b, a < 256 ∧ b < 256 ∧ a ≠ b ∧ SM4Root.S_BOX.getD a 0 = SM4Root.S_BOX.getD b 0) ∧
    ¬ (∀ v, v < 256 → ∃! b, b < 256 ∧ SM4Root.sbox b = v) := by
  refine ⟨⟨14, 153, by decide, by decide, by decide, by decide⟩, ?_⟩
  intro h
  obtain ⟨b, _, hb⟩ := h 0x2c (by decide)
  have e1 : 14 = b := hb 14 ⟨by decide, by decide⟩
  have e2 : 153 = b := hb 153 ⟨by decide, by decide⟩
  omega

/-! ## Lists as byte buffers -/

theorem getD_set_eq (l : List Nat) (j i v : Nat) :
    (l.set j v).getD i 0 = if j = i ∧ i < l.length then v else l.getD i 0 := by
  simp only [List.getD_eq_getElem?_getD, List.getElem?_set]
  by_cases h : j = i
  · subst h
    by_cases h2 : j < l.length
    · simp [h2]
    · simp [h2, List.getElem?_eq_none (Nat.le_of_not_lt h2)]
  · simp [h]

theorem list_ext_getD (a b : List Nat) (hl : a.length = b.length)
    (h : ∀ i, i < a.length → a.getD i 0 = b.getD i 0) : a = b := by
  apply List.ext_getElem hl
  intro i h1 h2
  have := h i h1
  rwa [List.getD_eq_getElem _ _ h1, List.getD_eq_getElem _ _ h2] at this

/-- A loop that stores f k at index p + k keeps the length of the buffer. -/
theorem forLoop_set_length (n p : Nat) (f : Nat → Nat) (dst : List Nat) :
    (forLoop n (fun k d => d.set (p + k) (f k)) dst).length = dst.length := by
  induction n with
  | zero => rfl
  | succ n ih => rw [forLoop_succ, List.length_set, ih]

/-- A loop that stores f k at index p + k, for k below n: the bytes of the
result. -/
theorem forLoop_set_getD (n p : Nat) (f : Nat → Nat) (dst : List Nat) (i : Nat) :
    (forLoop n (fun k d => d.set (p + k) (f k)) dst).getD i 0 =
      if p ≤ i ∧ i < p + n ∧ i < dst.length then f (i - p) else dst.getD i 0 := by
  induction n with
  | zero =>
    have : ¬ (p ≤ i ∧ i < p + 0 ∧ i < dst.length) := by omega
    rw [if_neg this]
    rfl
  | succ n ih =>
    rw [forLoop_succ, getD_set_eq, forLoop_set_length, ih]
    by_cases h1 : p + n = i
    · subst h1
      by_cases h2 : p + n < dst.length
      · rw [if_pos ⟨rfl, h2⟩, if_pos ⟨by omega, by omega, h2⟩, Nat.add_sub_cancel_left]
      · rw [if_neg (fun h => h2 h.2), if_neg (fun h => h2 h.2.2), if_neg (fun h => h2 h.2.2)]
    · rw [if_neg (fun h => h1 h.1)]
      by_cases h3 : p ≤ i ∧ i < p + n ∧ i < dst.length
      · rw [if_pos h3, if_pos ⟨h3.1, by omega, h3.2.2⟩]
      · rw [if_neg h3, if_neg (by omega)]

/-- The same loop when the index stored to is the loop index itself. -/
theorem forLoop_set0_getD (n : Nat) (f : Nat → Nat) (dst : List Nat) (i : Nat) :
    (forLoop n (fun k d => d.set k (f k)) dst).getD i 0 =
      if i < n ∧ i < dst.length then f i else dst.getD i 0 := by
  have h := forLoop_set_getD n 0 f dst i
  simp only [Nat.zero_add, Nat.zero_le, true_and, Nat.sub_zero] at h
  exact h

theorem forLoop_set0_length (n : Nat) (f : Nat → Nat) (dst : List Nat) :
    (forLoop n (fun k d => d.set k (f k)) dst).length = dst.length := by
  have h := forLoop_set_length n 0 f dst
  simp only [Nat.zero_add] at h
  exact h

theorem memcpy_length (dst : List Nat) (dpos : Nat) (src : List Nat) (spos n : Nat) :
    (memcpy dst dpos src spos n).length = dst.length :=
  forLoop_set_length n dpos (fun k => src.getD (spos + k) 0) dst

theorem memcpy_getD (dst : List Nat) (dpos : Nat) (src : List Nat) (spos n i : Nat) :
    (memcpy dst dpos src spos n).getD i 0 =
      if dpos ≤ i ∧ i < dpos + n ∧ i < dst.length then src.getD (spos + (i - dpos)) 0
      else dst.getD i 0 :=
  forLoop_set_getD n dpos (fun k => src.getD (spos + k) 0) dst i

theorem xor_xor_cancel (a k : Nat) : a ^^^ k ^^^ k = a := by
  rw [Nat.xor_assoc, Nat.xor_self, Nat.xor_zero]

theorem xor_pow_two_ne (a b : Nat) : a ^^^ 2 ^ b ≠ a := by
  intro h
  have h2 : a ^^^ (a ^^^ 2 ^ b) = a ^^^ a := by rw [h]
  rw [← Nat.xor_assoc, Nat.xor_self, Nat.zero_xor] at h2
  exact absurd h2 (Nat.ne_of_gt (Nat.two_pow_pos b))

namespace SM4GCM

namespace GCM

/-! ## The counter-mode loops -/

/-- The bytes of the buffer after the counter-mode loop of encrypt, started at
a multiple of 16 with enough fuel: below the message length the byte is the
input byte xored with the keystream byte, elsewhere the buffer is untouched. -/
theorem encryptCtrLoop_spec (self : GCM) (nonce plaintext : List Nat) (len : Nat) :
    ∀ (fuel i : Nat) (buf : List Nat), i % 16 = 0 → len ≤ i + 16 * fuel →
      (encryptCtrLoop self nonce plaintext len fuel i buf).length = buf.length ∧
      ∀ m, (encryptCtrLoop self nonce plaintext len fuel i buf).getD m 0 =
        if i ≤ m ∧ m < len ∧ m < buf.length then
          plaintext.getD m 0 ^^^ keystreamByte self nonce m
        else buf.getD m 0 := by
  intro fuel
  induction fuel with
  | zero =>
    intro i buf _ hlen
    refine ⟨rfl, fun m => ?_⟩
    rw [if_neg (by omega)]
    rfl
  | succ fuel ih =>
    intro i buf hi hlen
    by_cases hlt : i < len
    · have hrec := ih (i + 16)
        (forLoop (if len - i < 16 then len - i else 16) (fun j c =>
          c.set (i + j) (plaintext.getD (i + j) 0 ^^^
            (self.sm4.encrypt_block (generate_ctr nonce (i / 16 + 1))).getD j 0)) buf)
        (by omega) (by omega)
      rw [forLoop_set_length] at hrec
      have hstep : encryptCtrLoop self nonce plaintext len (fuel + 1) i buf =
          encryptCtrLoop self nonce plaintext len fuel (i + 16)
            (forLoop (if len - i < 16 then len - i else 16) (fun j c =>
              c.set (i + j) (plaintext.getD (i + j) 0 ^^^
                (self.sm4.encrypt_block (generate_ctr nonce (i / 16 + 1))).getD j 0)) buf) := by
        simp only [encryptCtrLoop, if_pos hlt]
      rw [hstep]
      refine ⟨hrec.1, fun m => ?_⟩
      rw [hrec.2 m, forLoop_set_getD]
      by_cases h1 : i + 16 ≤ m ∧ m < len ∧ m < buf.length
      · rw [if_pos h1, if_pos ⟨by omega, h1.2⟩]
      · rw [if_neg h1]
        by_cases h2 : i ≤ m ∧ m < len ∧ m < buf.length
        · have hm : m < i + 16 := by omega
          rw [if_pos h2, if_pos ⟨h2.1, by split <;> omega, h2.2.2⟩]
          have e1 : i + (m - i) = m := by omega
          have e2 : i / 16 = m / 16 := by omega
          have e3 : m - i = m % 16 := by omega
          rw [e1, e2, e3]
          rfl
        · rw [if_neg h2, if_neg]
          intro h3
          apply h2
          refine ⟨h3.1, ?_, h3.2.2⟩
          have := h3.2.1
          split at this <;> omega
    · have hstep : encryptCtrLoop self nonce plaintext len (fuel + 1) i buf = buf := by
        simp only [encryptCtrLoop, if_neg hlt]
      rw [hstep]
      refine ⟨rfl, fun m => ?_⟩
      rw [if_neg (by omega)]

/-- The two counter-mode loops are the same function. -/
theorem decryptCtrLoop_eq (self : GCM) (nonce ciphertext : List Nat) (len : Nat) :
    ∀ (fuel i : Nat) (buf : List Nat),
      decryptCtrLoop self nonce ciphertext len fuel i buf =
        encryptCtrLoop self nonce ciphertext len fuel i buf := by
  intro fuel
  induction fuel with
  | zero => intro i buf; rfl
  | succ fuel ih =>
    intro i buf
    simp only [decryptCtrLoop, encryptCtrLoop, ih]

/-! ## What encrypt and decrypt return -/

theorem encrypt_fst (self : GCM) (nonce plaintext aad ciphertext : List Nat) :
    (encrypt self nonce plaintext aad ciphertext).1 =
      encryptCtrLoop self nonce plaintext plaintext.length plaintext.length 0 ciphertext := rfl

theorem encrypt_snd (self : GCM) (nonce plaintext aad ciphertext : List Nat) :
    (encrypt self nonce plaintext aad ciphertext).2 =
      tagOf self nonce aad (encrypt self nonce plaintext aad ciphertext).1 plaintext.length := by
  unfold encrypt tagOf ghashInputOf totalLenOf
  dsimp only

theorem decrypt_fst (self : GCM) (nonce ciphertext aad tag plaintext : List Nat) :
    (decrypt self nonce ciphertext aad tag plaintext).1 =
      tagCompareLoop (tagOf self nonce aad ciphertext ciphertext.length) tag 16 0 := by
  unfold decrypt tagOf ghashInputOf totalLenOf
  dsimp only

theorem decrypt_snd (self : GCM) (nonce ciphertext aad tag plaintext : List Nat) :
    (decrypt self nonce ciphertext aad tag plaintext).2 =
      decryptCtrLoop self nonce ciphertext ciphertext.length ciphertext.length 0 plaintext := rfl

end GCM

end SM4GCM

/-! ## The hash input and the tag -/

theorem getD_append_eq (l l' : List Nat) (i : Nat) :
    (l ++ l').getD i 0 = if i < l.length then l.getD i 0 else l'.getD (i - l.length) 0 := by
  by_cases h : i < l.length
  · rw [if_pos h, List.getD_append _ _ _ _ h]
  · rw [if_neg h, List.getD_append_right _ _ _ _ (Nat.le_of_not_lt h)]

theorem getD_replicate_zero (n i : Nat) : (List.replicate n 0).getD i 0 = 0 := by
  simp only [List.getD_eq_getElem?_getD, List.getElem?_replicate]
  split <;> rfl

theorem getD_take_eq (l : List Nat) (n i : Nat) (h : i < n) :
    (l.take n).getD i 0 = l.getD i 0 := by
  simp only [List.getD_eq_getElem?_getD, List.getElem?_take_of_lt h]

namespace Spec

theorem pad16_length (d : List Nat) :
    (pad16 d).length = d.length + (16 - d.length % 16) % 16 := by
  simp [pad16]

theorem be64_length (n : Nat) : (be64 n).length = 8 := rfl

/-- The eight bytes a length loop of encrypt or decrypt stores are the bytes
of be64. -/
theorem be64_getD (n k : Nat) (hk : k < 8) :
    (be64 n).getD k 0 = ((n % 2 ^ 64) >>> (64 - 8 * (k + 1))) &&& 0xff := by
  have hff : (0xff : Nat) = 2 ^ 8 - 1 := by decide
  rw [hff, Nat.and_pow_two_sub_one_eq_mod, Nat.shiftRight_eq_div_pow]
  have h256 : (2 : Nat) ^ 8 = 256 := by decide
  rw [h256]
  interval_cases k <;> simp only [be64, List.getD_cons_zero, List.getD_cons_succ] <;> omega

theorem xor16_length (a b : List Nat) : (xor16 a b).length = 16 := by
  simp [xor16]

theorem xor16_getD (a b : List Nat) (i : Nat) (hi : i < 16) :
    (xor16 a b).getD i 0 = a.getD i 0 ^^^ b.getD i 0 := by
  simp [xor16, List.getD_eq_getElem?_getD, List.getElem?_range hi]

end Spec

namespace SM4GCM

namespace GCM

/-- The buffer that encrypt and decrypt hash is the padded associated data,
the padded ciphertext and the two lengths. -/
theorem ghashInputOf_eq (aad c : List Nat) (len : Nat) (hlen : len ≤ c.length) :
    ghashInputOf aad c len = Spec.hashInput aad (c.take len) := by
  unfold ghashInputOf
  dsimp only
  have hA : (if aad.length % 16 ≠ 0 then 0 + aad.length + (16 - aad.length % 16)
      else 0 + aad.length) = aad.length + (16 - aad.length % 16) % 16 := by
    split <;> omega
  have hA' : (if aad.length % 16 ≠ 0 then 16 - aad.length % 16 else 0) =
      (16 - aad.length % 16) % 16 := by
    split <;> omega
  have hC' : (if len % 16 ≠ 0 then 16 - len % 16 else 0) = (16 - len % 16) % 16 := by
    split <;> omega
  rw [hA, hA']
  have hC : (if len % 16 ≠ 0 then
      aad.length + (16 - aad.length % 16) % 16 + len + (16 - len % 16)
      else aad.length + (16 - aad.length % 16) % 16 + len) =
      aad.length + (16 - aad.length % 16) % 16 + len + (16 - len % 16) % 16 := by
    split <;> omega
  rw [hC, hC']
  generalize hpa : (16 - aad.length % 16) % 16 = pa
  generalize hpc : (16 - len % 16) % 16 = pc
  have htake : (c.take len).length = len := by
    rw [List.length_take]; omega
  have hlenR : (Spec.hashInput aad (c.take len)).length = aad.length + pa + len + pc + 16 := by
    simp only [Spec.hashInput, List.length_append, Spec.pad16_length, Spec.be64_length, htake,
      hpa, hpc]
    omega
  apply list_ext_getD
  · rw [forLoop_set_length, forLoop_set_length, memcpy_length, memcpy_length,
      List.length_replicate, hlenR]
  · intro i hi
    rw [forLoop_set_length, forLoop_set_length, memcpy_length, memcpy_length,
      List.length_replicate] at hi
    rw [forLoop_set_getD, forLoop_set_length, forLoop_set_getD, memcpy_length, memcpy_length,
      memcpy_getD, memcpy_length, memcpy_getD, List.length_replicate, getD_replicate_zero]
    simp only [Spec.hashInput, getD_append_eq, List.length_append, Spec.pad16_length,
      Spec.be64_length, htake, hpa, hpc, Spec.pad16, List.length_replicate, getD_replicate_zero]
    by_cases h1 : i < aad.length
    · rw [if_neg (by omega), if_neg (by omega), if_neg (by omega), if_pos (by omega),
        if_pos (by omega), if_pos (by omega), if_pos (by omega), if_pos h1]
      simp
    · by_cases h2 : i < aad.length + pa
      · rw [if_neg (by omega), if_neg (by omega), if_neg (by omega), if_neg (by omega),
          if_pos (by omega), if_pos (by omega), if_pos (by omega), if_neg h1]
      · by_cases h3 : i < aad.length + pa + len
        · rw [if_neg (by omega), if_neg (by omega), if_pos (by omega),
            if_pos (by omega), if_pos (by omega), if_neg (by omega), if_pos (by omega)]
          rw [getD_take_eq _ _ _ (by omega), Nat.zero_add]
        · by_cases h4 : i < aad.length + pa + len + pc
          · rw [if_neg (by omega), if_neg (by omega), if_neg (by omega), if_neg (by omega),
              if_pos (by omega), if_pos (by omega), if_neg (by omega), if_neg (by omega)]
          · by_cases h5 : i < aad.length + pa + len + pc + 8
            · have e : i - (aad.length + pa + (len + pc)) = i - (aad.length + pa + len + pc) := by
                omega
              rw [if_neg (by omega), if_pos (by omega), if_pos (by omega), if_neg (by omega),
                Spec.be64_getD _ _ (by omega), e]
            · have e : i - (aad.length + pa + (len + pc) + 8) =
                  i - (aad.length + pa + len + pc + 8) := by
                omega
              rw [if_pos (by omega), if_neg (by omega), Spec.be64_getD _ _ (by omega), e]

theorem totalLenOf_eq (aad c : List Nat) (len : Nat) (hlen : len ≤ c.length) :
    totalLenOf aad len = (Spec.hashInput aad (c.take len)).length := by
  have hlenT : (c.take len).length = len := by
    rw [List.length_take]; omega
  simp only [totalLenOf, Spec.hashInput, List.length_append, Spec.pad16_length,
    Spec.be64_length, hlenT]
  split <;> split <;> omega

end GCM

end SM4GCM

theorem and_255 (x : Nat) : x &&& 255 = x % 256 := Nat.and_pow_two_sub_one_eq_mod x 8

namespace SM4GCM

namespace GCM

theorem tagOf_length (self : GCM) (nonce aad c : List Nat) (len : Nat) :
    (tagOf self nonce aad c len).length = 16 := by
  unfold tagOf
  rw [forLoop_set0_length, List.length_replicate]

/-- The tag both functions compute is the tag formula on the first len bytes
of the ciphertext buffer. -/
theorem tagOf_eq_tagFormula (self : GCM) (nonce aad c : List Nat) (len : Nat)
    (hlen : len ≤ c.length) :
    tagOf self nonce aad c len = Spec.tagFormula self nonce aad (c.take len) := by
  apply list_ext_getD
  · rw [tagOf_length, Spec.tagFormula, Spec.xor16_length]
  · intro i hi
    rw [tagOf_length] at hi
    unfold tagOf
    rw [forLoop_set0_getD, List.length_replicate, if_pos ⟨hi, hi⟩, ghashInputOf_eq aad c len hlen,
      totalLenOf_eq aad c len hlen, Spec.tagFormula, Spec.xor16_getD _ _ _ hi]

/-- The comparison loop says true exactly when the two tags agree at every
index it visits. -/
theorem tagCompareLoop_iff (c t : List Nat) :
    ∀ (fuel i : Nat), tagCompareLoop c t fuel i = true ↔
      ∀ k, i ≤ k → k < i + fuel → c.getD k 0 = t.getD k 0 := by
  intro fuel
  induction fuel with
  | zero =>
    intro i
    simp only [tagCompareLoop, true_iff]
    intro k h1 h2
    omega
  | succ fuel ih =>
    intro i
    by_cases h : c.getD i 0 = t.getD i 0
    · have hstep : tagCompareLoop c t (fuel + 1) i = tagCompareLoop c t fuel (i + 1) := by
        show (if c.getD i 0 ≠ t.getD i 0 then false else tagCompareLoop c t fuel (i + 1)) = _
        rw [if_neg (not_not.mpr h)]
      rw [hstep, ih (i + 1)]
      constructor
      · intro hk k h1 h2
        by_cases hki : k = i
        · rw [hki]; exact h
        · exact hk k (by omega) (by omega)
      · intro hk k h1 h2
        exact hk k (by omega) (by omega)
    · have hstep : tagCompareLoop c t (fuel + 1) i = false := by
        show (if c.getD i 0 ≠ t.getD i 0 then false else tagCompareLoop c t fuel (i + 1)) = _
        rw [if_pos h]
      rw [hstep]
      constructor
      · intro hf
        exact absurd hf (by decide)
      · intro hk
        exact absurd (hk i (Nat.le_refl i) (by omega)) h

/-- The comparison of two 16-byte tags says true exactly when they are equal. -/
theorem tagCompareLoop_eq_true_iff (c t : List Nat) (hc : c.length = 16) (ht : t.length = 16) :
    tagCompareLoop c t 16 0 = true ↔ t = c := by
  rw [tagCompareLoop_iff]
  constructor
  · intro h
    apply list_ext_getD _ _ (by rw [hc, ht])
    intro i hi
    exact (h i (Nat.zero_le i) (by omega)).symm
  · intro h k _ _
    rw [h]

/-- The flag of decrypt is true exactly for the tag of the tag formula. -/
theorem decrypt_fst_iff (self : GCM) (nonce ciphertext aad tag plaintext : List Nat)
    (htag : tag.length = 16) :
    (decrypt self nonce ciphertext aad tag plaintext).1 = true ↔
      tag = Spec.tagFormula self nonce aad ciphertext := by
  rw [decrypt_fst, tagCompareLoop_eq_true_iff _ _ (tagOf_length _ _ _ _ _) htag,
    tagOf_eq_tagFormula _ _ _ _ _ (Nat.le_refl _), List.take_length]

/-- The buffer of decrypt after the call. -/
theorem decrypt_snd_spec (self : GCM) (nonce ciphertext aad tag plaintext : List Nat) :
    (decrypt self nonce ciphertext aad tag plaintext).2.length = plaintext.length ∧
    ∀ m, (decrypt self nonce ciphertext aad tag plaintext).2.getD m 0 =
      if m < ciphertext.length ∧ m < plaintext.length then
        ciphertext.getD m 0 ^^^ keystreamByte self nonce m
      else plaintext.getD m 0 := by
  rw [decrypt_snd, decryptCtrLoop_eq]
  have h := encryptCtrLoop_spec self nonce ciphertext ciphertext.length ciphertext.length 0
    plaintext (by decide) (by omega)
  refine ⟨h.1, fun m => ?_⟩
  rw [h.2 m]
  simp only [Nat.zero_le, true_and]

/-- The buffer of encrypt after the call. -/
theorem encrypt_fst_spec (self : GCM) (nonce plaintext aad ciphertext : List Nat) :
    (encrypt self nonce plaintext aad ciphertext).1.length = ciphertext.length ∧
    ∀ m, (encrypt self nonce plaintext aad ciphertext).1.getD m 0 =
      if m < plaintext.length ∧ m < ciphertext.length then
        plaintext.getD m 0 ^^^ keystreamByte self nonce m
      else ciphertext.getD m 0 := by
  rw [encrypt_fst]
  have h := encryptCtrLoop_spec self nonce plaintext plaintext.length plaintext.length 0
    ciphertext (by decide) (by omega)
  refine ⟨h.1, fun m => ?_⟩
  rw [h.2 m]
  simp only [Nat.zero_le, true_and]

/-- The round trip for any GCM object. -/
theorem decrypt_encrypt (self : GCM) (nonce aad pt cbuf pbuf : List Nat)
    (hc : cbuf.length = pt.length) (hp : pbuf.length = pt.length) :
    decrypt self nonce (encrypt self nonce pt aad cbuf).1 aad
      (encrypt self nonce pt aad cbuf).2 pbuf = (true, pt) := by
  have he := encrypt_fst_spec self nonce pt aad cbuf
  have hd := decrypt_snd_spec self nonce (encrypt self nonce pt aad cbuf).1 aad
    (encrypt self nonce pt aad cbuf).2 pbuf
  have hlen : (encrypt self nonce pt aad cbuf).1.length = pt.length := by rw [he.1, hc]
  apply Prod.ext
  · show (decrypt self nonce _ aad _ pbuf).1 = true
    rw [decrypt_fst, hlen, ← encrypt_snd, tagCompareLoop_iff]
    intro k _ _
    rfl
  · show (decrypt self nonce _ aad _ pbuf).2 = pt
    apply list_ext_getD _ _ (by rw [hd.1, hp])
    intro i hi
    rw [hd.1, hp] at hi
    rw [hd.2 i, hlen, if_pos ⟨hi, by omega⟩, he.2 i, if_pos ⟨hi, by omega⟩, xor_xor_cancel]

/-- The counter block is the nonce followed by the counter on four bytes. -/
theorem generate_ctr_eq (nonce : List Nat) (counter : Nat) (hn : nonce.length = 12) :
    generate_ctr nonce counter = nonce ++ Spec.be32 counter := by
  have hff : (0xff : Nat) = 2 ^ 8 - 1 := by decide
  have h256 : (2 : Nat) ^ 8 = 256 := by decide
  apply list_ext_getD
  · simp [generate_ctr, memcpy_length, hn, Spec.be32]
  · intro i hi
    simp only [generate_ctr, List.length_set, memcpy_length, List.length_replicate] at hi
    simp only [generate_ctr, getD_set_eq, List.length_set, memcpy_length, List.length_replicate,
      memcpy_getD, getD_replicate_zero, getD_append_eq, hn, hff, Nat.and_pow_two_sub_one_eq_mod,
      Nat.shiftRight_eq_div_pow, h256, Nat.zero_add, Nat.sub_zero, Nat.zero_le, true_and]
    interval_cases i <;> simp [Spec.be32, and_255]

end GCM

end SM4GCM

/-! ## gfmul and ghash on numbers -/

/-- A loop that replaces entry k by a function of k and of the entry: the
length and the bytes of the result. -/
theorem forLoop_update_spec (n : Nat) (F : Nat → Nat → Nat) (dst : List Nat) :
    (forLoop n (fun k d => d.set k (F k (d.getD k 0))) dst).length = dst.length ∧
    ∀ i, (forLoop n (fun k d => d.set k (F k (d.getD k 0))) dst).getD i 0 =
      if i < n ∧ i < dst.length then F i (dst.getD i 0) else dst.getD i 0 := by
  induction n with
  | zero =>
    refine ⟨rfl, fun i => ?_⟩
    rw [if_neg (by omega)]
    rfl
  | succ n ih =>
    rw [forLoop_succ, List.length_set]
    refine ⟨ih.1, fun i => ?_⟩
    have hn : (forLoop n (fun k d => d.set k (F k (d.getD k 0))) dst).getD n 0 = dst.getD n 0 := by
      rw [ih.2 n, if_neg (by omega)]
    rw [getD_set_eq, ih.1, hn, ih.2 i]
    by_cases h1 : n = i
    · subst h1
      by_cases h2 : n < dst.length
      · rw [if_pos (show n = n ∧ n < dst.length from ⟨rfl, h2⟩),
          if_pos (show n < n + 1 ∧ n < dst.length from ⟨by omega, h2⟩)]
      · rw [if_neg (show ¬ (n = n ∧ n < dst.length) from fun h => h2 h.2),
          if_neg (show ¬ (n < n ∧ n < dst.length) from fun h => h2 h.2),
          if_neg (show ¬ (n < n + 1 ∧ n < dst.length) from fun h => h2 h.2)]
    · rw [if_neg (show ¬ (n = i ∧ i < dst.length) from fun h => h1 h.1)]
      by_cases h3 : i < n ∧ i < dst.length
      · rw [if_pos h3, if_pos (show i < n + 1 ∧ i < dst.length from ⟨by omega, h3.2⟩)]
      · rw [if_neg h3, if_neg (show ¬ (i < n + 1 ∧ i < dst.length) from by omega)]

theorem forDown_succ {σ : Type} (n : Nat) (body : Nat → σ → σ) (s : σ) :
    forDown (n + 1) body s = forDown n body (body n s) := rfl

/-- The shift loop of gfmul run on the indices below k, from the carry c:
every entry below k is halved and takes as its top bit the low bit of the
entry that follows it (the carry c for the entry k - 1); the carry left is the
low bit of entry 0. -/
theorem shiftLoop_spec (k : Nat) : ∀ (l : List Nat) (c : Nat), k ≤ l.length →
    (forDown k (fun j (t : List Nat × Nat) =>
        let b := t.1.getD j 0 &&& 1
        (t.1.set j ((t.1.getD j 0 >>> 1) ||| (t.2 <<< 7)), b)) (l, c)).1.length = l.length ∧
    (∀ j, (forDown k (fun j (t : List Nat × Nat) =>
        let b := t.1.getD j 0 &&& 1
        (t.1.set j ((t.1.getD j 0 >>> 1) ||| (t.2 <<< 7)), b)) (l, c)).1.getD j 0 =
      if j < k then
        (l.getD j 0 >>> 1) ||| ((if j + 1 < k then l.getD (j + 1) 0 &&& 1 else c) <<< 7)
      else l.getD j 0) ∧
    (forDown k (fun j (t : List Nat × Nat) =>
        let b := t.1.getD j 0 &&& 1
        (t.1.set j ((t.1.getD j 0 >>> 1) ||| (t.2 <<< 7)), b)) (l, c)).2 =
      if k = 0 then c else l.getD 0 0 &&& 1 := by
  induction k with
  | zero =>
    intro l c _
    refine ⟨rfl, fun j => ?_, rfl⟩
    rw [if_neg (by omega)]
    rfl
  | succ k ih =>
    intro l c hk
    rw [forDown_succ]
    have h := ih (l.set k ((l.getD k 0 >>> 1) ||| (c <<< 7))) (l.getD k 0 &&& 1)
      (by rw [List.length_set]; omega)
    rw [List.length_set] at h
    refine ⟨h.1, fun j => ?_, ?_⟩
    · rw [h.2.1 j]
      by_cases h1 : j < k
      · have e1 : (l.set k ((l.getD k 0 >>> 1) ||| (c <<< 7))).getD j 0 = l.getD j 0 := by
          rw [getD_set_eq, if_neg (show ¬ (k = j ∧ j < l.length) by omega)]
        rw [if_pos h1, if_pos (show j < k + 1 by omega), if_pos (show j + 1 < k + 1 by omega), e1]
        by_cases h2 : j + 1 < k
        · have e2 : (l.set k ((l.getD k 0 >>> 1) ||| (c <<< 7))).getD (j + 1) 0 =
              l.getD (j + 1) 0 := by
            rw [getD_set_eq, if_neg (show ¬ (k = j + 1 ∧ j + 1 < l.length) by omega)]
          rw [if_pos h2, e2]
        · have e : k = j + 1 := by omega
          rw [if_neg h2, e]
      · rw [if_neg h1, getD_set_eq]
        by_cases h3 : k = j
        · subst h3
          rw [if_pos (show k = k ∧ k < l.length from ⟨rfl, by omega⟩),
            if_pos (show k < k + 1 by omega), if_neg (show ¬ (k + 1 < k + 1) by omega)]
        · rw [if_neg (show ¬ (k = j ∧ j < l.length) from fun h => h3 h.1),
            if_neg (show ¬ (j < k + 1) by omega)]
    · rw [h.2.2]
      by_cases h4 : k = 0
      · subst h4
        rw [if_pos rfl, if_neg (show ¬ (0 + 1 = 0) by omega)]
      · have e0 : (l.set k ((l.getD k 0 >>> 1) ||| (c <<< 7))).getD 0 0 = l.getD 0 0 := by
          rw [getD_set_eq, if_neg (show ¬ (k = 0 ∧ 0 < l.length) from fun h => h4 h.1)]
        rw [if_neg h4, if_neg (show ¬ (k + 1 = 0) by omega), e0]

theorem bytesLE_length (n : Nat) : (bytesLE n).length = 16 := by
  simp [bytesLE]

theorem bytesLE_getD (n i : Nat) (hi : i < 16) : (bytesLE n).getD i 0 = n / 256 ^ i % 256 := by
  simp [bytesLE, List.getD_eq_getElem?_getD, List.getElem?_range hi]

/-- Byte j of a xor is the xor of the bytes j. -/
theorem byte_xor (a b j : Nat) :
    (a ^^^ b) / 256 ^ j % 256 = (a / 256 ^ j % 256) ^^^ (b / 256 ^ j % 256) := by
  have h256 : (256 : Nat) = 2 ^ 8 := by decide
  rw [h256, ← Nat.pow_mul]
  apply Nat.eq_of_testBit_eq
  intro i
  simp only [Nat.testBit_mod_two_pow, Nat.testBit_xor, ← Nat.shiftRight_eq_div_pow,
    Nat.testBit_shiftRight]
  cases decide (i < 8) <;> simp

/-- Byte j of half a number, from byte j and byte j + 1 of the number. -/
theorem byte_half (v j : Nat) :
    (v >>> 1) / 256 ^ j % 256 =
      ((v / 256 ^ j % 256) >>> 1) ||| (((v / 256 ^ (j + 1) % 256) &&& 1) <<< 7) := by
  have e1 : (v >>> 1) / 256 ^ j = v / 256 ^ j / 2 := by
    rw [Nat.shiftRight_one, Nat.div_div_eq_div_mul, Nat.div_div_eq_div_mul, Nat.mul_comm]
  have e2 : v / 256 ^ (j + 1) = v / 256 ^ j / 256 := by
    rw [Nat.pow_succ, Nat.div_div_eq_div_mul]
  rw [e1, e2]
  generalize v / 256 ^ j = a
  have hlt : a % 256 / 2 < 2 ^ 7 := by
    have : (2 : Nat) ^ 7 = 128 := by decide
    omega
  rw [Nat.shiftRight_one, Nat.and_one_is_mod, Nat.shiftLeft_eq, Nat.or_comm, Nat.mul_comm,
    ← Nat.mul_add_lt_is_or hlt]
  have : (2 : Nat) ^ 7 = 128 := by decide
  omega

namespace SM4GCM

namespace GCM

/-- The xor loop of gfmul and ghash on two arrays that spell numbers. -/
theorem xorLoop_bytesLE (z v : Nat) :
    forLoop 16 (fun j h => h.set j (h.getD j 0 ^^^ (bytesLE v).getD j 0)) (bytesLE z) =
      bytesLE (z ^^^ v) := by
  have h := forLoop_update_spec 16 (fun j a => a ^^^ (bytesLE v).getD j 0) (bytesLE z)
  apply list_ext_getD
  · rw [h.1, bytesLE_length, bytesLE_length]
  · intro i hi
    rw [h.1, bytesLE_length] at hi
    rw [h.2 i, bytesLE_length, if_pos ⟨hi, hi⟩, bytesLE_getD _ _ hi, bytesLE_getD _ _ hi,
      bytesLE_getD _ _ hi, byte_xor]

/-- The shift loop of gfmul on an array that spells a number below 2^128: the
array of half the number, and its lowest bit as carry. -/
theorem shiftLoop_bytesLE (v : Nat) (hv : v < 2 ^ 128) :
    forDown 16 (fun j (t : List Nat × Nat) =>
        let b := t.1.getD j 0 &&& 1
        (t.1.set j ((t.1.getD j 0 >>> 1) ||| (t.2 <<< 7)), b)) (bytesLE v, 0) =
      (bytesLE (v >>> 1), v % 2) := by
  have h := shiftLoop_spec 16 (bytesLE v) 0 (by rw [bytesLE_length])
  apply Prod.ext
  · apply list_ext_getD
    · rw [h.1, bytesLE_length, bytesLE_length]
    · intro i hi
      rw [h.1, bytesLE_length] at hi
      rw [h.2.1 i, if_pos hi, bytesLE_getD _ _ hi, bytesLE_getD _ _ hi, byte_half]
      by_cases h1 : i + 1 < 16
      · rw [if_pos h1, bytesLE_getD _ _ h1]
      · have e : i = 15 := by omega
        subst e
        rw [if_neg h1]
        have hz : v / 256 ^ (15 + 1) = 0 := by
          apply Nat.div_eq_of_lt
          have : (256 : Nat) ^ (15 + 1) = 2 ^ 128 := by decide
          omega
        rw [hz]
        rfl
  · rw [h.2.2, if_neg (by decide), bytesLE_getD _ _ (by decide)]
    show (v / 256 ^ 0 % 256 &&& 1) = v % 2
    rw [Nat.and_one_is_mod, Nat.pow_zero, Nat.div_one]
    omega

/-- The reduction step of gfmul on an array that spells a number. -/
theorem reduce_bytesLE (w : Nat) :
    (bytesLE w).set 0 ((bytesLE w).getD 0 0 ^^^ 0xe1) = bytesLE (w ^^^ 0xe1) := by
  apply list_ext_getD
  · rw [List.length_set, bytesLE_length, bytesLE_length]
  · intro i hi
    rw [List.length_set, bytesLE_length] at hi
    rw [getD_set_eq, bytesLE_length, bytesLE_getD (w ^^^ 0xe1) _ hi, bytesLE_getD w _ hi,
      byte_xor, bytesLE_getD w 0 (by decide)]
    by_cases h0 : 0 = i
    · subst h0
      rw [if_pos ⟨rfl, by decide⟩]
      rfl
    · rw [if_neg (fun h => h0 h.1)]
      have hz : 0xe1 / 256 ^ i = 0 := by
        apply Nat.div_eq_of_lt
        calc 0xe1 < 256 ^ 1 := by decide
          _ ≤ 256 ^ i := Nat.pow_le_pow_right (by decide) (by omega)
      rw [hz, Nat.zero_mod, Nat.xor_zero]

/-- One iteration of gfmul on arrays that spell numbers is the iteration on
the numbers. -/
theorem gfmulStep_bytesLE (x : List Nat) (i z v : Nat) (hv : v < 2 ^ 128) :
    gfmulStep x i (bytesLE z, bytesLE v) =
      (bytesLE (gfmulStepN x i (z, v)).1, bytesLE (gfmulStepN x i (z, v)).2) ∧
    (gfmulStepN x i (z, v)).2 < 2 ^ 128 := by
  have hhalf : v >>> 1 < 2 ^ 128 := by
    rw [Nat.shiftRight_one]
    omega
  have he1 : (0xe1 : Nat) < 2 ^ 128 := by decide
  unfold gfmulStep gfmulStepN
  dsimp only
  rw [shiftLoop_bytesLE v hv, xorLoop_bytesLE]
  dsimp only
  refine ⟨Prod.ext ?_ ?_, ?_⟩
  · dsimp only
    split <;> rfl
  · dsimp only
    split
    · rw [reduce_bytesLE]
    · rfl
  · split
    · exact Nat.xor_lt_two_pow hhalf he1
    · exact hhalf

/-- The iterations of gfmul below n on arrays that spell numbers. -/
theorem gfmulLoop_bytesLE (x : List Nat) (n z v : Nat) (hv : v < 2 ^ 128) :
    forLoop n (gfmulStep x) (bytesLE z, bytesLE v) =
      (bytesLE (forLoop n (gfmulStepN x) (z, v)).1,
       bytesLE (forLoop n (gfmulStepN x) (z, v)).2) ∧
    (forLoop n (gfmulStepN x) (z, v)).2 < 2 ^ 128 := by
  induction n with
  | zero => exact ⟨rfl, hv⟩
  | succ n ih =>
    rw [forLoop_succ, forLoop_succ, ih.1]
    exact gfmulStep_bytesLE x n _ _ ih.2

/-- The output of gfmul is the array of gfmulN, when the second operand is an
array that spells a number below 2^128. -/
theorem gfmul_eq_bytesLE (x y : List Nat) (yN : Nat) (hN : yN < 2 ^ 128)
    (hy : memcpy (List.replicate 16 0) 0 y 0 16 = bytesLE yN) :
    gfmul x y = bytesLE (gfmulN x yN) := by
  have h0 : List.replicate 16 0 = bytesLE 0 := by decide
  unfold gfmul gfmulN
  rw [hy, h0, (gfmulLoop_bytesLE x 128 0 yN hN).1]

/-- The loop of ghash is the loop with gfmul computed on numbers. -/
theorem ghashLoop_eq (key data : List Nat) (len keyN : Nat) (hN : keyN < 2 ^ 128)
    (hkey : memcpy (List.replicate 16 0) 0 key 0 16 = bytesLE keyN) :
    ∀ (fuel pos : Nat) (hash : List Nat),
      ghashLoop key data len fuel pos hash = ghashLoopN keyN data len fuel pos hash := by
  intro fuel
  induction fuel with
  | zero => intro pos hash; rfl
  | succ fuel ih =>
    intro pos hash
    by_cases h : pos < len
    · simp only [ghashLoop, ghashLoopN, if_pos h, gfmul_eq_bytesLE _ key keyN hN hkey, ih]
    · simp only [ghashLoop, ghashLoopN, if_neg h]

end GCM

end SM4GCM
namespace SM4GCM

namespace GCM

/-- The tag computed with gfmul on numbers, for a hash subkey that spells the
number hN. -/
theorem tagOf_eq_ghashLoopN (self : GCM) (nonce aad c : List Nat) (len hN : Nat)
    (hlt : hN < 2 ^ 128) (hH : memcpy (List.replicate 16 0) 0 self.H 0 16 = bytesLE hN) :
    tagOf self nonce aad c len =
      forLoop 16 (fun i t => t.set i
        ((ghashLoopN hN (ghashInputOf aad c len) (totalLenOf aad len) (totalLenOf aad len) 0
            (List.replicate 16 0)).getD i 0 ^^^
          (self.sm4.encrypt_block (generate_ctr nonce 0)).getD i 0)) (List.replicate 16 0) := by
  unfold tagOf ghash
  rw [ghashLoop_eq self.H _ _ hN hlt hH]

/-- The hash subkey under the key of main. -/
theorem mainKey_H :
    (set_key mainKey).H =
      [0x34, 0x3a, 0xe8, 0xdc, 0x07, 0xa4, 0xa8, 0x1d, 0xc0, 0xea, 0x4d, 0xa8, 0xc2, 0xb5, 0xe5, 0xb4] := by
  decide!

/-- The tag that decrypt computes under the key and the nonce of main for the
one-byte ciphertext 11 and no associated data. -/
theorem mainKey_tag :
    tagOf (set_key mainKey) mainNonce [] [0x11] 1 =
      [0x1f, 0x94, 0xce, 0x1c, 0x0b, 0x22, 0x6a, 0x18, 0xd7, 0xcd, 0x17, 0x0c, 0x20, 0xcf, 0x2a, 0x62] := by
  rw [tagOf_eq_ghashLoopN _ _ _ _ _ 240453761760378798885012272128157301300 (by decide)
    (by rw [mainKey_H]; decide)]
  decide!

/-- The buffer that decrypt leaves under the key and the nonce of main for the
one-byte ciphertext 11 and a buffer holding 00. -/
theorem mainKey_buffer (aad tag : List Nat) :
    (decrypt (set_key mainKey) mainNonce [0x11] aad tag [0]).2 = [0x53] := by
  rw [decrypt_snd]
  decide!

/-- One rejected call, evaluated: under the key and the nonce of main, the
one-byte ciphertext 11 with no associated data and an all-zero tag. -/
theorem decrypt_rejected_example :
    decrypt (set_key mainKey) mainNonce [0x11] [] (List.replicate 16 0) [0] = (false, [0x53]) := by
  apply Prod.ext
  · show (decrypt (set_key mainKey) mainNonce [0x11] [] (List.replicate 16 0) [0]).1 = false
    rw [decrypt_fst]
    show tagCompareLoop (tagOf (set_key mainKey) mainNonce [] [0x11] 1) _ 16 0 = false
    rw [mainKey_tag]
    decide
  · exact mainKey_buffer [] (List.replicate 16 0)

/-- The hash subkey under the key 000000000000000000000000000000ac. -/
theorem weakKey_H :
    (set_key weakKey).H =
      [0x2e, 0xaa, 0x12, 0x02, 0xd9, 0xac, 0x13, 0x90, 0xbe, 0x25, 0x3b, 0xb7, 0xe5, 0xf4, 0xba, 0x69] := by
  decide!

/-- The ciphertext of 16 zero bytes under that key and the zero nonce. -/
theorem weakKey_ciphertext (aad : List Nat) :
    (encrypt (set_key weakKey) (List.replicate 12 0) (List.replicate 16 0) aad
      (List.replicate 16 0)).1 =
      [0x06, 0x3f, 0xf3, 0xed, 0x6d, 0xf1, 0xc9, 0x2f, 0x0b, 0xd1, 0x87, 0x6d, 0x5f, 0xcd, 0x5b, 0x65] := by
  rw [encrypt_fst]
  decide!

/-- The tag of that ciphertext with no associated data. -/
theorem weakKey_tag :
    tagOf (set_key weakKey) (List.replicate 12 0) []
      [0x06, 0x3f, 0xf3, 0xed, 0x6d, 0xf1, 0xc9, 0x2f, 0x0b, 0xd1, 0x87, 0x6d, 0x5f, 0xcd, 0x5b, 0x65] 16 =
      [0x56, 0x41, 0x6d, 0x1f, 0xd9, 0xc7, 0xb3, 0x19, 0x63, 0x32, 0x2e, 0x2b, 0x93, 0x8d, 0x69, 0x75] := by
  rw [tagOf_eq_ghashLoopN _ _ _ _ _ 140539673881003413031409648191241628206 (by decide)
    (by rw [weakKey_H]; decide)]
  decide!

/-- The tag of the ciphertext with the lowest bit of its last byte flipped is
the same tag. -/
theorem weakKey_tag_flipped :
    tagOf (set_key weakKey) (List.replicate 12 0) []
      [0x06, 0x3f, 0xf3, 0xed, 0x6d, 0xf1, 0xc9, 0x2f, 0x0b, 0xd1, 0x87, 0x6d, 0x5f, 0xcd, 0x5b, 0x64] 16 =
      [0x56, 0x41, 0x6d, 0x1f, 0xd9, 0xc7, 0xb3, 0x19, 0x63, 0x32, 0x2e, 0x2b, 0x93, 0x8d, 0x69, 0x75] := by
  rw [tagOf_eq_ghashLoopN _ _ _ _ _ 140539673881003413031409648191241628206 (by decide)
    (by rw [weakKey_H]; decide)]
  decide!

end GCM

end SM4GCM

/-! ## The claims on the AEAD -/

/-- C2: after set_key, decrypt applied to the ciphertext and the tag that
encrypt produced, with the same nonce and associated data, returns true and
leaves the original plaintext in the output buffer. -/
theorem C2_gcm_decrypt_encrypt (key nonce aad pt cbuf pbuf : List Nat)
    (hc : cbuf.length = pt.length) (hp : pbuf.length = pt.length) :
    SM4GCM.GCM.decrypt (SM4GCM.GCM.set_key key) nonce
      (SM4GCM.GCM.encrypt (SM4GCM.GCM.set_key key) nonce pt aad cbuf).1 aad
      (SM4GCM.GCM.encrypt (SM4GCM.GCM.set_key key) nonce pt aad cbuf).2 pbuf = (true, pt) :=
  SM4GCM.GCM.decrypt_encrypt (SM4GCM.GCM.set_key key) nonce aad pt cbuf pbuf hc hp

/-- C2 at the key and nonce of main, the plaintext "SM4" and two bytes of
associated data. -/
theorem C2_gcm_decrypt_encrypt_witness :
    SM4GCM.GCM.decrypt (SM4GCM.GCM.set_key SM4GCM.mainKey) SM4GCM.mainNonce
      (SM4GCM.GCM.encrypt (SM4GCM.GCM.set_key SM4GCM.mainKey) SM4GCM.mainNonce
        [0x53, 0x4d, 0x34] [0x41, 0x64] [0, 0, 0]).1 [0x41, 0x64]
      (SM4GCM.GCM.encrypt (SM4GCM.GCM.set_key SM4GCM.mainKey) SM4GCM.mainNonce
        [0x53, 0x4d, 0x34] [0x41, 0x64] [0, 0, 0]).2 [0, 0, 0] = (true, [0x53, 0x4d, 0x34]) :=
  C2_gcm_decrypt_encrypt SM4GCM.mainKey SM4GCM.mainNonce [0x41, 0x64] [0x53, 0x4d, 0x34]
    [0, 0, 0] [0, 0, 0] rfl rfl

/-- C7: decrypt returns true exactly when the supplied 16-byte tag is the tag
of the tag formula (the hash of the padded associated data, the padded
ciphertext and the two lengths, xored with J0) for the supplied nonce,
associated data and ciphertext; that formula is the tag encrypt returns for
the ciphertext it produces; and a tag produced by encrypt with any one of its
128 bits flipped makes decrypt return false. -/
theorem C7_decrypt_true_iff_tag (self : SM4GCM.GCM) (nonce ciphertext aad tag plaintext : List Nat)
    (htag : tag.length = 16) :
    ((SM4GCM.GCM.decrypt self nonce ciphertext aad tag plaintext).1 = true ↔
      tag = Spec.tagFormula self nonce aad ciphertext) ∧
    (∀ (pt cbuf : List Nat), cbuf.length = pt.length →
      (SM4GCM.GCM.encrypt self nonce pt aad cbuf).2 =
        Spec.tagFormula self nonce aad (SM4GCM.GCM.encrypt self nonce pt aad cbuf).1) ∧
    ∀ (pt cbuf : List Nat) (i b : Nat), cbuf.length = pt.length → i < 16 → b < 8 →
      (SM4GCM.GCM.decrypt self nonce (SM4GCM.GCM.encrypt self nonce pt aad cbuf).1 aad
        (SM4GCM.GCM.flipBit (SM4GCM.GCM.encrypt self nonce pt aad cbuf).2 i b) plaintext).1 =
        false := by
  have hlen : ∀ (pt cbuf : List Nat), cbuf.length = pt.length →
      (SM4GCM.GCM.encrypt self nonce pt aad cbuf).1.length = pt.length := by
    intro pt cbuf hc
    rw [(SM4GCM.GCM.encrypt_fst_spec self nonce pt aad cbuf).1, hc]
  refine ⟨SM4GCM.GCM.decrypt_fst_iff self nonce ciphertext aad tag plaintext htag, ?_, ?_⟩
  · intro pt cbuf hc
    rw [SM4GCM.GCM.encrypt_snd, SM4GCM.GCM.tagOf_eq_tagFormula _ _ _ _ _
      (Nat.le_of_eq (hlen pt cbuf hc).symm), ← hlen pt cbuf hc, List.take_length]
  intro pt cbuf i b hc hi _
  have hlen : (SM4GCM.GCM.encrypt self nonce pt aad cbuf).1.length = pt.length := hlen pt cbuf hc
  have htl : (SM4GCM.GCM.encrypt self nonce pt aad cbuf).2.length = 16 := by
    rw [SM4GCM.GCM.encrypt_snd, SM4GCM.GCM.tagOf_length]
  rw [Bool.eq_false_iff]
  intro htrue
  rw [SM4GCM.GCM.decrypt_fst, hlen, ← SM4GCM.GCM.encrypt_snd,
    SM4GCM.GCM.tagCompareLoop_iff] at htrue
  have h := htrue i (Nat.zero_le i) (by omega)
  rw [SM4GCM.GCM.flipBit, getD_set_eq, if_pos ⟨rfl, by omega⟩] at h
  exact xor_pow_two_ne _ _ h.symm

/-- C7 at the key and nonce of main, a one-byte ciphertext and an all-zero tag. -/
theorem C7_decrypt_true_iff_tag_witness :
    (List.replicate 16 0).length = 16 ∧
    (((SM4GCM.GCM.decrypt (SM4GCM.GCM.set_key SM4GCM.mainKey) SM4GCM.mainNonce [0x11] []
        (List.replicate 16 0) [0]).1 = true ↔
      List.replicate 16 0 =
        Spec.tagFormula (SM4GCM.GCM.set_key SM4GCM.mainKey) SM4GCM.mainNonce [] [0x11]) ∧
    (∀ (pt cbuf : List Nat), cbuf.length = pt.length →
      (SM4GCM.GCM.encrypt (SM4GCM.GCM.set_key SM4GCM.mainKey) SM4GCM.mainNonce pt [] cbuf).2 =
        Spec.tagFormula (SM4GCM.GCM.set_key SM4GCM.mainKey) SM4GCM.mainNonce []
          (SM4GCM.GCM.encrypt (SM4GCM.GCM.set_key SM4GCM.mainKey) SM4GCM.mainNonce
            pt [] cbuf).1) ∧
    ∀ (pt cbuf : List Nat) (i b : Nat), cbuf.length = pt.length → i < 16 → b < 8 →
      (SM4GCM.GCM.decrypt (SM4GCM.GCM.set_key SM4GCM.mainKey) SM4GCM.mainNonce
        (SM4GCM.GCM.encrypt (SM4GCM.GCM.set_key SM4GCM.mainKey) SM4GCM.mainNonce
          pt [] cbuf).1 []
        (SM4GCM.GCM.flipBit (SM4GCM.GCM.encrypt (SM4GCM.GCM.set_key SM4GCM.mainKey)
          SM4GCM.mainNonce pt [] cbuf).2 i b) [0]).1 = false) :=
  ⟨rfl, C7_decrypt_true_iff_tag (SM4GCM.GCM.set_key SM4GCM.mainKey) SM4GCM.mainNonce [0x11] []
    (List.replicate 16 0) [0] rfl⟩

/-- C8: under the key 000000000000000000000000000000ac the hash subkey H is
not zero, encrypt turns 16 zero bytes (zero nonce, no associated data) into the
ciphertext 063ff3ed6df1c92f0bd1876d5fcd5b65 with the tag
56416d1fd9c7b31963322e2b938d6975, and decrypt returns true for that tag and the
ciphertext with the lowest bit of its last byte flipped. -/
theorem C8_flipped_ciphertext_accepted :
    (SM4GCM.GCM.set_key SM4GCM.weakKey).H ≠ List.replicate 16 0 ∧
    SM4GCM.GCM.encrypt (SM4GCM.GCM.set_key SM4GCM.weakKey) (List.replicate 12 0)
      (List.replicate 16 0) [] (List.replicate 16 0) =
      ([0x06, 0x3f, 0xf3, 0xed, 0x6d, 0xf1, 0xc9, 0x2f, 0x0b, 0xd1, 0x87, 0x6d, 0x5f, 0xcd, 0x5b, 0x65],
       [0x56, 0x41, 0x6d, 0x1f, 0xd9, 0xc7, 0xb3, 0x19, 0x63, 0x32, 0x2e, 0x2b, 0x93, 0x8d, 0x69, 0x75]) ∧
    (SM4GCM.GCM.decrypt (SM4GCM.GCM.set_key SM4GCM.weakKey) (List.replicate 12 0)
      [0x06, 0x3f, 0xf3, 0xed, 0x6d, 0xf1, 0xc9, 0x2f, 0x0b, 0xd1, 0x87, 0x6d, 0x5f, 0xcd, 0x5b, 0x64] []
      [0x56, 0x41, 0x6d, 0x1f, 0xd9, 0xc7, 0xb3, 0x19, 0x63, 0x32, 0x2e, 0x2b, 0x93, 0x8d, 0x69, 0x75]
      (List.replicate 16 0)).1 = true := by
  refine ⟨?_, Prod.ext (SM4GCM.GCM.weakKey_ciphertext []) ?_, ?_⟩
  · rw [SM4GCM.GCM.weakKey_H]
    decide
  · show (SM4GCM.GCM.encrypt _ _ _ _ _).2 = _
    rw [SM4GCM.GCM.encrypt_snd, SM4GCM.GCM.weakKey_ciphertext]
    exact SM4GCM.GCM.weakKey_tag
  · rw [SM4GCM.GCM.decrypt_fst]
    show SM4GCM.GCM.tagCompareLoop (SM4GCM.GCM.tagOf _ _ _ _ 16) _ 16 0 = true
    rw [SM4GCM.GCM.weakKey_tag_flipped]
    decide

/-- C9, as stated, fails: under the key and the nonce of main, decrypt of the
one-byte ciphertext 11 with an all-zero tag returns false, and the output
buffer, which held 00 before the call, holds 53 after it. -/
theorem C9_rejected_call_changes_buffer :
    (SM4GCM.GCM.decrypt (SM4GCM.GCM.set_key SM4GCM.mainKey) SM4GCM.mainNonce [0x11] []
      (List.replicate 16 0) [0]).1 = false ∧
    (SM4GCM.GCM.decrypt (SM4GCM.GCM.set_key SM4GCM.mainKey) SM4GCM.mainNonce [0x11] []
      (List.replicate 16 0) [0]).2 ≠ [0] := by
  rw [SM4GCM.GCM.decrypt_rejected_example]
  exact ⟨rfl, by decide⟩

/-- C9, amended: when decrypt returns false, the output buffer keeps its
length, every byte below the ciphertext length holds the ciphertext byte xored
with the keystream byte, and every byte from the ciphertext length on is what
it was before the call. -/
theorem C9_rejected_call_buffer (self : SM4GCM.GCM) (nonce ciphertext aad tag plaintext : List Nat)
    (hbuf : ciphertext.length ≤ plaintext.length)
    (_hfalse : (SM4GCM.GCM.decrypt self nonce ciphertext aad tag plaintext).1 = false) :
    (SM4GCM.GCM.decrypt self nonce ciphertext aad tag plaintext).2.length = plaintext.length ∧
    (∀ i, i < ciphertext.length →
      (SM4GCM.GCM.decrypt self nonce ciphertext aad tag plaintext).2.getD i 0 =
        ciphertext.getD i 0 ^^^
          (self.sm4.encrypt_block (SM4GCM.GCM.generate_ctr nonce (i / 16 + 1))).getD (i % 16) 0) ∧
    (∀ i, ciphertext.length ≤ i →
      (SM4GCM.GCM.decrypt self nonce ciphertext aad tag plaintext).2.getD i 0 =
        plaintext.getD i 0) := by
  have h := SM4GCM.GCM.decrypt_snd_spec self nonce ciphertext aad tag plaintext
  refine ⟨h.1, fun i hi => ?_, fun i hi => ?_⟩
  · rw [h.2 i, if_pos ⟨hi, by omega⟩]
    rfl
  · rw [h.2 i, if_neg (by omega)]

/-- C9, amended, at the rejected call under the key and the nonce of main. -/
theorem C9_rejected_call_buffer_witness :
    [0x11].length ≤ [0].length ∧
    (SM4GCM.GCM.decrypt (SM4GCM.GCM.set_key SM4GCM.mainKey) SM4GCM.mainNonce [0x11] []
      (List.replicate 16 0) [0]).1 = false ∧
    ((SM4GCM.GCM.decrypt (SM4GCM.GCM.set_key SM4GCM.mainKey) SM4GCM.mainNonce [0x11] []
      (List.replicate 16 0) [0]).2.length = [0].length ∧
    (∀ i, i < [0x11].length →
      (SM4GCM.GCM.decrypt (SM4GCM.GCM.set_key SM4GCM.mainKey) SM4GCM.mainNonce [0x11] []
        (List.replicate 16 0) [0]).2.getD i 0 =
        [0x11].getD i 0 ^^^
          ((SM4GCM.GCM.set_key SM4GCM.mainKey).sm4.encrypt_block
            (SM4GCM.GCM.generate_ctr SM4GCM.mainNonce (i / 16 + 1))).getD (i % 16) 0) ∧
    (∀ i, [0x11].length ≤ i →
      (SM4GCM.GCM.decrypt (SM4GCM.GCM.set_key SM4GCM.mainKey) SM4GCM.mainNonce [0x11] []
        (List.replicate 16 0) [0]).2.getD i 0 = [0].getD i 0)) :=
  have hf : (SM4GCM.GCM.decrypt (SM4GCM.GCM.set_key SM4GCM.mainKey) SM4GCM.mainNonce [0x11] []
      (List.replicate 16 0) [0]).1 = false := by
    rw [SM4GCM.GCM.decrypt_rejected_example]
  ⟨by decide, hf, C9_rejected_call_buffer (SM4GCM.GCM.set_key SM4GCM.mainKey) SM4GCM.mainNonce
    [0x11] [] (List.replicate 16 0) [0] (by decide) hf⟩

/-- C10: for a 12-byte nonce and an output buffer of at least L bytes, where L
is the plaintext length, encrypt keeps the length of the buffer, stores at
every index i below L the plaintext byte xored with byte i mod 16 of the
encryption of the nonce followed by the four big-endian bytes of i / 16 + 1,
leaves every byte from L on as it was, and fills the buffer the same way
whatever the associated data. -/
theorem C10_encrypt_ciphertext (key nonce aad pt cbuf : List Nat)
    (hn : nonce.length = 12) (hbuf : pt.length ≤ cbuf.length) :
    (SM4GCM.GCM.encrypt (SM4GCM.GCM.set_key key) nonce pt aad cbuf).1.length = cbuf.length ∧
    (∀ i, i < pt.length →
      (SM4GCM.GCM.encrypt (SM4GCM.GCM.set_key key) nonce pt aad cbuf).1.getD i 0 =
        pt.getD i 0 ^^^ ((SM4GCM.GCM.set_key key).sm4.encrypt_block
          (nonce ++ Spec.be32 (i / 16 + 1))).getD (i % 16) 0) ∧
    (∀ i, pt.length ≤ i →
      (SM4GCM.GCM.encrypt (SM4GCM.GCM.set_key key) nonce pt aad cbuf).1.getD i 0 =
        cbuf.getD i 0) ∧
    (∀ aad2 : List Nat,
      (SM4GCM.GCM.encrypt (SM4GCM.GCM.set_key key) nonce pt aad2 cbuf).1 =
        (SM4GCM.GCM.encrypt (SM4GCM.GCM.set_key key) nonce pt aad cbuf).1) := by
  have h := SM4GCM.GCM.encrypt_fst_spec (SM4GCM.GCM.set_key key) nonce pt aad cbuf
  refine ⟨h.1, fun i hi => ?_, fun i hi => ?_, fun aad2 => rfl⟩
  · rw [h.2 i, if_pos ⟨hi, by omega⟩, ← SM4GCM.GCM.generate_ctr_eq nonce _ hn]
    rfl
  · rw [h.2 i, if_neg (by omega)]

/-- C10 at the key and nonce of main, the plaintext "SM4-GCM" and a buffer of
seven bytes. -/
theorem C10_encrypt_ciphertext_witness :
    SM4GCM.mainNonce.length = 12 ∧
    [0x53, 0x4d, 0x34, 0x2d, 0x47, 0x43, 0x4d].length ≤ (List.replicate 7 0).length ∧
    ((SM4GCM.GCM.encrypt (SM4GCM.GCM.set_key SM4GCM.mainKey) SM4GCM.mainNonce
        [0x53, 0x4d, 0x34, 0x2d, 0x47, 0x43, 0x4d] [] (List.replicate 7 0)).1.length =
      (List.replicate 7 0).length ∧
    (∀ i, i < [0x53, 0x4d, 0x34, 0x2d, 0x47, 0x43, 0x4d].length →
      (SM4GCM.GCM.encrypt (SM4GCM.GCM.set_key SM4GCM.mainKey) SM4GCM.mainNonce
        [0x53, 0x4d, 0x34, 0x2d, 0x47, 0x43, 0x4d] [] (List.replicate 7 0)).1.getD i 0 =
        [0x53, 0x4d, 0x34, 0x2d, 0x47, 0x43, 0x4d].getD i 0 ^^^
          ((SM4GCM.GCM.set_key SM4GCM.mainKey).sm4.encrypt_block
            (SM4GCM.mainNonce ++ Spec.be32 (i / 16 + 1))).getD (i % 16) 0) ∧
    (∀ i, [0x53, 0x4d, 0x34, 0x2d, 0x47, 0x43, 0x4d].length ≤ i →
      (SM4GCM.GCM.encrypt (SM4GCM.GCM.set_key SM4GCM.mainKey) SM4GCM.mainNonce
        [0x53, 0x4d, 0x34, 0x2d, 0x47, 0x43, 0x4d] [] (List.replicate 7 0)).1.getD i 0 =
        (List.replicate 7 0).getD i 0) ∧
    (∀ aad2 : List Nat,
      (SM4GCM.GCM.encrypt (SM4GCM.GCM.set_key SM4GCM.mainKey) SM4GCM.mainNonce
        [0x53, 0x4d, 0x34, 0x2d, 0x47, 0x43, 0x4d] aad2 (List.replicate 7 0)).1 =
      (SM4GCM.GCM.encrypt (SM4GCM.GCM.set_key SM4GCM.mainKey) SM4GCM.mainNonce
        [0x53, 0x4d, 0x34, 0x2d, 0x47, 0x43, 0x4d] [] (List.replicate 7 0)).1)) :=
  ⟨rfl, by decide, C10_encrypt_ciphertext SM4GCM.mainKey SM4GCM.mainNonce []
    [0x53, 0x4d, 0x34, 0x2d, 0x47, 0x43, 0x4d] (List.replicate 7 0) rfl (by decide)⟩

/-! ## The reference cipher as a bijection -/

theorem forLoop_congr {σ : Type} (n : Nat) (f g : Nat → σ → σ) (s : σ)
    (h : ∀ i, i < n → ∀ t, f i t = g i t) : forLoop n f s = forLoop n g s := by
  induction n with
  | zero => rfl
  | succ n ih =>
    rw [forLoop_succ, forLoop_succ, ih (fun i hi t => h i (Nat.lt_succ_of_lt hi) t),
      h n (Nat.lt_succ_self n)]

namespace SM4Basic

theorem S_BOX_entries_lt : ∀ x ∈ S_BOX, x < 256 := by decide!

theorem sbox_lt (b : Nat) : sbox b < 256 := by
  unfold sbox
  by_cases h : b < S_BOX.length
  · rw [List.getD_eq_getElem _ _ h]
    exact S_BOX_entries_lt _ (List.getElem_mem h)
  · rw [List.getD_eq_default _ _ (Nat.le_of_not_lt h)]
    decide

theorem ROTL32_lt (x n : Nat) (hx : x < 2 ^ 32) : ROTL32 x n < 2 ^ 32 := by
  unfold ROTL32
  apply Nat.or_lt_two_pow (Nat.mod_lt _ (Nat.two_pow_pos 32))
  rw [Nat.shiftRight_eq_div_pow]
  exact Nat.lt_of_le_of_lt (Nat.div_le_self _ _) hx

theorem L_lt (x : Nat) (hx : x < 2 ^ 32) : L x < 2 ^ 32 := by
  unfold L
  exact Nat.xor_lt_two_pow (Nat.xor_lt_two_pow (Nat.xor_lt_two_pow (Nat.xor_lt_two_pow hx
    (ROTL32_lt x 2 hx)) (ROTL32_lt x 10 hx)) (ROTL32_lt x 18 hx)) (ROTL32_lt x 24 hx)

/-- The word assembled from four bytes is a 32-bit word. -/
theorem bytes_word_lt (b0 b1 b2 b3 : Nat) (h0 : b0 < 256) (h1 : b1 < 256) (h2 : b2 < 256)
    (h3 : b3 < 256) : (b0 <<< 24) ||| (b1 <<< 16) ||| (b2 <<< 8) ||| b3 < 2 ^ 32 := by
  have e : (2 : Nat) ^ 32 = 4294967296 := by decide
  refine Nat.or_lt_two_pow (Nat.or_lt_two_pow (Nat.or_lt_two_pow ?_ ?_) ?_) ?_
  · rw [Nat.shiftLeft_eq, e]
    have : (2 : Nat) ^ 24 = 16777216 := by decide
    omega
  · rw [Nat.shiftLeft_eq, e]
    have : (2 : Nat) ^ 16 = 65536 := by decide
    omega
  · rw [Nat.shiftLeft_eq, e]
    have : (2 : Nat) ^ 8 = 256 := by decide
    omega
  · omega

theorem nonlinearTransform_lt (x : Nat) : nonlinearTransform x < 2 ^ 32 := by
  unfold nonlinearTransform
  exact L_lt _ (bytes_word_lt _ _ _ _ (sbox_lt _) (sbox_lt _) (sbox_lt _) (sbox_lt _))

/-- The rounds keep a register of four 32-bit words a register of four 32-bit
words. -/
theorem rounds_lt (f : Nat → Nat) (n : Nat) (a b c d : Nat)
    (ha : a < 2 ^ 32) (hb : b < 2 ^ 32) (hc : c < 2 ^ 32) (hd : d < 2 ^ 32) :
    ∃ a' b' c' d', forLoop n (fun i X => round (f i) X) [a, b, c, d] = [a', b', c', d'] ∧
      a' < 2 ^ 32 ∧ b' < 2 ^ 32 ∧ c' < 2 ^ 32 ∧ d' < 2 ^ 32 := by
  induction n with
  | zero => exact ⟨a, b, c, d, rfl, ha, hb, hc, hd⟩
  | succ n ih =>
    obtain ⟨a', b', c', d', h, ha', hb', hc', hd'⟩ := ih
    rw [forLoop_succ, h]
    exact ⟨b', c', d', _, rfl, hb', hc', hd',
      Nat.xor_lt_two_pow ha' (nonlinearTransform_lt _)⟩

/-- The rounds with the keys in reverse order undo the rounds, in this order
too: encryption after decryption. -/
theorem rounds_inverse_rev (f : Nat → Nat) (a b c d : Nat) :
    forLoop 32 (fun i X => round (f i) X)
      (rev4 (forLoop 32 (fun i X => round (f (31 - i)) X) [a, b, c, d])) = rev4 [a, b, c, d] := by
  have h := rounds_inverse (fun i => f (31 - i)) 32 a b c d
  rw [← h]
  apply forLoop_congr
  intro i hi t
  have e : 31 - (32 - 1 - i) = i := by omega
  show round (f i) t = round (f (31 - (32 - 1 - i))) t
  rw [e]

end SM4Basic

/-- C19: in SM4基本实现.cpp, for every key and every block c of four 32-bit
words, sm4Encrypt applied to sm4Decrypt of c gives c back, sm4Decrypt applied
to sm4Encrypt of c gives c back, and both functions return a block of four
32-bit words: for a fixed key each is a bijection of the block space, the
other being its inverse. -/
theorem C19_sm4_encrypt_decrypt (c0 c1 c2 c3 : Nat) (key : List Nat)
    (h0 : c0 < 2 ^ 32) (h1 : c1 < 2 ^ 32) (h2 : c2 < 2 ^ 32) (h3 : c3 < 2 ^ 32) :
    SM4Basic.sm4Encrypt (SM4Basic.sm4Decrypt [c0, c1, c2, c3] key) key = [c0, c1, c2, c3] ∧
    SM4Basic.sm4Decrypt (SM4Basic.sm4Encrypt [c0, c1, c2, c3] key) key = [c0, c1, c2, c3] ∧
    (∃ d0 d1 d2 d3, SM4Basic.sm4Decrypt [c0, c1, c2, c3] key = [d0, d1, d2, d3] ∧
      d0 < 2 ^ 32 ∧ d1 < 2 ^ 32 ∧ d2 < 2 ^ 32 ∧ d3 < 2 ^ 32) ∧
    (∃ e0 e1 e2 e3, SM4Basic.sm4Encrypt [c0, c1, c2, c3] key = [e0, e1, e2, e3] ∧
      e0 < 2 ^ 32 ∧ e1 < 2 ^ 32 ∧ e2 < 2 ^ 32 ∧ e3 < 2 ^ 32) := by
  refine ⟨?_, ?_, ?_, ?_⟩
  · have h := SM4Basic.rounds_inverse_rev
      (fun i => (SM4Basic.keyExpansion key).getD i 0) c0 c1 c2 c3
    simp only [SM4Basic.sm4Decrypt, SM4Basic.sm4Encrypt, List.getD_cons_zero,
      List.getD_cons_succ]
    simp only [SM4Basic.rev4, List.getD_cons_zero, List.getD_cons_succ] at h
    rw [h]
    rfl
  · have h := SM4Basic.rounds_inverse
      (fun i => (SM4Basic.keyExpansion key).getD i 0) 32 c0 c1 c2 c3
    simp only [SM4Basic.sm4Decrypt, SM4Basic.sm4Encrypt, List.getD_cons_zero,
      List.getD_cons_succ]
    simp only [SM4Basic.rev4, List.getD_cons_zero, List.getD_cons_succ] at h
    rw [h]
    rfl
  · obtain ⟨a, b, c, d, h, ha, hb, hc, hd⟩ := SM4Basic.rounds_lt
      (fun i => (SM4Basic.keyExpansion key).getD (31 - i) 0) 32 c0 c1 c2 c3 h0 h1 h2 h3
    refine ⟨d, c, b, a, ?_, hd, hc, hb, ha⟩
    simp only [SM4Basic.sm4Decrypt, List.getD_cons_zero, List.getD_cons_succ]
    rw [h]
    rfl
  · obtain ⟨a, b, c, d, h, ha, hb, hc, hd⟩ := SM4Basic.rounds_lt
      (fun i => (SM4Basic.keyExpansion key).getD i 0) 32 c0 c1 c2 c3 h0 h1 h2 h3
    refine ⟨d, c, b, a, ?_, hd, hc, hb, ha⟩
    simp only [SM4Basic.sm4Encrypt, List.getD_cons_zero, List.getD_cons_succ]
    rw [h]
    rfl

/-- C19 at the block and the key of main. -/
theorem C19_sm4_encrypt_decrypt_witness :
    SM4Basic.sm4Encrypt (SM4Basic.sm4Decrypt [0x01234567, 0x89abcdef, 0xfedcba98, 0x76543210]
        [0x01234567, 0x89abcdef, 0xfedcba98, 0x76543210])
      [0x01234567, 0x89abcdef, 0xfedcba98, 0x76543210] =
      [0x01234567, 0x89abcdef, 0xfedcba98, 0x76543210] :=
  (C19_sm4_encrypt_decrypt 0x01234567 0x89abcdef 0xfedcba98 0x76543210
    [0x01234567, 0x89abcdef, 0xfedcba98, 0x76543210]
    (by decide) (by decide) (by decide) (by decide)).1

/-! ## The counter block, the tag formula and the empty message -/

theorem forLoop_length_of_preserve (n : Nat) (body : Nat → List Nat → List Nat)
    (h : ∀ i s, (body i s).length = s.length) (s : List Nat) :
    (forLoop n body s).length = s.length := by
  induction n with
  | zero => rfl
  | succ n ih => rw [forLoop_succ, h, ih]

namespace SM4GCM

theorem SM4.encrypt_block_length (self : SM4) (inp : List Nat) :
    (self.encrypt_block inp).length = 16 := by
  unfold SM4.encrypt_block
  dsimp only
  rw [forLoop_length_of_preserve]
  · rfl
  · intro i s
    simp only [List.length_set]

namespace GCM

/-- The bytes of a counter block: bytes 12 to 15 are the low 32 bits of the
counter, the other bytes do not depend on the counter. -/
theorem generate_ctr_getD (nonce : List Nat) (c i : Nat) :
    (generate_ctr nonce c).getD i 0 =
      if i = 12 then c / 2 ^ 24 % 256 else if i = 13 then c / 2 ^ 16 % 256
      else if i = 14 then c / 2 ^ 8 % 256 else if i = 15 then c % 256
      else (memcpy (List.replicate 16 0) 0 nonce 0 12).getD i 0 := by
  simp only [generate_ctr, getD_set_eq, List.length_set, memcpy_length, List.length_replicate,
    and_255, Nat.shiftRight_eq_div_pow]
  by_cases h15 : i = 15
  · subst h15; simp
  by_cases h14 : i = 14
  · subst h14; simp
  by_cases h13 : i = 13
  · subst h13; simp
  by_cases h12 : i = 12
  · subst h12; simp
  rw [if_neg (fun h => h15 h.1.symm), if_neg (fun h => h14 h.1.symm),
    if_neg (fun h => h13 h.1.symm), if_neg (fun h => h12 h.1.symm),
    if_neg h12, if_neg h13, if_neg h14, if_neg h15]

theorem generate_ctr_length (nonce : List Nat) (c : Nat) : (generate_ctr nonce c).length = 16 := by
  simp only [generate_ctr, List.length_set, memcpy_length, List.length_replicate]

/-- Two counter blocks of one nonce are equal exactly when the counters agree
modulo 2^32. -/
theorem generate_ctr_eq_iff (nonce : List Nat) (c d : Nat) :
    generate_ctr nonce c = generate_ctr nonce d ↔ c % 2 ^ 32 = d % 2 ^ 32 := by
  have e32 : (2 : Nat) ^ 32 = 4294967296 := by decide
  have e24 : (2 : Nat) ^ 24 = 16777216 := by decide
  have e16 : (2 : Nat) ^ 16 = 65536 := by decide
  have e8 : (2 : Nat) ^ 8 = 256 := by decide
  constructor
  · intro h
    have h12 := generate_ctr_getD nonce c 12
    have h13 := generate_ctr_getD nonce c 13
    have h14 := generate_ctr_getD nonce c 14
    have h15 := generate_ctr_getD nonce c 15
    rw [h, generate_ctr_getD] at h12 h13 h14 h15
    simp only [if_true, if_false, Nat.reduceEqDiff, e24, e16, e8] at h12 h13 h14 h15
    rw [e32]
    omega
  · intro h
    apply list_ext_getD
    · rw [generate_ctr_length, generate_ctr_length]
    · intro i _
      rw [generate_ctr_getD, generate_ctr_getD, e24, e16, e8]
      rw [e32] at h
      have a24 : c / 16777216 % 256 = d / 16777216 % 256 := by omega
      have a16 : c / 65536 % 256 = d / 65536 % 256 := by omega
      have a8 : c / 256 % 256 = d / 256 % 256 := by omega
      have a0 : c % 256 = d % 256 := by omega
      rw [a24, a16, a8, a0]

end GCM

end SM4GCM

/-- C11, as stated, fails: the byte offset 68719476720 = 2^36 - 16 is a size_t
and is below the length of a message of 2^36 bytes; its block index is
k = 2^32 - 1, and the counter block of the data block k, generate_ctr(nonce,
k + 1), is the counter-0 block generate_ctr(nonce, 0), here at the nonce of
main. -/
theorem C11_counter_block_reused :
    68719476720 < 2 ^ 64 ∧ 68719476720 < 2 ^ 36 ∧ 68719476720 / 16 = 2 ^ 32 - 1 ∧
    SM4GCM.GCM.generate_ctr SM4GCM.mainNonce (68719476720 / 16 + 1) =
      SM4GCM.GCM.generate_ctr SM4GCM.mainNonce 0 := by
  refine ⟨by decide, by decide, by decide, ?_⟩
  rw [SM4GCM.GCM.generate_ctr_eq_iff]
  decide

/-- C11, amended: for every nonce, a message of at most 2^36 - 16 bytes and a
byte offset i below its length, the counter block generate_ctr(nonce,
i div 16 + 1) used for the data differs from the counter-0 block
generate_ctr(nonce, 0); in general the block of the index k is the counter-0
block exactly when 2^32 divides k + 1. -/
theorem C11_counter_block_differs (nonce : List Nat) (len i : Nat)
    (hlen : len ≤ 2 ^ 36 - 16) (hi : i < len) :
    SM4GCM.GCM.generate_ctr nonce (i / 16 + 1) ≠ SM4GCM.GCM.generate_ctr nonce 0 ∧
    ∀ k, SM4GCM.GCM.generate_ctr nonce (k + 1) = SM4GCM.GCM.generate_ctr nonce 0 ↔
      (k + 1) % 2 ^ 32 = 0 := by
  have e32 : (2 : Nat) ^ 32 = 4294967296 := by decide
  have e36 : (2 : Nat) ^ 36 = 68719476736 := by decide
  constructor
  · rw [Ne, SM4GCM.GCM.generate_ctr_eq_iff, e32]
    rw [e36] at hlen
    omega
  · intro k
    rw [SM4GCM.GCM.generate_ctr_eq_iff]
    rfl

/-- C11, amended, at the nonce of main and the last byte of a 20-byte
message. -/
theorem C11_counter_block_differs_witness :
    SM4GCM.GCM.generate_ctr SM4GCM.mainNonce (19 / 16 + 1) ≠
      SM4GCM.GCM.generate_ctr SM4GCM.mainNonce 0 :=
  (C11_counter_block_differs SM4GCM.mainNonce 20 19 (by decide) (by decide)).1

namespace SM4GCM

namespace GCM

/-- With the operand x zero, an iteration of gfmul does not change z. -/
theorem gfmulStep_zero (i : Nat) (s : List Nat × List Nat) :
    (gfmulStep (List.replicate 16 0) i s).1 = s.1 := by
  unfold gfmulStep
  dsimp only
  rw [getD_replicate_zero, Nat.zero_shiftRight, Nat.zero_and, if_neg (fun h => h rfl)]

theorem gfmulLoop_zero (n : Nat) (s : List Nat × List Nat) :
    (forLoop n (gfmulStep (List.replicate 16 0)) s).1 = s.1 := by
  induction n with
  | zero => rfl
  | succ n ih => rw [forLoop_succ, gfmulStep_zero, ih]

theorem gfmul_zero (y : List Nat) : gfmul (List.replicate 16 0) y = List.replicate 16 0 :=
  gfmulLoop_zero 128 _

/-- The hash of sixteen zero bytes is zero under every key. -/
theorem ghash_zero_block (key : List Nat) :
    ghash key (List.replicate 16 0) 16 = List.replicate 16 0 := by
  have hb : memcpy (List.replicate 16 0) 0 (List.replicate 16 0) 0 16 = List.replicate 16 0 := by
    decide
  have hx : forLoop 16 (fun i (h : List Nat) =>
      h.set i (h.getD i 0 ^^^ (List.replicate 16 0).getD i 0)) (List.replicate 16 0) =
      List.replicate 16 0 := by decide
  show ghashLoop key (List.replicate 16 0) 16 (15 + 1) 0 (List.replicate 16 0) = _
  unfold ghashLoop
  simp only [Nat.zero_lt_succ, if_true, Nat.sub_zero, Nat.lt_irrefl, if_false, hb, hx,
    gfmul_zero, Nat.zero_add]
  show ghashLoop key (List.replicate 16 0) 16 (14 + 1) 16 (List.replicate 16 0) = _
  unfold ghashLoop
  rw [if_neg (Nat.lt_irrefl 16)]

end GCM

end SM4GCM

/-- C12: for every cipher object (so for every key), every 12-byte nonce, all
associated data A and every plaintext, with C the ciphertext that GCM::encrypt
writes (the first |plaintext| bytes of the output buffer, which must hold that
many), the tag returned is ghash(H, pad16(A) ++ pad16(C) ++ be64(8|A|) ++
be64(8|C|)) xor encrypt_block(nonce ++ 00000000), the hash running over the
whole of that input; be64 encodes the low 64 bits, as the uint64_t bit counts
of the source do. -/
theorem C12_encrypt_tag_formula (self : SM4GCM.GCM) (nonce plaintext aad ciphertext : List Nat)
    (hn : nonce.length = 12) (hc : plaintext.length ≤ ciphertext.length) :
    (SM4GCM.GCM.encrypt self nonce plaintext aad ciphertext).2 =
      Spec.xor16
        (SM4GCM.GCM.ghash self.H
          (Spec.pad16 aad ++
            Spec.pad16 ((SM4GCM.GCM.encrypt self nonce plaintext aad ciphertext).1.take
              plaintext.length) ++
            Spec.be64 (8 * aad.length) ++
            Spec.be64 (8 * ((SM4GCM.GCM.encrypt self nonce plaintext aad ciphertext).1.take
              plaintext.length).length))
          (Spec.pad16 aad ++
            Spec.pad16 ((SM4GCM.GCM.encrypt self nonce plaintext aad ciphertext).1.take
              plaintext.length) ++
            Spec.be64 (8 * aad.length) ++
            Spec.be64 (8 * ((SM4GCM.GCM.encrypt self nonce plaintext aad ciphertext).1.take
              plaintext.length).length)).length)
        (self.sm4.encrypt_block (nonce ++ [0, 0, 0, 0])) := by
  have hl : plaintext.length ≤
      (SM4GCM.GCM.encrypt self nonce plaintext aad ciphertext).1.length := by
    rw [(SM4GCM.GCM.encrypt_fst_spec self nonce plaintext aad ciphertext).1]
    exact hc
  have h0 : SM4GCM.GCM.generate_ctr nonce 0 = nonce ++ [0, 0, 0, 0] := by
    rw [SM4GCM.GCM.generate_ctr_eq nonce 0 hn]
    rfl
  rw [SM4GCM.GCM.encrypt_snd, SM4GCM.GCM.tagOf_eq_tagFormula _ _ _ _ _ hl]
  unfold Spec.tagFormula Spec.hashInput
  rw [h0, Nat.mul_comm 8 aad.length, Nat.mul_comm 8 (List.length _)]

/-- C12 at the key and the nonce of main, a 3-byte plaintext and 2 bytes of
associated data. -/
theorem C12_encrypt_tag_formula_witness :
    (SM4GCM.GCM.encrypt (SM4GCM.GCM.set_key SM4GCM.mainKey) SM4GCM.mainNonce [1, 2, 3] [4, 5]
        [0, 0, 0]).2 =
      Spec.xor16
        (SM4GCM.GCM.ghash (SM4GCM.GCM.set_key SM4GCM.mainKey).H
          (Spec.pad16 [4, 5] ++
            Spec.pad16 ((SM4GCM.GCM.encrypt (SM4GCM.GCM.set_key SM4GCM.mainKey) SM4GCM.mainNonce
              [1, 2, 3] [4, 5] [0, 0, 0]).1.take [1, 2, 3].length) ++
            Spec.be64 (8 * [4, 5].length) ++
            Spec.be64 (8 * ((SM4GCM.GCM.encrypt (SM4GCM.GCM.set_key SM4GCM.mainKey)
              SM4GCM.mainNonce [1, 2, 3] [4, 5] [0, 0, 0]).1.take [1, 2, 3].length).length))
          (Spec.pad16 [4, 5] ++
            Spec.pad16 ((SM4GCM.GCM.encrypt (SM4GCM.GCM.set_key SM4GCM.mainKey) SM4GCM.mainNonce
              [1, 2, 3] [4, 5] [0, 0, 0]).1.take [1, 2, 3].length) ++
            Spec.be64 (8 * [4, 5].length) ++
            Spec.be64 (8 * ((SM4GCM.GCM.encrypt (SM4GCM.GCM.set_key SM4GCM.mainKey)
              SM4GCM.mainNonce [1, 2, 3] [4, 5] [0, 0, 0]).1.take
                [1, 2, 3].length).length)).length)
        ((SM4GCM.GCM.set_key SM4GCM.mainKey).sm4.encrypt_block
          (SM4GCM.mainNonce ++ [0, 0, 0, 0])) :=
  C12_encrypt_tag_formula (SM4GCM.GCM.set_key SM4GCM.mainKey) SM4GCM.mainNonce [1, 2, 3] [4, 5]
    [0, 0, 0] (by decide) (by decide)

/-- C13: for every cipher object (so for every key) and every 12-byte nonce,
GCM::encrypt with no associated data and no plaintext leaves the output buffer
as it was, hashes a buffer of exactly 16 bytes, all zero (the length trailer),
whose hash is zero, and returns a tag of 16 bytes equal to
J0 = encrypt_block(nonce ++ 00000000). -/
theorem C13_empty_message_tag (self : SM4GCM.GCM) (nonce ciphertext : List Nat)
    (hn : nonce.length = 12) :
    (SM4GCM.GCM.encrypt self nonce [] [] ciphertext).1 = ciphertext ∧
    SM4GCM.GCM.totalLenOf [] 0 = 16 ∧
    SM4GCM.GCM.ghashInputOf [] ciphertext 0 = List.replicate 16 0 ∧
    SM4GCM.GCM.ghash self.H (SM4GCM.GCM.ghashInputOf [] ciphertext 0)
      (SM4GCM.GCM.totalLenOf [] 0) = List.replicate 16 0 ∧
    (SM4GCM.GCM.encrypt self nonce [] [] ciphertext).2 =
      Spec.xor16 (SM4GCM.GCM.ghash self.H (SM4GCM.GCM.ghashInputOf [] ciphertext 0)
        (SM4GCM.GCM.totalLenOf [] 0)) (self.sm4.encrypt_block (nonce ++ [0, 0, 0, 0])) ∧
    (SM4GCM.GCM.encrypt self nonce [] [] ciphertext).2 =
      self.sm4.encrypt_block (nonce ++ [0, 0, 0, 0]) ∧
    (SM4GCM.GCM.encrypt self nonce [] [] ciphertext).2.length = 16 := by
  have h1 : (SM4GCM.GCM.encrypt self nonce [] [] ciphertext).1 = ciphertext := by
    rw [SM4GCM.GCM.encrypt_fst]
    rfl
  have h2 : SM4GCM.GCM.totalLenOf [] 0 = 16 := by decide
  have h3 : SM4GCM.GCM.ghashInputOf [] ciphertext 0 = List.replicate 16 0 := by
    rw [SM4GCM.GCM.ghashInputOf_eq [] ciphertext 0 (Nat.zero_le _), List.take_zero]
    decide
  have h4 : SM4GCM.GCM.ghash self.H (SM4GCM.GCM.ghashInputOf [] ciphertext 0)
      (SM4GCM.GCM.totalLenOf [] 0) = List.replicate 16 0 := by
    rw [h2, h3, SM4GCM.GCM.ghash_zero_block]
  have h0 : SM4GCM.GCM.generate_ctr nonce 0 = nonce ++ [0, 0, 0, 0] := by
    rw [SM4GCM.GCM.generate_ctr_eq nonce 0 hn]
    rfl
  have h5 : (SM4GCM.GCM.encrypt self nonce [] [] ciphertext).2 =
      Spec.xor16 (SM4GCM.GCM.ghash self.H (SM4GCM.GCM.ghashInputOf [] ciphertext 0)
        (SM4GCM.GCM.totalLenOf [] 0)) (self.sm4.encrypt_block (nonce ++ [0, 0, 0, 0])) := by
    rw [SM4GCM.GCM.encrypt_snd, h1]
    apply list_ext_getD
    · rw [SM4GCM.GCM.tagOf_length, Spec.xor16_length]
    · intro i hi
      rw [SM4GCM.GCM.tagOf_length] at hi
      unfold SM4GCM.GCM.tagOf
      rw [forLoop_set0_getD, List.length_replicate, if_pos ⟨hi, hi⟩, Spec.xor16_getD _ _ i hi, h0]
      rfl
  have h6 : (SM4GCM.GCM.encrypt self nonce [] [] ciphertext).2 =
      self.sm4.encrypt_block (nonce ++ [0, 0, 0, 0]) := by
    rw [h5, h4]
    apply list_ext_getD
    · rw [Spec.xor16_length, SM4GCM.SM4.encrypt_block_length]
    · intro i hi
      rw [Spec.xor16_length] at hi
      rw [Spec.xor16_getD _ _ i hi, getD_replicate_zero, Nat.zero_xor]
  refine ⟨h1, h2, h3, h4, h5, h6, ?_⟩
  rw [h6, SM4GCM.SM4.encrypt_block_length]

/-- C13 at the key and the nonce of main. -/
theorem C13_empty_message_tag_witness :
    (SM4GCM.GCM.encrypt (SM4GCM.GCM.set_key SM4GCM.mainKey) SM4GCM.mainNonce [] [] []).2 =
      (SM4GCM.GCM.set_key SM4GCM.mainKey).sm4.encrypt_block (SM4GCM.mainNonce ++ [0, 0, 0, 0]) :=
  (C13_empty_message_tag (SM4GCM.GCM.set_key SM4GCM.mainKey) SM4GCM.mainNonce []
    (by decide)).2.2.2.2.2.1

/-! ## The tag comparison is not constant-time -/

namespace SM4GCM

namespace GCM

/-- The number of byte comparisons of the loop from index i, for tags that
agree from i up to the index k and differ at k when k is inside the range. -/
theorem tagCompareCount_spec (c t : List Nat) (k : Nat) :
    ∀ (fuel i : Nat), i ≤ k → k ≤ i + fuel →
      (∀ j, i ≤ j → j < k → c.getD j 0 = t.getD j 0) →
      (k < i + fuel → c.getD k 0 ≠ t.getD k 0) →
      tagCompareCount c t fuel i = min (k + 1 - i) fuel := by
  intro fuel
  induction fuel with
  | zero =>
    intro i _ _ _ _
    rw [Nat.min_zero]
    rfl
  | succ fuel ih =>
    intro i h1 h2 heq hne
    unfold tagCompareCount
    by_cases hk : i = k
    · subst hk
      rw [if_pos (hne (by omega))]
      omega
    · rw [if_neg (not_not.mpr (heq i (Nat.le_refl i) (by omega))),
        ih (i + 1) (by omega) (by omega) (fun j hj1 hj2 => heq j (by omega) hj2)
          (fun h => hne (by omega))]
      omega

end GCM

end SM4GCM

/-- C20, as stated, fails: against the computed tag of sixteen zero bytes, a
supplied tag whose first byte is wrong is rejected after one byte comparison,
and a supplied tag whose only wrong byte is the last is rejected after
sixteen. -/
theorem C20_comparison_count_depends_on_position :
    SM4GCM.GCM.tagCompareCount (List.replicate 16 0)
      [1, 0, 0, 0, 0, 0, 0, 0, 0, 0, 0, 0, 0, 0, 0, 0] 16 0 = 1 ∧
    SM4GCM.GCM.tagCompareCount (List.replicate 16 0)
      [0, 0, 0, 0, 0, 0, 0, 0, 0, 0, 0, 0, 0, 0, 0, 1] 16 0 = 16 ∧
    SM4GCM.GCM.tagCompareLoop (List.replicate 16 0)
      [1, 0, 0, 0, 0, 0, 0, 0, 0, 0, 0, 0, 0, 0, 0, 0] 16 0 = false ∧
    SM4GCM.GCM.tagCompareLoop (List.replicate 16 0)
      [0, 0, 0, 0, 0, 0, 0, 0, 0, 0, 0, 0, 0, 0, 0, 1] 16 0 = false := by
  decide

/-- C20, amended: the tag comparison in GCM::decrypt stops at the first
mismatching byte. When the computed and the supplied tag agree on the bytes
before index k and differ at byte k < 16, the loop performs k + 1 byte
comparisons and rejects; when they agree on all 16 bytes (k = 16) it performs
16 comparisons and accepts. -/
theorem C20_comparison_count (computed_tag tag : List Nat) (k : Nat) (hk : k ≤ 16)
    (heq : ∀ j, j < k → computed_tag.getD j 0 = tag.getD j 0)
    (hne : k < 16 → computed_tag.getD k 0 ≠ tag.getD k 0) :
    SM4GCM.GCM.tagCompareCount computed_tag tag 16 0 = min (k + 1) 16 ∧
    SM4GCM.GCM.tagCompareLoop computed_tag tag 16 0 = decide (k = 16) := by
  constructor
  · have h := SM4GCM.GCM.tagCompareCount_spec computed_tag tag k 16 0 (Nat.zero_le k)
      (by omega) (fun j _ hj => heq j hj) (fun h => hne (by omega))
    rw [h]
    rfl
  · by_cases h16 : k = 16
    · subst h16
      rw [decide_eq_true rfl, SM4GCM.GCM.tagCompareLoop_iff]
      intro j _ hj
      exact heq j (by omega)
    · rw [decide_eq_false h16]
      cases hb : SM4GCM.GCM.tagCompareLoop computed_tag tag 16 0 with
      | false => rfl
      | true =>
        rw [SM4GCM.GCM.tagCompareLoop_iff] at hb
        exact absurd (hb k (Nat.zero_le k) (by omega)) (hne (by omega))

/-- C20, amended, at a supplied tag whose first wrong byte is byte 5: six
comparisons. -/
theorem C20_comparison_count_witness :
    SM4GCM.GCM.tagCompareCount (List.replicate 16 0)
      [0, 0, 0, 0, 0, 7, 0, 0, 0, 0, 0, 0, 0, 0, 0, 9] 16 0 = min (5 + 1) 16 ∧
    SM4GCM.GCM.tagCompareLoop (List.replicate 16 0)
      [0, 0, 0, 0, 0, 7, 0, 0, 0, 0, 0, 0, 0, 0, 0, 9] 16 0 = decide (5 = 16) :=
  C20_comparison_count (List.replicate 16 0) [0, 0, 0, 0, 0, 7, 0, 0, 0, 0, 0, 0, 0, 0, 0, 9] 5
    (by decide) (by decide) (by decide)

/-! ## gfmul against multiplication in the field of GCM -/

namespace Spec

/-- The reference product reproduces a product of the GCM specification: test
case 2 of the GCM test vectors has H = 66e94bd4ef8a2c3b884cfa59ca342b2e and
C = 0388dace60b6a392f328c2b971b2fe78, and C times H is
5e2ec746917062882c85b0685353deb7. -/
theorem gf128Mul_known_product :
    gf128Mul
      [0x03, 0x88, 0xda, 0xce, 0x60, 0xb6, 0xa3, 0x92, 0xf3, 0x28, 0xc2, 0xb9, 0x71, 0xb2, 0xfe, 0x78]
      [0x66, 0xe9, 0x4b, 0xd4, 0xef, 0x8a, 0x2c, 0x3b, 0x88, 0x4c, 0xfa, 0x59, 0xca, 0x34, 0x2b, 0x2e]
      =
      [0x5e, 0x2e, 0xc7, 0x46, 0x91, 0x70, 0x62, 0x88, 0x2c, 0x85, 0xb0, 0x68, 0x53, 0x53, 0xde, 0xb7]
      := by
  decide!

/-- In the field, t^8 times 1 is t^8, in both orders. -/
theorem gf128Mul_T8_one : gf128Mul blockT8 blockOne = blockT8 ∧
    gf128Mul blockOne blockT8 = blockT8 := by
  decide!

end Spec

namespace SM4GCM

namespace GCM

/-- The source's gfmul on the operands t^8 and 1: the result is e1 00 ... 00. -/
theorem gfmul_T8_one :
    gfmul Spec.blockT8 Spec.blockOne = [0xe1, 0, 0, 0, 0, 0, 0, 0, 0, 0, 0, 0, 0, 0, 0, 0] := by
  rw [gfmul_eq_bytesLE Spec.blockT8 Spec.blockOne 128 (by decide) (by decide)]
  decide!

/-- The source's gfmul on the operands 1 and t^8: the result is t^8. -/
theorem gfmul_one_T8 : gfmul Spec.blockOne Spec.blockT8 = Spec.blockT8 := by
  rw [gfmul_eq_bytesLE Spec.blockOne Spec.blockT8 32768 (by decide) (by decide)]
  decide!

end GCM

end SM4GCM

/-- C14 fails on the code: for x = 00 80 00 ... 00 (the polynomial t^8) and
y = 80 00 ... 00 (the polynomial 1), GCM::gfmul(x, y) is e1 00 ... 00, whereas
the product of x and y in GF(2)[t]/(t^128 + t^7 + t^2 + t + 1) under the GCM
bit convention is x itself. -/
theorem C14_gfmul_is_not_field_product :
    SM4GCM.GCM.gfmul Spec.blockT8 Spec.blockOne =
      [0xe1, 0, 0, 0, 0, 0, 0, 0, 0, 0, 0, 0, 0, 0, 0, 0] ∧
    Spec.gf128Mul Spec.blockT8 Spec.blockOne =
      [0, 0x80, 0, 0, 0, 0, 0, 0, 0, 0, 0, 0, 0, 0, 0, 0] ∧
    SM4GCM.GCM.gfmul Spec.blockT8 Spec.blockOne ≠ Spec.gf128Mul Spec.blockT8 Spec.blockOne := by
  refine ⟨SM4GCM.GCM.gfmul_T8_one, Spec.gf128Mul_T8_one.1, ?_⟩
  rw [SM4GCM.GCM.gfmul_T8_one, Spec.gf128Mul_T8_one.1]
  decide

/-- C15 fails on the code: for x = 80 00 ... 00 and y = 00 80 00 ... 00,
GCM::gfmul(x, y) is 00 80 00 ... 00 and GCM::gfmul(y, x) is e1 00 ... 00. -/
theorem C15_gfmul_not_commutative :
    SM4GCM.GCM.gfmul Spec.blockOne Spec.blockT8 =
      [0, 0x80, 0, 0, 0, 0, 0, 0, 0, 0, 0, 0, 0, 0, 0, 0] ∧
    SM4GCM.GCM.gfmul Spec.blockT8 Spec.blockOne =
      [0xe1, 0, 0, 0, 0, 0, 0, 0, 0, 0, 0, 0, 0, 0, 0, 0] ∧
    SM4GCM.GCM.gfmul Spec.blockOne Spec.blockT8 ≠ SM4GCM.GCM.gfmul Spec.blockT8 Spec.blockOne := by
  refine ⟨SM4GCM.GCM.gfmul_one_T8, SM4GCM.GCM.gfmul_T8_one, ?_⟩
  rw [SM4GCM.GCM.gfmul_one_T8, SM4GCM.GCM.gfmul_T8_one]
  decide

/-! ## gfmul distributes over xor -/

theorem shift_and_one_ne_zero (p k : Nat) : ((p >>> k) &&& 1 ≠ 0) ↔ p.testBit k = true := by
  rw [Nat.and_one_is_mod, Nat.testBit_to_div_mod, Nat.shiftRight_eq_div_pow]
  simp

theorem xor_xor_xor_comm (a b c d : Nat) : (a ^^^ b) ^^^ (c ^^^ d) = (a ^^^ c) ^^^ (b ^^^ d) := by
  apply Nat.eq_of_testBit_eq
  intro i
  simp only [Nat.testBit_xor]
  cases a.testBit i <;> cases b.testBit i <;> cases c.testBit i <;> cases d.testBit i <;> rfl

theorem xor_right_swap (a b e : Nat) : (a ^^^ b) ^^^ e = (a ^^^ e) ^^^ b := by
  rw [Nat.xor_assoc, Nat.xor_comm b e, ← Nat.xor_assoc]

theorem xor_pair_cancel (a b e : Nat) : a ^^^ b = (a ^^^ e) ^^^ (b ^^^ e) := by
  rw [xor_xor_xor_comm a e b e, Nat.xor_self, Nat.xor_zero]

theorem blockLE_digit (l : List Nat) (h : ∀ x ∈ l, x < 256) :
    ∀ j, blockLE l / 256 ^ j % 256 = l.getD j 0 := by
  induction l with
  | nil =>
    intro j
    simp [blockLE]
  | cons b bs ih =>
    intro j
    have hb : b < 256 := h b (List.mem_cons_self b bs)
    have hbs : ∀ x ∈ bs, x < 256 := fun x hx => h x (List.mem_cons_of_mem b hx)
    cases j with
    | zero =>
      show (b + 256 * blockLE bs) / 256 ^ 0 % 256 = b
      rw [Nat.pow_zero, Nat.div_one]
      omega
    | succ j =>
      show (b + 256 * blockLE bs) / 256 ^ (j + 1) % 256 = bs.getD j 0
      have e : (b + 256 * blockLE bs) / 256 = blockLE bs := by omega
      rw [← ih hbs j, Nat.pow_succ, Nat.mul_comm (256 ^ j) 256, ← Nat.div_div_eq_div_mul, e]

theorem blockLE_lt (l : List Nat) (h : ∀ x ∈ l, x < 256) : blockLE l < 256 ^ l.length := by
  induction l with
  | nil => decide
  | cons b bs ih =>
    have hb : b < 256 := h b (List.mem_cons_self b bs)
    have hbs := ih (fun x hx => h x (List.mem_cons_of_mem b hx))
    show b + 256 * blockLE bs < 256 ^ (bs.length + 1)
    rw [Nat.pow_succ]
    omega

theorem IsBlock.entries_lt {x : List Nat} (h : IsBlock x) : ∀ v ∈ x, v < 256 := by
  intro v hv
  obtain ⟨j, hj, rfl⟩ := List.getElem_of_mem hv
  have := h.2 j (by rw [← h.1]; exact hj)
  rwa [List.getD_eq_getElem _ _ hj] at this

theorem IsBlock.lt_two_pow {x : List Nat} (h : IsBlock x) : blockLE x < 2 ^ 128 := by
  have := blockLE_lt x h.entries_lt
  rw [h.1] at this
  exact this

/-- The sixteen bytes gfmul copies from a block are the bytes of the number the
block spells. -/
theorem IsBlock.memcpy_eq {x : List Nat} (h : IsBlock x) :
    memcpy (List.replicate 16 0) 0 x 0 16 = bytesLE (blockLE x) := by
  apply list_ext_getD
  · rw [memcpy_length, List.length_replicate, bytesLE_length]
  · intro i hi
    rw [memcpy_length, List.length_replicate] at hi
    rw [memcpy_getD, List.length_replicate, if_pos ⟨Nat.zero_le i, by omega, hi⟩,
      bytesLE_getD _ _ hi, blockLE_digit x h.entries_lt, Nat.zero_add, Nat.sub_zero]

theorem IsBlock.memcpy_xor16 {a b : List Nat} (ha : IsBlock a) (hb : IsBlock b) :
    memcpy (List.replicate 16 0) 0 (Spec.xor16 a b) 0 16 = bytesLE (blockLE a ^^^ blockLE b) := by
  apply list_ext_getD
  · rw [memcpy_length, List.length_replicate, bytesLE_length]
  · intro i hi
    rw [memcpy_length, List.length_replicate] at hi
    rw [memcpy_getD, List.length_replicate, if_pos ⟨Nat.zero_le i, by omega, hi⟩,
      bytesLE_getD _ _ hi, byte_xor, blockLE_digit a ha.entries_lt, blockLE_digit b hb.entries_lt,
      Nat.zero_add, Nat.sub_zero, Spec.xor16_getD a b i hi]

theorem bytesLE_xor (p q : Nat) : bytesLE (p ^^^ q) = Spec.xor16 (bytesLE p) (bytesLE q) := by
  apply list_ext_getD
  · rw [bytesLE_length, Spec.xor16_length]
  · intro i hi
    rw [bytesLE_length] at hi
    rw [Spec.xor16_getD _ _ i hi, bytesLE_getD _ _ hi, bytesLE_getD _ _ hi, bytesLE_getD _ _ hi,
      byte_xor]

namespace SM4GCM

namespace GCM

/-- The step of gfmul on v commutes with xor. -/
theorem shiftReduce_xor (p q : Nat) :
    (if (p ^^^ q) % 2 ≠ 0 then ((p ^^^ q) >>> 1) ^^^ 0xe1 else (p ^^^ q) >>> 1) =
      (if p % 2 ≠ 0 then (p >>> 1) ^^^ 0xe1 else p >>> 1) ^^^
        (if q % 2 ≠ 0 then (q >>> 1) ^^^ 0xe1 else q >>> 1) := by
  have hs : (p ^^^ q) >>> 1 = (p >>> 1) ^^^ (q >>> 1) := by
    apply Nat.eq_of_testBit_eq
    intro i
    simp only [Nat.testBit_xor, Nat.testBit_shiftRight]
  have hm : (p ^^^ q) % 2 = (p % 2 + q % 2) % 2 := by
    have h := Nat.testBit_xor p q 0
    simp only [Nat.testBit_zero] at h
    rcases Nat.mod_two_eq_zero_or_one p with hp | hp <;>
      rcases Nat.mod_two_eq_zero_or_one q with hq | hq <;>
      rcases Nat.mod_two_eq_zero_or_one (p ^^^ q) with hpq | hpq <;>
      simp [hp, hq, hpq] at h ⊢
  rw [hs, hm]
  rcases Nat.mod_two_eq_zero_or_one p with hp | hp <;>
    rcases Nat.mod_two_eq_zero_or_one q with hq | hq <;>
    simp only [hp, hq, Nat.add_zero, Nat.zero_add, Nat.zero_mod, Nat.one_mod, Nat.reduceAdd,
      Nat.reduceMod, ne_eq, not_true_eq_false, not_false_eq_true, if_true, if_false,
      Nat.one_ne_zero]
  · exact Nat.xor_assoc _ _ _
  · exact xor_right_swap _ _ _
  · exact xor_pair_cancel _ _ _

theorem gfmulStepN_fst (x : List Nat) (i : Nat) (s : Nat × Nat) :
    (gfmulStepN x i s).1 =
      if (x.getD (i / 8) 0).testBit (7 - i % 8) = true then s.1 ^^^ s.2 else s.1 := by
  unfold gfmulStepN
  simp only [shift_and_one_ne_zero]

theorem gfmulStepN_snd (x : List Nat) (i : Nat) (s : Nat × Nat) :
    (gfmulStepN x i s).2 = if s.2 % 2 ≠ 0 then (s.2 >>> 1) ^^^ 0xe1 else s.2 >>> 1 := rfl

/-- The v component of the loop of gfmul does not depend on x. -/
theorem gfmulLoopN_snd (x x' : List Nat) (y : Nat) (n : Nat) :
    (forLoop n (gfmulStepN x) (0, y)).2 = (forLoop n (gfmulStepN x') (0, y)).2 := by
  induction n with
  | zero => rfl
  | succ n ih =>
    rw [forLoop_succ, forLoop_succ, gfmulStepN_snd, gfmulStepN_snd, ih]

/-- The loop of gfmul is additive in x. -/
theorem gfmulLoopN_xor_left (a b : List Nat) (y : Nat) (n : Nat) (hn : n ≤ 128) :
    (forLoop n (gfmulStepN (Spec.xor16 a b)) (0, y)).1 =
      (forLoop n (gfmulStepN a) (0, y)).1 ^^^ (forLoop n (gfmulStepN b) (0, y)).1 := by
  induction n with
  | zero => exact (Nat.xor_self 0).symm
  | succ n ih =>
    have hbit : ((Spec.xor16 a b).getD (n / 8) 0).testBit (7 - n % 8) =
        ((a.getD (n / 8) 0).testBit (7 - n % 8) ^^ (b.getD (n / 8) 0).testBit (7 - n % 8)) := by
      rw [Spec.xor16_getD a b (n / 8) (by omega), Nat.testBit_xor]
    rw [forLoop_succ, forLoop_succ, forLoop_succ, gfmulStepN_fst, gfmulStepN_fst,
      gfmulStepN_fst, hbit, ih (by omega), gfmulLoopN_snd (Spec.xor16 a b) a y n,
      gfmulLoopN_snd b a y n]
    cases (a.getD (n / 8) 0).testBit (7 - n % 8) <;>
      cases (b.getD (n / 8) 0).testBit (7 - n % 8) <;>
      simp only [Bool.xor_false, Bool.xor_true, Bool.false_xor, Bool.true_xor, Bool.not_true,
        Bool.not_false, if_true, if_false, Bool.false_eq_true]
    · exact Nat.xor_assoc _ _ _
    · exact xor_right_swap _ _ _
    · exact xor_pair_cancel _ _ _

/-- The loop of gfmul is additive in y, in both components. -/
theorem gfmulLoopN_xor_right (x : List Nat) (p q : Nat) (n : Nat) :
    forLoop n (gfmulStepN x) (0, p ^^^ q) =
      ((forLoop n (gfmulStepN x) (0, p)).1 ^^^ (forLoop n (gfmulStepN x) (0, q)).1,
       (forLoop n (gfmulStepN x) (0, p)).2 ^^^ (forLoop n (gfmulStepN x) (0, q)).2) := by
  induction n with
  | zero =>
    show ((0 : Nat), p ^^^ q) = (0 ^^^ 0, p ^^^ q)
    rw [Nat.xor_self]
  | succ n ih =>
    rw [forLoop_succ, forLoop_succ, forLoop_succ, ih]
    apply Prod.ext
    · rw [gfmulStepN_fst, gfmulStepN_fst, gfmulStepN_fst]
      dsimp only
      split
      · rw [xor_xor_xor_comm]
      · rfl
    · rw [gfmulStepN_snd, gfmulStepN_snd, gfmulStepN_snd]
      dsimp only
      rw [shiftReduce_xor]

theorem gfmulN_xor_left (a b : List Nat) (y : Nat) :
    gfmulN (Spec.xor16 a b) y = gfmulN a y ^^^ gfmulN b y :=
  gfmulLoopN_xor_left a b y 128 (Nat.le_refl 128)

theorem gfmulN_xor_right (x : List Nat) (p q : Nat) :
    gfmulN x (p ^^^ q) = gfmulN x p ^^^ gfmulN x q := by
  unfold gfmulN
  rw [gfmulLoopN_xor_right]

end GCM

end SM4GCM

/-- C16: GCM::gfmul distributes over xor in each argument: for all 16-byte
blocks a, b and c, gfmul(a xor b, c) = gfmul(a, c) xor gfmul(b, c) and
gfmul(a, b xor c) = gfmul(a, b) xor gfmul(a, c). The proof uses that b and c
are blocks of bytes; of a only the bits that gfmul reads matter. -/
theorem C16_gfmul_distributes_over_xor (a b c : List Nat)
    (hb : IsBlock b) (hc : IsBlock c) :
    SM4GCM.GCM.gfmul (Spec.xor16 a b) c =
      Spec.xor16 (SM4GCM.GCM.gfmul a c) (SM4GCM.GCM.gfmul b c) ∧
    SM4GCM.GCM.gfmul a (Spec.xor16 b c) =
      Spec.xor16 (SM4GCM.GCM.gfmul a b) (SM4GCM.GCM.gfmul a c) := by
  constructor
  · rw [SM4GCM.GCM.gfmul_eq_bytesLE _ c _ hc.lt_two_pow hc.memcpy_eq,
      SM4GCM.GCM.gfmul_eq_bytesLE a c _ hc.lt_two_pow hc.memcpy_eq,
      SM4GCM.GCM.gfmul_eq_bytesLE b c _ hc.lt_two_pow hc.memcpy_eq,
      SM4GCM.GCM.gfmulN_xor_left, bytesLE_xor]
  · rw [SM4GCM.GCM.gfmul_eq_bytesLE a (Spec.xor16 b c) (blockLE b ^^^ blockLE c)
        (Nat.xor_lt_two_pow hb.lt_two_pow hc.lt_two_pow) (hb.memcpy_xor16 hc),
      SM4GCM.GCM.gfmul_eq_bytesLE a b _ hb.lt_two_pow hb.memcpy_eq,
      SM4GCM.GCM.gfmul_eq_bytesLE a c _ hc.lt_two_pow hc.memcpy_eq,
      SM4GCM.GCM.gfmulN_xor_right, bytesLE_xor]

/-- C16 at the blocks 1, t^8 and the key of main. -/
theorem C16_gfmul_distributes_over_xor_witness :
    SM4GCM.GCM.gfmul (Spec.xor16 Spec.blockOne Spec.blockT8) SM4GCM.mainKey =
      Spec.xor16 (SM4GCM.GCM.gfmul Spec.blockOne SM4GCM.mainKey)
        (SM4GCM.GCM.gfmul Spec.blockT8 SM4GCM.mainKey) ∧
    SM4GCM.GCM.gfmul Spec.blockOne (Spec.xor16 Spec.blockT8 SM4GCM.mainKey) =
      Spec.xor16 (SM4GCM.GCM.gfmul Spec.blockOne Spec.blockT8)
        (SM4GCM.GCM.gfmul Spec.blockOne SM4GCM.mainKey) :=
  C16_gfmul_distributes_over_xor Spec.blockOne Spec.blockT8 SM4GCM.mainKey
    ⟨by decide, by decide⟩ ⟨by decide, by decide⟩

/-! ## The T-table cipher computes the reference cipher -/

theorem testBit_false_of_lt_pow (x n j : Nat) (hx : x < 2 ^ n) (hj : n ≤ j) :
    x.testBit j = false :=
  Nat.testBit_lt_two_pow (Nat.lt_of_lt_of_le hx (Nat.pow_le_pow_right (by decide) hj))

namespace SM4Basic

theorem ROTL32_testBit (x n i : Nat) :
    (ROTL32 x n).testBit i =
      ((decide (i < 32) && (decide (n ≤ i) && x.testBit (i - n))) || x.testBit (32 - n + i)) := by
  simp only [ROTL32, Nat.testBit_or, Nat.testBit_mod_two_pow, Nat.testBit_shiftLeft,
    Nat.testBit_shiftRight, ge_iff_le]

/-- ROTL32 commutes with xor on 32-bit words. -/
theorem ROTL32_xor (p q n : Nat) (hp : p < 2 ^ 32) (hq : q < 2 ^ 32) (hn : n ≤ 32) :
    ROTL32 (p ^^^ q) n = ROTL32 p n ^^^ ROTL32 q n := by
  apply Nat.eq_of_testBit_eq
  intro i
  rw [Nat.testBit_xor, ROTL32_testBit, ROTL32_testBit, ROTL32_testBit, Nat.testBit_xor,
    Nat.testBit_xor]
  by_cases hB : n ≤ i
  · rw [testBit_false_of_lt_pow p 32 (32 - n + i) hp (by omega),
      testBit_false_of_lt_pow q 32 (32 - n + i) hq (by omega)]
    cases decide (i < 32) <;> cases decide (n ≤ i) <;> cases p.testBit (i - n) <;>
      cases q.testBit (i - n) <;> rfl
  · rw [decide_eq_false hB]
    simp only [Bool.false_and, Bool.and_false, Bool.false_or]

/-- L commutes with xor on 32-bit words. -/
theorem L_xor (p q : Nat) (hp : p < 2 ^ 32) (hq : q < 2 ^ 32) : L (p ^^^ q) = L p ^^^ L q := by
  unfold L
  rw [ROTL32_xor p q 2 hp hq (by decide), ROTL32_xor p q 10 hp hq (by decide),
    ROTL32_xor p q 18 hp hq (by decide), ROTL32_xor p q 24 hp hq (by decide),
    xor_xor_xor_comm p q, xor_xor_xor_comm (p ^^^ ROTL32 p 2),
    xor_xor_xor_comm (p ^^^ ROTL32 p 2 ^^^ ROTL32 p 10),
    xor_xor_xor_comm (p ^^^ ROTL32 p 2 ^^^ ROTL32 p 10 ^^^ ROTL32 p 18)]

theorem shiftLeft_byte_lt (s k : Nat) (hs : s < 256) (hk : k ≤ 24) : s <<< k < 2 ^ 32 := by
  rw [Nat.shiftLeft_eq]
  calc s * 2 ^ k < 256 * 2 ^ k := Nat.mul_lt_mul_of_pos_right hs (Nat.two_pow_pos k)
    _ ≤ 256 * 2 ^ 24 := Nat.mul_le_mul_left 256 (Nat.pow_le_pow_right (by decide) hk)
    _ = 2 ^ 32 := by decide

/-- The word assembled from four bytes with or is the xor of the four shifted
bytes. -/
theorem bytes_or_eq_xor (s0 s1 s2 s3 : Nat) (h1 : s1 < 256) (h2 : s2 < 256) (h3 : s3 < 256) :
    (s0 <<< 24) ||| (s1 <<< 16) ||| (s2 <<< 8) ||| s3 =
      (s0 <<< 24) ^^^ (s1 <<< 16) ^^^ (s2 <<< 8) ^^^ s3 := by
  apply Nat.eq_of_testBit_eq
  intro i
  simp only [Nat.testBit_or, Nat.testBit_xor, Nat.testBit_shiftLeft, ge_iff_le]
  by_cases c3 : i < 8
  · rw [decide_eq_false (show ¬ 24 ≤ i by omega), decide_eq_false (show ¬ 16 ≤ i by omega),
      decide_eq_false (show ¬ 8 ≤ i by omega)]
    simp only [Bool.false_and, Bool.false_or, Bool.false_xor]
  · by_cases c2 : i < 16
    · rw [decide_eq_false (show ¬ 24 ≤ i by omega), decide_eq_false (show ¬ 16 ≤ i by omega),
        testBit_false_of_lt_pow s3 8 i h3 (by omega)]
      simp only [Bool.false_and, Bool.false_or, Bool.or_false, Bool.false_xor, Bool.xor_false]
    · by_cases c1 : i < 24
      · rw [decide_eq_false (show ¬ 24 ≤ i by omega),
          testBit_false_of_lt_pow s3 8 i h3 (by omega),
          testBit_false_of_lt_pow s2 8 (i - 8) h2 (by omega)]
        simp only [Bool.false_and, Bool.and_false, Bool.false_or, Bool.or_false, Bool.false_xor,
          Bool.xor_false]
      · rw [testBit_false_of_lt_pow s3 8 i h3 (by omega),
          testBit_false_of_lt_pow s2 8 (i - 8) h2 (by omega),
          testBit_false_of_lt_pow s1 8 (i - 16) h1 (by omega)]
        simp only [Bool.and_false, Bool.or_false, Bool.xor_false]

/-- The transform of a word is the xor of L on the four shifted S-box
bytes. -/
theorem nonlinearTransform_eq_xor (x : Nat) :
    nonlinearTransform x =
      L (sbox ((x >>> 24) &&& 0xFF) <<< 24) ^^^ L (sbox ((x >>> 16) &&& 0xFF) <<< 16) ^^^
        L (sbox ((x >>> 8) &&& 0xFF) <<< 8) ^^^ L (sbox (x &&& 0xFF)) := by
  unfold nonlinearTransform
  dsimp only
  have a0 := shiftLeft_byte_lt _ 24 (sbox_lt ((x >>> 24) &&& 0xFF)) (by decide)
  have a1 := shiftLeft_byte_lt _ 16 (sbox_lt ((x >>> 16) &&& 0xFF)) (by decide)
  have a2 := shiftLeft_byte_lt _ 8 (sbox_lt ((x >>> 8) &&& 0xFF)) (by decide)
  have a3 : sbox (x &&& 0xFF) < 2 ^ 32 := Nat.lt_trans (sbox_lt _) (by decide)
  rw [bytes_or_eq_xor _ _ _ _ (sbox_lt _) (sbox_lt _) (sbox_lt _),
    L_xor _ _ (Nat.xor_lt_two_pow (Nat.xor_lt_two_pow a0 a1) a2) a3,
    L_xor _ _ (Nat.xor_lt_two_pow a0 a1) a2, L_xor _ _ a0 a1]

end SM4Basic

theorem and_255_lt (x : Nat) : x &&& 0xFF < 256 := by
  rw [and_255]
  exact Nat.mod_lt _ (by decide)

namespace SM4TTable

theorem S_BOX_eq : S_BOX = SM4Basic.S_BOX := rfl

theorem FK_eq : FK = SM4Basic.FK := rfl

theorem CK_eq : CK = SM4Basic.CK := rfl

/-- One iteration of initTTable stores, at index i of the four tables, L of the
S-box byte of i at the four byte positions. -/
theorem initTTableStep_eq (i : Nat) (t : TTables) :
    initTTableStep i t =
      { T0 := t.T0.set i (SM4Basic.L (SM4Basic.sbox i <<< 24)),
        T1 := t.T1.set i (SM4Basic.L (SM4Basic.sbox i <<< 16)),
        T2 := t.T2.set i (SM4Basic.L (SM4Basic.sbox i <<< 8)),
        T3 := t.T3.set i (SM4Basic.L (SM4Basic.sbox i)) } := rfl

/-- The loop of initTTable is, on each table, a loop that stores the entries of
that table. -/
theorem initLoop_eq (n : Nat) (t : TTables) :
    forLoop n initTTableStep t =
      { T0 := forLoop n (fun i T => T.set i (SM4Basic.L (SM4Basic.sbox i <<< 24))) t.T0,
        T1 := forLoop n (fun i T => T.set i (SM4Basic.L (SM4Basic.sbox i <<< 16))) t.T1,
        T2 := forLoop n (fun i T => T.set i (SM4Basic.L (SM4Basic.sbox i <<< 8))) t.T2,
        T3 := forLoop n (fun i T => T.set i (SM4Basic.L (SM4Basic.sbox i))) t.T3 } := by
  induction n with
  | zero => rfl
  | succ n ih => rw [forLoop_succ, ih, initTTableStep_eq]; rfl

/-- The entries of the four tables after initTTable. -/
theorem tables_getD (j : Nat) (hj : j < 256) :
    tables.T0.getD j 0 = SM4Basic.L (SM4Basic.sbox j <<< 24) ∧
    tables.T1.getD j 0 = SM4Basic.L (SM4Basic.sbox j <<< 16) ∧
    tables.T2.getD j 0 = SM4Basic.L (SM4Basic.sbox j <<< 8) ∧
    tables.T3.getD j 0 = SM4Basic.L (SM4Basic.sbox j) := by
  unfold tables initTTable
  rw [initLoop_eq]
  dsimp only [TTables.zero]
  rw [forLoop_set0_getD, forLoop_set0_getD, forLoop_set0_getD, forLoop_set0_getD,
    List.length_replicate]
  have h : j < 256 ∧ j < 256 := ⟨hj, hj⟩
  rw [if_pos h, if_pos h, if_pos h, if_pos h]
  exact ⟨rfl, rfl, rfl, rfl⟩

/-- After initTTable, the table lookups compute the transform of the reference
implementation. -/
theorem nonlinearTransform_tables (x : Nat) :
    nonlinearTransform tables x = SM4Basic.nonlinearTransform x := by
  rw [SM4Basic.nonlinearTransform_eq_xor]
  unfold nonlinearTransform
  rw [(tables_getD _ (and_255_lt (x >>> 24))).1, (tables_getD _ (and_255_lt (x >>> 16))).2.1,
    (tables_getD _ (and_255_lt (x >>> 8))).2.2.1, (tables_getD _ (and_255_lt x)).2.2.2]

theorem keyExpansionStep_tables (i : Nat) (s : List Nat × List Nat) :
    keyExpansionStep tables i s = SM4Basic.keyExpansionStep i s := by
  unfold keyExpansionStep SM4Basic.keyExpansionStep
  simp only [nonlinearTransform_tables, CK_eq]

theorem keyExpansion_tables (key : List Nat) :
    keyExpansion tables key = SM4Basic.keyExpansion key := by
  unfold keyExpansion SM4Basic.keyExpansion
  have h : keyExpansionStep tables = SM4Basic.keyExpansionStep := by
    funext i s
    exact keyExpansionStep_tables i s
  rw [h, FK_eq]

theorem round_tables (k : Nat) (X : List Nat) : round tables k X = SM4Basic.round k X := by
  unfold round SM4Basic.round
  simp only [nonlinearTransform_tables]

theorem sm4Encrypt_tables (plaintext key : List Nat) :
    sm4Encrypt tables plaintext key = SM4Basic.sm4Encrypt plaintext key := by
  unfold sm4Encrypt SM4Basic.sm4Encrypt
  simp only [keyExpansion_tables, round_tables]

end SM4TTable

/-- C17: with the tables that initTTable leaves, for every word x the function
nonlinearTransform of SM4-T-table.cpp (the lookups in T0..T3) returns what
nonlinearTransform of SM4基本实现.cpp (four S-box lookups, then L) returns, and
for every key and every plaintext sm4Encrypt of SM4-T-table.cpp returns the
same four words as sm4Encrypt of SM4基本实现.cpp; so do the two
keyExpansion. -/
theorem C17_ttable_cipher_is_reference_cipher :
    (∀ x, SM4TTable.nonlinearTransform SM4TTable.tables x = SM4Basic.nonlinearTransform x) ∧
    (∀ key, SM4TTable.keyExpansion SM4TTable.tables key = SM4Basic.keyExpansion key) ∧
    (∀ plaintext key, SM4TTable.sm4Encrypt SM4TTable.tables plaintext key =
      SM4Basic.sm4Encrypt plaintext key) :=
  ⟨SM4TTable.nonlinearTransform_tables, SM4TTable.keyExpansion_tables,
    SM4TTable.sm4Encrypt_tables⟩

/-! ## The vectorised cipher against the scalar T-table cipher -/

namespace SM4AESNI

theorem initTTableStep_eq_scalar : initTTableStep = SM4TTable.initTTableStep := rfl

theorem tables_eq : tables = SM4TTable.tables := by
  unfold tables SM4TTable.tables initTTable SM4TTable.initTTable
  rw [initTTableStep_eq_scalar]

/-- After initTTable, the table lookups of SM4-T-table-AESNI.cpp compute the
transform of the reference implementation too. -/
theorem nonlinearTransform_aesni_tables (x : Nat) :
    nonlinearTransform tables x = SM4Basic.nonlinearTransform x := by
  rw [tables_eq, ← SM4TTable.nonlinearTransform_tables]
  rfl

/-- The round keys keyExpansionAESNI computes for the key of main. -/
theorem keyExpansionAESNI_testWords :
    keyExpansionAESNI tables testWords =
      [0xa292ffa1, 0xdf01febf, 0x99a12b0f, 0xc42410cc, 0x6c0dc92a, 0x3176090e, 0x9a925c99,
       0x8e67dbee, 0xc48545c0, 0x4d52b426, 0xea23d15b, 0x963a8ff5, 0xc15ea0e8, 0xfc2a1ae6,
       0xa8009748, 0x50dba464, 0xb4218d88, 0x3555bd19, 0xdab96480, 0xc72c5a89, 0xdab5d695,
       0xd33452c7, 0x85eb2610, 0xf62e0159, 0x8d6614b1, 0xed8e7788, 0x2ee5372e, 0xf73ea914,
       0xc60316fd, 0x700e06bf, 0x6baf5e17, 0x7bca35f8] := by
  unfold keyExpansionAESNI keyExpansionAESNIStep
  simp only [nonlinearTransform_aesni_tables]
  decide!

/-- The ciphertext sm4EncryptAESNI computes for the block and the key of
main. -/
theorem sm4EncryptAESNI_testWords :
    sm4EncryptAESNI tables testWords testWords =
      [0x022100f8, 0x68b5c870, 0xa111899f, 0xed50deed] := by
  unfold sm4EncryptAESNI
  rw [keyExpansionAESNI_testWords]
  unfold roundAESNI
  simp only [nonlinearTransform_aesni_tables]
  decide!

end SM4AESNI

/-- The round keys of the scalar key schedule for the key of main. -/
theorem SM4Basic.keyExpansion_testWords :
    SM4Basic.keyExpansion testWords =
      [0x6c0dc92a, 0x1bca459a, 0x7fb9f47a, 0xa9f2da37, 0xfce57497, 0x1519c57b, 0x1023a247,
       0x9988a0e4, 0xd0dda822, 0x331666d0, 0x10788f2d, 0x754a9218, 0x12fff225, 0x9c6dfa07,
       0xf4a85296, 0xc690f203, 0x292b527a, 0xd3d9052c, 0xd2f6477c, 0x8c922baa, 0x4017f09c,
       0x9449dca9, 0x8bd9a49c, 0xddd78725, 0x6943de26, 0x42b27e52, 0x2cf83957, 0xbf5d9474,
       0x7553f2b4, 0x02ca049a, 0xc71e6c66, 0xbd70fbee] := by
  decide!

/-- The ciphertext the scalar sm4Encrypt of SM4-T-table.cpp computes for the
block and the key of main. -/
theorem SM4TTable.sm4Encrypt_testWords :
    SM4TTable.sm4Encrypt SM4TTable.tables testWords testWords =
      [0xd8fdb05c, 0x09a878b2, 0x5eeaa0bf, 0x50ada41d] := by
  rw [SM4TTable.sm4Encrypt_tables]
  unfold SM4Basic.sm4Encrypt
  rw [SM4Basic.keyExpansion_testWords]
  decide!

/-- C18 fails on the code: for the block and the key of main, 01234567
89abcdef fedcba98 76543210 each, sm4EncryptAESNI of SM4-T-table-AESNI.cpp
returns 022100f8 68b5c870 a111899f ed50deed and the scalar sm4Encrypt of
SM4-T-table.cpp returns d8fdb05c 09a878b2 5eeaa0bf 50ada41d. The round keys
differ already: keyExpansionAESNI stores key xor FK as the round keys 0 to 3,
so its round key 0 is a292ffa1, and the round key 0 of keyExpansion is
6c0dc92a. -/
theorem C18_aesni_differs_from_scalar :
    SM4AESNI.sm4EncryptAESNI SM4AESNI.tables testWords testWords =
      [0x022100f8, 0x68b5c870, 0xa111899f, 0xed50deed] ∧
    SM4TTable.sm4Encrypt SM4TTable.tables testWords testWords =
      [0xd8fdb05c, 0x09a878b2, 0x5eeaa0bf, 0x50ada41d] ∧
    SM4AESNI.sm4EncryptAESNI SM4AESNI.tables testWords testWords ≠
      SM4TTable.sm4Encrypt SM4TTable.tables testWords testWords ∧
    (SM4AESNI.keyExpansionAESNI SM4AESNI.tables testWords).getD 0 0 = 0xa292ffa1 ∧
    (SM4TTable.keyExpansion SM4TTable.tables testWords).getD 0 0 = 0x6c0dc92a := by
  refine ⟨SM4AESNI.sm4EncryptAESNI_testWords, SM4TTable.sm4Encrypt_testWords, ?_, ?_, ?_⟩
  · rw [SM4AESNI.sm4EncryptAESNI_testWords, SM4TTable.sm4Encrypt_testWords]
    decide
  · rw [SM4AESNI.keyExpansionAESNI_testWords]
    rfl
  · rw [SM4TTable.keyExpansion_tables, SM4Basic.keyExpansion_testWords]
    rfl

/-! ## The shift of gfmul, the vectorised key schedule and the two CK tables -/

/-- C28 fails on the code: for v = 01 00 ... 00 the claim's update (a right
shift by one bit of v read as a big-endian value, then 0xe1 into byte 0 when
the bit shifted out of byte 15 was 1) gives 00 80 00 ... 00, whereas every
iteration of GCM::gfmul turns this v into e1 00 ... 00, and turns 00 01 00 ...
00 into 80 00 ... 00: its loop carries the low bit of byte k + 1 into byte k
and reduces on the bit shifted out of byte 0. -/
theorem C28_gfmul_shift_is_not_big_endian :
    Spec.shiftRightBE [0x01, 0, 0, 0, 0, 0, 0, 0, 0, 0, 0, 0, 0, 0, 0, 0] =
      [0x00, 0x80, 0, 0, 0, 0, 0, 0, 0, 0, 0, 0, 0, 0, 0, 0] ∧
    (∀ (x : List Nat) (i : Nat) (z : List Nat),
      (SM4GCM.GCM.gfmulStep x i (z, [0x01, 0, 0, 0, 0, 0, 0, 0, 0, 0, 0, 0, 0, 0, 0, 0])).2 =
        [0xe1, 0, 0, 0, 0, 0, 0, 0, 0, 0, 0, 0, 0, 0, 0, 0]) ∧
    SM4GCM.GCM.gfmulStep [] 0 (List.replicate 16 0,
        [0x00, 0x01, 0, 0, 0, 0, 0, 0, 0, 0, 0, 0, 0, 0, 0, 0]) =
      (List.replicate 16 0, [0x80, 0x00, 0, 0, 0, 0, 0, 0, 0, 0, 0, 0, 0, 0, 0, 0]) := by
  refine ⟨by decide, ?_, by decide⟩
  intro x i z
  unfold SM4GCM.GCM.gfmulStep
  dsimp only
  decide

/-- C29 fails on the code: for the key of main, 01234567 89abcdef fedcba98
76543210, keyExpansionAESNI of SM4-T-table-AESNI.cpp writes round keys that
begin a292ffa1 df01febf 99a12b0f c42410cc 6c0dc92a, and the scalar keyExpansion
of SM4-T-table.cpp writes round keys that begin 6c0dc92a 1bca459a 7fb9f47a
a9f2da37 fce57497. -/
theorem C29_aesni_round_keys_differ :
    SM4AESNI.keyExpansionAESNI SM4AESNI.tables testWords =
      [0xa292ffa1, 0xdf01febf, 0x99a12b0f, 0xc42410cc, 0x6c0dc92a, 0x3176090e, 0x9a925c99,
       0x8e67dbee, 0xc48545c0, 0x4d52b426, 0xea23d15b, 0x963a8ff5, 0xc15ea0e8, 0xfc2a1ae6,
       0xa8009748, 0x50dba464, 0xb4218d88, 0x3555bd19, 0xdab96480, 0xc72c5a89, 0xdab5d695,
       0xd33452c7, 0x85eb2610, 0xf62e0159, 0x8d6614b1, 0xed8e7788, 0x2ee5372e, 0xf73ea914,
       0xc60316fd, 0x700e06bf, 0x6baf5e17, 0x7bca35f8] ∧
    SM4TTable.keyExpansion SM4TTable.tables testWords =
      [0x6c0dc92a, 0x1bca459a, 0x7fb9f47a, 0xa9f2da37, 0xfce57497, 0x1519c57b, 0x1023a247,
       0x9988a0e4, 0xd0dda822, 0x331666d0, 0x10788f2d, 0x754a9218, 0x12fff225, 0x9c6dfa07,
       0xf4a85296, 0xc690f203, 0x292b527a, 0xd3d9052c, 0xd2f6477c, 0x8c922baa, 0x4017f09c,
       0x9449dca9, 0x8bd9a49c, 0xddd78725, 0x6943de26, 0x42b27e52, 0x2cf83957, 0xbf5d9474,
       0x7553f2b4, 0x02ca049a, 0xc71e6c66, 0xbd70fbee] ∧
    SM4AESNI.keyExpansionAESNI SM4AESNI.tables testWords ≠
      SM4TTable.keyExpansion SM4TTable.tables testWords := by
  refine ⟨SM4AESNI.keyExpansionAESNI_testWords, ?_, ?_⟩
  · rw [SM4TTable.keyExpansion_tables, SM4Basic.keyExpansion_testWords]
  · rw [SM4AESNI.keyExpansionAESNI_testWords, SM4TTable.keyExpansion_tables,
      SM4Basic.keyExpansion_testWords]
    decide

/-- C30: the table SM4::CK of SM4-GCM.cpp and the table CK of SM4基本实现.cpp
have 32 entries each, entry 24 is 0xa0a7aeb5 in the first and 0xa0a7aef5 in the
second, and 24 is the only index from 0 to 31 at which they disagree. -/
theorem C30_CK_tables_differ_at_24_only :
    SM4GCM.SM4.CK.length = 32 ∧ SM4Basic.CK.length = 32 ∧
    SM4GCM.SM4.CK.getD 24 0 = 0xa0a7aeb5 ∧ SM4Basic.CK.getD 24 0 = 0xa0a7aef5 ∧
    (List.range 32).filter (fun i => decide (SM4GCM.SM4.CK.getD i 0 ≠ SM4Basic.CK.getD i 0)) =
      [24] ∧
    SM4GCM.SM4.CK ≠ SM4Basic.CK := by
  decide

/-! ## SM3: known answers, chunked input, the length-extension demonstration -/

/-- A loop over the indices of a list that reads the list at its index only is
a left fold over the list. -/
theorem forLoop_getD_eq_foldl {σ : Type} (f : Nat → σ → σ) (l : List Nat) :
    ∀ s : σ, forLoop l.length (fun i s => f (l.getD i 0) s) s = l.foldl (fun s x => f x s) s := by
  induction l with
  | nil => intro s; rfl
  | cons x xs ih =>
    intro s
    rw [List.length_cons, forLoop_succ_front, List.foldl_cons, ← ih]
    rfl

namespace SM3

/-- Where C++ defines the expression of rotate_left, for the counts 1 to 31,
the embedding is that expression. -/
theorem rotate_left_of_lt (x n : Nat) (h0 : 0 < n) (h32 : n < 32) :
    rotate_left x n = ((x <<< n) % 2 ^ 32) ||| (x >>> (32 - n)) := by
  have e : (2 : Nat) ^ 32 = 4294967296 := by decide
  have h1 : n % 32 = n := Nat.mod_eq_of_lt h32
  have h2 : (32 + 2 ^ 32 - n) % 2 ^ 32 % 32 = 32 - n := by
    rw [e]
    omega
  unfold rotate_left shl32 shr32
  rw [h1, h2]

theorem update_eq_foldl (self : SM3) (data : List Nat) :
    update self data = data.foldl (fun s x => updateByte x s) self :=
  forLoop_getD_eq_foldl updateByte data self

/-- A call of update on a ++ b is a call on a followed by a call on b. -/
theorem update_append (self : SM3) (a b : List Nat) :
    update self (a ++ b) = update (update self a) b := by
  rw [update_eq_foldl, update_eq_foldl, update_eq_foldl, List.foldl_append]

/-- The hash of the empty message. -/
theorem hash_empty :
    hash [] =
      [0x1A, 0xB2, 0x1D, 0x83, 0x55, 0xCF, 0xA1, 0x7F, 0x8E, 0x61, 0x19, 0x48, 0x31, 0xE8, 0x1A, 0x8F,
       0x22, 0xBE, 0xC8, 0xC7, 0x28, 0xFE, 0xFB, 0x74, 0x7E, 0xD0, 0x35, 0xEB, 0x50, 0x82, 0xAA, 0x2B]
      := by
  decide!

end SM3

/-- C21: SM3::hash of the three bytes "abc" is 66C7F0F4 62EEEDD9 D1F2D46B
DC10E4E2 4167C487 5CF2F7A2 297DA02B 8F4BA8E0. The shift counts of
rotate_left(T(j), j) from 32 on are taken modulo 32 (see SM3.shl32). -/
theorem C21_sm3_abc :
    SM3.hash [0x61, 0x62, 0x63] =
      [0x66, 0xC7, 0xF0, 0xF4, 0x62, 0xEE, 0xED, 0xD9, 0xD1, 0xF2, 0xD4, 0x6B, 0xDC, 0x10, 0xE4, 0xE2,
       0x41, 0x67, 0xC4, 0x87, 0x5C, 0xF2, 0xF7, 0xA2, 0x29, 0x7D, 0xA0, 0x2B, 0x8F, 0x4B, 0xA8, 0xE0]
      := by
  decide!

/-- C22 fails on the code: SM3::hash of the empty message is 1AB21D83 55CFA17F
8E611948 31E81A8F 22BEC8C7 28FEFB74 7ED035EB 5082AA2B, which agrees with the
constant EMPTY_HASH on the first 16 bytes only. -/
theorem C22_empty_hash_is_not_EMPTY_HASH :
    SM3.hash [] =
      [0x1A, 0xB2, 0x1D, 0x83, 0x55, 0xCF, 0xA1, 0x7F, 0x8E, 0x61, 0x19, 0x48, 0x31, 0xE8, 0x1A, 0x8F,
       0x22, 0xBE, 0xC8, 0xC7, 0x28, 0xFE, 0xFB, 0x74, 0x7E, 0xD0, 0x35, 0xEB, 0x50, 0x82, 0xAA, 0x2B]
      ∧
    SM3.hash [] ≠ EMPTY_HASH ∧
    (SM3.hash []).take 16 = EMPTY_HASH.take 16 ∧
    (List.range 32).filter (fun i => decide ((SM3.hash []).getD i 0 ≠ EMPTY_HASH.getD i 0)) =
      [16, 17, 18, 19, 20, 21, 22, 23, 24, 25, 26, 27, 28, 29, 30, 31] := by
  rw [SM3.hash_empty]
  decide

/-- C23: for all byte strings a and b, a fresh SM3 object given update(a),
update(b) and final returns the 32 bytes that SM3::hash returns for a followed
by b. -/
theorem C23_sm3_chunking (a b : List Nat) :
    (SM3.final (SM3.update (SM3.update SM3.reset a) b)).1 = SM3.hash (a ++ b) := by
  unfold SM3.hash
  rw [SM3.update_append]

namespace SM3

/-- The hash of "keymsg", the original hash of the test. -/
theorem hash_testKeyMessage :
    hash testKeyMessage =
      [0xE8, 0xDD, 0x37, 0x67, 0x8E, 0x61, 0xFE, 0x51, 0x69, 0x06, 0x93, 0x2C, 0xB1, 0xEE, 0x91, 0x57,
       0xA4, 0x0F, 0xB9, 0xA7, 0xBE, 0x89, 0x14, 0x7E, 0x70, 0xED, 0x97, 0x40, 0x00, 0x54, 0x4C, 0x9B] := by
  decide!

/-- The hash of "keymsgext", the real extended hash of the test. -/
theorem hash_testKeyMessage_append :
    hash (testKeyMessage ++ testAppendData) =
      [0x34, 0xD9, 0x1C, 0xA2, 0xED, 0x8A, 0xCB, 0xC5, 0xBD, 0x36, 0x5C, 0x96, 0xCE, 0x4A, 0xC3, 0x65,
       0xED, 0xE4, 0x8C, 0x87, 0x22, 0x1D, 0x6A, 0x99, 0x2C, 0x79, 0x0A, 0x82, 0x03, 0x69, 0x04, 0x2B] := by
  decide!

end SM3

/-- The forged hash of the test: what length_extension_attack returns for the
original hash, the length 6 and the appended data "ext". -/
theorem length_extension_attack_test :
    length_extension_attack (bytes_to_hex (SM3.hash testKeyMessage)) 6 testAppendData =
      bytes_to_hex
        [0x77, 0x78, 0x34, 0xC9, 0x30, 0x18, 0xA3, 0x1D, 0x31, 0xD3, 0xE5, 0xFB, 0x8C, 0xE3, 0xDB, 0x5B,
         0x8A, 0x97, 0xD3, 0xC7, 0xBB, 0x8E, 0xFF, 0x34, 0x44, 0x62, 0x3E, 0x9C, 0x58, 0xA3, 0xD8, 0xC7] := by
  rw [SM3.hash_testKeyMessage]
  decide!

/-- C26 fails on the code: in test_length_extension_attack, with m = "keymsg"
and e = "ext", length_extension_attack(hex(SM3(m)), 6, e) returns the digits
of 777834C9 ... 58A3D8C7 and SM3::hash(m followed by e) has the digits of
34D91CA2 ... 0369042B. -/
theorem C26_length_extension_differs :
    length_extension_attack (bytes_to_hex (SM3.hash testKeyMessage)) testKeyMessage.length
        testAppendData =
      bytes_to_hex
        [0x77, 0x78, 0x34, 0xC9, 0x30, 0x18, 0xA3, 0x1D, 0x31, 0xD3, 0xE5, 0xFB, 0x8C, 0xE3, 0xDB, 0x5B,
         0x8A, 0x97, 0xD3, 0xC7, 0xBB, 0x8E, 0xFF, 0x34, 0x44, 0x62, 0x3E, 0x9C, 0x58, 0xA3, 0xD8, 0xC7] ∧
    bytes_to_hex (SM3.hash (testKeyMessage ++ testAppendData)) =
      bytes_to_hex
        [0x34, 0xD9, 0x1C, 0xA2, 0xED, 0x8A, 0xCB, 0xC5, 0xBD, 0x36, 0x5C, 0x96, 0xCE, 0x4A, 0xC3, 0x65,
         0xED, 0xE4, 0x8C, 0x87, 0x22, 0x1D, 0x6A, 0x99, 0x2C, 0x79, 0x0A, 0x82, 0x03, 0x69, 0x04, 0x2B] ∧
    length_extension_attack (bytes_to_hex (SM3.hash testKeyMessage)) testKeyMessage.length
        testAppendData ≠
      bytes_to_hex (SM3.hash (testKeyMessage ++ testAppendData)) := by
  have h6 : testKeyMessage.length = 6 := rfl
  rw [h6, length_extension_attack_test, SM3.hash_testKeyMessage_append]
  refine ⟨rfl, rfl, ?_⟩
  decide

/-! ## The recurrence of ghash -/

namespace SM4GCM

namespace GCM

theorem gfmulLoop_length (x : List Nat) (n : Nat) (s : List Nat × List Nat) :
    (forLoop n (gfmulStep x) s).1.length = s.1.length := by
  induction n with
  | zero => rfl
  | succ n ih =>
    rw [forLoop_succ, ← ih]
    generalize forLoop n (gfmulStep x) s = t
    unfold gfmulStep
    dsimp only
    split
    · exact (forLoop_update_spec 16 (fun j v => v ^^^ t.2.getD j 0) t.1).1
    · rfl

theorem gfmul_length (x y : List Nat) : (gfmul x y).length = 16 := by
  unfold gfmul
  rw [gfmulLoop_length, List.length_replicate]

/-- The loop of ghash runs its body on a whole block when at least 16 bytes
remain. -/
theorem ghashLoop_step (key data : List Nat) (len fuel pos : Nat) (hash : List Nat)
    (h : pos + 16 ≤ len) :
    ghashLoop key data len (fuel + 1) pos hash =
      ghashLoop key data len fuel (pos + 16) (ghashBlock key data pos hash) := by
  show (if pos < len then _ else _) = _
  rw [if_pos (show pos < len by omega)]
  dsimp only
  rw [if_neg (show ¬ len - pos < 16 by omega)]
  rfl

theorem ghashLoop_done (key data : List Nat) (len fuel : Nat) (hash : List Nat) :
    ghashLoop key data len fuel len hash = hash := by
  cases fuel with
  | zero => rfl
  | succ fuel =>
    show (if len < len then _ else _) = _
    rw [if_neg (Nat.lt_irrefl len)]

/-- With enough fuel, the loop of ghash over n whole blocks is the loop that
runs the body once for each block. -/
theorem ghashLoop_blocks (key data : List Nat) :
    ∀ (n fuel pos : Nat) (hash : List Nat), n ≤ fuel →
      ghashLoop key data (pos + 16 * n) fuel pos hash =
        forLoop n (fun k hash => ghashBlock key data (pos + 16 * k) hash) hash := by
  intro n
  induction n with
  | zero =>
    intro fuel pos hash _
    exact ghashLoop_done key data pos fuel hash
  | succ n ih =>
    intro fuel pos hash hf
    obtain ⟨f, rfl⟩ : ∃ f, fuel = f + 1 := ⟨fuel - 1, by omega⟩
    have e : pos + 16 * (n + 1) = (pos + 16) + 16 * n := by omega
    rw [ghashLoop_step key data _ f pos hash (by omega), forLoop_succ_front, e,
      ih f (pos + 16) _ (by omega)]
    apply forLoop_congr
    intro k _ t
    have e2 : pos + 16 + 16 * k = pos + 16 * (k + 1) := by omega
    show ghashBlock key data (pos + 16 + 16 * k) t = ghashBlock key data (pos + 16 * (k + 1)) t
    rw [e2]

/-- The hash of n whole blocks. -/
theorem ghash_blocks (key data : List Nat) (n : Nat) :
    ghash key data (16 * n) =
      forLoop n (fun k hash => ghashBlock key data (16 * k) hash) (List.replicate 16 0) := by
  unfold ghash
  have h := ghashLoop_blocks key data n (16 * n) 0 (List.replicate 16 0) (by omega)
  simp only [Nat.zero_add] at h
  exact h

/-- The body of the loop reads the 16 bytes of data from the position pos
only. -/
theorem ghashBlock_congr (key data data' : List Nat) (pos : Nat) (hash : List Nat)
    (h : ∀ j, j < 16 → data.getD (pos + j) 0 = data'.getD (pos + j) 0) :
    ghashBlock key data pos hash = ghashBlock key data' pos hash := by
  have hb : memcpy (List.replicate 16 0) 0 data pos 16 =
      memcpy (List.replicate 16 0) 0 data' pos 16 := by
    apply list_ext_getD
    · rw [memcpy_length, memcpy_length]
    · intro i hi
      rw [memcpy_length, List.length_replicate] at hi
      have hc : 0 ≤ i ∧ i < 0 + 16 ∧ i < 16 := ⟨Nat.zero_le i, by omega, hi⟩
      rw [memcpy_getD, memcpy_getD, List.length_replicate, if_pos hc, if_pos hc,
        Nat.sub_zero, h i hi]
  unfold ghashBlock
  rw [hb]

theorem ghashBlock_length (key data : List Nat) (pos : Nat) (hash : List Nat) :
    (ghashBlock key data pos hash).length = hash.length := by
  unfold ghashBlock
  dsimp only
  rw [memcpy_length]
  exact (forLoop_update_spec 16
    (fun i v => v ^^^ (memcpy (List.replicate 16 0) 0 data pos 16).getD i 0) hash).1

theorem ghash_blocks_length (key data : List Nat) (n : Nat) :
    (ghash key data (16 * n)).length = 16 := by
  rw [ghash_blocks, forLoop_length_of_preserve _ _ (fun k s => ghashBlock_length key data _ s),
    List.length_replicate]

/-- The body of the loop on a 16-byte accumulator and the 16-byte block B that
data holds at pos: the product of the xor with the key. -/
theorem ghashBlock_eq (key data B : List Nat) (pos : Nat) (hash : List Nat)
    (hh : hash.length = 16)
    (h : ∀ j, j < 16 → data.getD (pos + j) 0 = B.getD j 0) :
    ghashBlock key data pos hash = gfmul (Spec.xor16 hash B) key := by
  have hx : forLoop 16 (fun i h => h.set i
      (h.getD i 0 ^^^ (memcpy (List.replicate 16 0) 0 data pos 16).getD i 0)) hash =
      Spec.xor16 hash B := by
    have hs := forLoop_update_spec 16
      (fun i v => v ^^^ (memcpy (List.replicate 16 0) 0 data pos 16).getD i 0) hash
    apply list_ext_getD
    · rw [hs.1, hh, Spec.xor16_length]
    · intro i hi
      rw [hs.1, hh] at hi
      rw [hs.2 i, if_pos (show i < 16 ∧ i < hash.length from ⟨hi, by omega⟩),
        Spec.xor16_getD _ _ i hi, memcpy_getD, List.length_replicate,
        if_pos (show 0 ≤ i ∧ i < 0 + 16 ∧ i < 16 from ⟨Nat.zero_le i, by omega, hi⟩),
        Nat.sub_zero, h i hi]
  unfold ghashBlock
  dsimp only
  rw [hx]
  apply list_ext_getD
  · rw [memcpy_length, Spec.xor16_length, gfmul_length]
  · intro i hi
    rw [memcpy_length, Spec.xor16_length] at hi
    rw [memcpy_getD, Spec.xor16_length,
      if_pos (show 0 ≤ i ∧ i < 0 + 16 ∧ i < 16 from ⟨Nat.zero_le i, by omega, hi⟩),
      Nat.sub_zero, Nat.zero_add]

end GCM

end SM4GCM

/-- C27: GCM::ghash over no data is 16 zero bytes, and for every key H, every
data whose length is a multiple of 16 and every block B of 16 bytes, the hash
of data followed by B is gfmul(ghash(H, data) xor B, H). -/
theorem C27_ghash_recurrence (H data B : List Nat) (hd : data.length % 16 = 0)
    (hB : B.length = 16) :
    SM4GCM.GCM.ghash H [] 0 = List.replicate 16 0 ∧
    SM4GCM.GCM.ghash H (data ++ B) (data ++ B).length =
      SM4GCM.GCM.gfmul (Spec.xor16 (SM4GCM.GCM.ghash H data data.length) B) H := by
  refine ⟨rfl, ?_⟩
  obtain ⟨n, hn⟩ : ∃ n, data.length = 16 * n := ⟨data.length / 16, by omega⟩
  have hl : (data ++ B).length = 16 * (n + 1) := by
    rw [List.length_append, hn, hB]
    omega
  rw [hl, hn, SM4GCM.GCM.ghash_blocks, forLoop_succ]
  have hpre : forLoop n (fun k hash => SM4GCM.GCM.ghashBlock H (data ++ B) (16 * k) hash)
      (List.replicate 16 0) = SM4GCM.GCM.ghash H data (16 * n) := by
    rw [SM4GCM.GCM.ghash_blocks]
    apply forLoop_congr
    intro k hk t
    apply SM4GCM.GCM.ghashBlock_congr
    intro j hj
    rw [getD_append_eq, if_pos (show 16 * k + j < data.length by omega)]
  rw [hpre]
  apply SM4GCM.GCM.ghashBlock_eq H (data ++ B) B (16 * n) _
    (SM4GCM.GCM.ghash_blocks_length H data n)
  intro j hj
  rw [getD_append_eq, if_neg (show ¬ 16 * n + j < data.length by omega)]
  congr 1
  omega

/-- C27 at the key of main used as H, no earlier data and the block t^8. -/
theorem C27_ghash_recurrence_witness :
    SM4GCM.GCM.ghash SM4GCM.mainKey ([] ++ Spec.blockT8) ([] ++ Spec.blockT8).length =
      SM4GCM.GCM.gfmul (Spec.xor16 (SM4GCM.GCM.ghash SM4GCM.mainKey [] ([] : List Nat).length)
        Spec.blockT8) SM4GCM.mainKey :=
  (C27_ghash_recurrence SM4GCM.mainKey [] Spec.blockT8 (by decide) (by decide)).2

/-! ## The Merkle tree: every inclusion proof verifies -/

/-- A loop that appends g k at iteration k appends the values g 0, ...,
g (n - 1). -/
theorem forLoop_push {α : Type} (g : Nat → α) (l0 : List α) (n : Nat) :
    forLoop n (fun k (l : List α) => l ++ [g k]) l0 = l0 ++ (List.range n).map g := by
  induction n with
  | zero => simp [forLoop]
  | succ n ih =>
    rw [forLoop_succ, ih, List.range_succ, List.map_append, List.append_assoc]
    rfl

theorem forLoop_push_const {α : Type} (x : α) (l0 : List α) (n : Nat) :
    forLoop n (fun _ (l : List α) => l ++ [x]) l0 = l0 ++ List.replicate n x := by
  induction n with
  | zero => simp [forLoop]
  | succ n ih =>
    rw [forLoop_succ, ih, List.replicate_succ', List.append_assoc]

theorem getD_range_map {α : Type} (g : Nat → α) (n i : Nat) (d : α) (hi : i < n) :
    ((List.range n).map g).getD i d = g i := by
  simp [List.getD_eq_getElem?_getD, List.getElem?_range hi]

namespace SM3

theorem final_length (self : SM3) : (final self).1.length = 32 := by
  unfold final
  dsimp only
  rw [forLoop_length_of_preserve]
  · rfl
  · intro i s
    simp only [List.length_set]

theorem hash_length (data : List Nat) : (hash data).length = 32 := final_length _

end SM3

theorem combineHashes_length (a b : List Nat) : (combineHashes a b).length = 32 :=
  SM3.hash_length _

theorem hashCopy_length (h : List Nat) : (hashCopy h).length = 32 := by
  unfold hashCopy
  rw [memcpy_length]
  rfl

theorem hashCopy_getD (h : List Nat) (i : Nat) (hi : i < 32) :
    (hashCopy h).getD i 0 = h.getD i 0 := by
  unfold hashCopy HASH_SIZE
  rw [memcpy_getD, List.length_replicate,
    if_pos (show 0 ≤ i ∧ i < 0 + 32 ∧ i < 32 from ⟨Nat.zero_le i, by omega, hi⟩),
    Nat.zero_add, Nat.sub_zero]

theorem hashCopy_of_length (h : List Nat) (hl : h.length = 32) : hashCopy h = h := by
  apply list_ext_getD
  · rw [hashCopy_length, hl]
  · intro i hi
    rw [hashCopy_length] at hi
    exact hashCopy_getD h i hi

/-- A memcpy of 32 bytes over an array of 32 bytes leaves the bytes copied. -/
theorem memcpy_hash (dst src : List Nat) (hd : dst.length = 32) (hs : src.length = 32) :
    memcpy dst 0 src 0 HASH_SIZE = src := by
  apply list_ext_getD
  · rw [memcpy_length, hd, hs]
  · intro i hi
    rw [memcpy_length, hd] at hi
    unfold HASH_SIZE
    rw [memcpy_getD, if_pos (show 0 ≤ i ∧ i < 0 + 32 ∧ i < dst.length from
      ⟨Nat.zero_le i, by omega, by omega⟩), Nat.zero_add, Nat.sub_zero]

/-- The function combineHashes reads the first 32 bytes of its arguments
only. -/
theorem combineHashes_congr (a a' b b' : List Nat)
    (ha : ∀ i, i < 32 → a.getD i 0 = a'.getD i 0) (hb : ∀ i, i < 32 → b.getD i 0 = b'.getD i 0) :
    combineHashes a b = combineHashes a' b' := by
  have hc : memcpy (memcpy (List.replicate (HASH_SIZE * 2) 0) 0 a 0 HASH_SIZE) HASH_SIZE b 0
      HASH_SIZE =
      memcpy (memcpy (List.replicate (HASH_SIZE * 2) 0) 0 a' 0 HASH_SIZE) HASH_SIZE b' 0
        HASH_SIZE := by
    apply list_ext_getD
    · simp only [memcpy_length]
    · intro i hi
      simp only [memcpy_length, List.length_replicate, HASH_SIZE] at hi
      simp only [memcpy_getD, memcpy_length, List.length_replicate, HASH_SIZE, Nat.zero_add,
        Nat.sub_zero, Nat.zero_le, true_and]
      by_cases h1 : 32 ≤ i
      · rw [if_pos (show 32 ≤ i ∧ i < 32 + 32 ∧ i < 32 * 2 from ⟨h1, by omega, by omega⟩),
          if_pos (show 32 ≤ i ∧ i < 32 + 32 ∧ i < 32 * 2 from ⟨h1, by omega, by omega⟩),
          hb (i - 32) (by omega)]
      · have c1 : ¬ (32 ≤ i ∧ i < 32 + 32 ∧ i < 32 * 2) := fun h => h1 h.1
        have c2 : i < 32 ∧ i < 32 * 2 := ⟨by omega, by omega⟩
        rw [if_neg c1, if_neg c1, if_pos c2, if_pos c2, ha i (by omega)]
  unfold combineHashes
  dsimp only
  rw [hc]

theorem combineHashes_hashCopy (a b : List Nat) :
    combineHashes (hashCopy a) (hashCopy b) = combineHashes a b :=
  combineHashes_congr _ _ _ _ (hashCopy_getD a) (hashCopy_getD b)

theorem memcmpEq_self (a : List Nat) (n : Nat) : memcmpEq a a n = true := by
  unfold memcmpEq
  rw [List.all_eq_true]
  intro k _
  exact beq_self_eq_true _

theorem getD_length_sub_one {α : Type} (l : List α) (d : α) :
    l.getD (l.length - 1) d = l.getLastD d := by
  rw [List.getD_eq_getElem?_getD, List.getLastD_eq_getLast?, List.getLast?_eq_getElem?]

namespace MerkleTree

/-- The level above a level: node k combines the nodes 2 k and 2 k + 1, or the
node 2 k with itself when it is the last of an odd number. -/
theorem nextLevel_eq (level : List (List Nat)) :
    nextLevel level = (List.range ((level.length + 1) / 2)).map (fun k =>
      combineHashes (level.getD (2 * k) [])
        (if 2 * k + 1 < level.length then level.getD (2 * k + 1) [] else level.getD (2 * k) []))
    := by
  unfold nextLevel
  exact (forLoop_push _ [] _).trans (List.nil_append _)

theorem nextLevel_length (level : List (List Nat)) :
    (nextLevel level).length = (level.length + 1) / 2 := by
  rw [nextLevel_eq, List.length_map, List.length_range]

theorem nextLevel_getD (level : List (List Nat)) (m : Nat) (hm : m < (level.length + 1) / 2) :
    (nextLevel level).getD m [] =
      combineHashes (level.getD (2 * m) [])
        (if 2 * m + 1 < level.length then level.getD (2 * m + 1) [] else level.getD (2 * m) []) := by
  rw [nextLevel_eq, getD_range_map _ _ _ _ hm]

/-- The loop on required ends on a number that is at least leafCount, when it
has leafCount iterations at hand. -/
theorem requiredLoop_ge (leafCount : Nat) :
    ∀ (fuel required : Nat), leafCount ≤ required * 2 ^ fuel →
      leafCount ≤ requiredLoop leafCount fuel required := by
  intro fuel
  induction fuel with
  | zero =>
    intro required h
    rw [Nat.pow_zero, Nat.mul_one] at h
    exact h
  | succ fuel ih =>
    intro required h
    unfold requiredLoop
    by_cases hr : required < leafCount
    · rw [if_pos hr]
      apply ih
      rw [Nat.shiftLeft_eq, Nat.pow_one, Nat.mul_assoc, ← Nat.pow_succ']
      exact h
    · rw [if_neg hr]
      omega

theorem required_ge (leafCount : Nat) : leafCount ≤ requiredLoop leafCount leafCount 1 := by
  apply requiredLoop_ge
  rw [Nat.one_mul]
  exact Nat.le_of_lt (Nat.lt_two_pow leafCount)

/-- The loop that builds the levels: from levels that are chained and whose
last level has between 1 and fuel + 1 nodes, it ends on levels that are
chained, start with the same level, and end with a level of one node. -/
theorem levelsLoop_spec :
    ∀ (fuel : Nat) (levels : List (List (List Nat))), levels ≠ [] →
      (∀ k, k + 1 < levels.length →
        levels.getD (k + 1) [] = nextLevel (levels.getD k [])) →
      1 ≤ (levels.getLastD []).length → (levels.getLastD []).length ≤ fuel + 1 →
      levelsLoop fuel levels ≠ [] ∧
      (levelsLoop fuel levels).getD 0 [] = levels.getD 0 [] ∧
      (∀ k, k + 1 < (levelsLoop fuel levels).length →
        (levelsLoop fuel levels).getD (k + 1) [] =
          nextLevel ((levelsLoop fuel levels).getD k [])) ∧
      ((levelsLoop fuel levels).getLastD []).length = 1 := by
  intro fuel
  induction fuel with
  | zero =>
    intro levels hne hch h1 h2
    exact ⟨hne, rfl, hch, Nat.le_antisymm h2 h1⟩
  | succ fuel ih =>
    intro levels hne hch h1 h2
    unfold levelsLoop
    by_cases hl : (levels.getLastD []).length > 1
    · rw [if_pos hl]
      have hpos : 0 < levels.length := List.length_pos.mpr hne
      have hne' : levels ++ [nextLevel (levels.getLastD [])] ≠ [] := by simp
      have hch' : ∀ k, k + 1 < (levels ++ [nextLevel (levels.getLastD [])]).length →
          (levels ++ [nextLevel (levels.getLastD [])]).getD (k + 1) [] =
            nextLevel ((levels ++ [nextLevel (levels.getLastD [])]).getD k []) := by
        intro k hk
        rw [List.length_append, List.length_singleton] at hk
        by_cases hk2 : k + 1 < levels.length
        · rw [List.getD_append _ _ _ _ hk2, List.getD_append _ _ _ _ (by omega), hch k hk2]
        · have hk3 : k = levels.length - 1 := by omega
          rw [List.getD_append_right _ _ _ _ (by omega), List.getD_append _ _ _ _ (by omega),
            hk3, getD_length_sub_one]
          have e : levels.length - 1 + 1 - levels.length = 0 := by omega
          rw [e]
          rfl
      have hlast : (levels ++ [nextLevel (levels.getLastD [])]).getLastD [] =
          nextLevel (levels.getLastD []) := List.getLastD_concat _ _ _
      have r := ih (levels ++ [nextLevel (levels.getLastD [])]) hne' hch'
        (by rw [hlast, nextLevel_length]; omega) (by rw [hlast, nextLevel_length]; omega)
      refine ⟨r.1, ?_, r.2.2.1, r.2.2.2⟩
      rw [r.2.1, List.getD_append _ _ _ _ hpos]
    · rw [if_neg hl]
      exact ⟨hne, rfl, hch, Nat.le_antisymm (Nat.le_of_not_lt hl) h1⟩

/-- The function initialize, on a list of n > 0 strings, leaves a well-built
tree whose first n leaves are the hashes of the strings and whose number of
leaves is the number computed by the loop on required. -/
theorem init_spec (self : MerkleTree) (dataList : List (List Nat)) (hn : 0 < dataList.length) :
    (init self dataList).WellBuilt ∧
    (init self dataList).leafCount = requiredLoop dataList.length dataList.length 1 ∧
    dataList.length ≤ (init self dataList).leafCount ∧
    ∀ i, i < dataList.length →
      (init self dataList).leaves.getD i [] = SM3.hash (dataList.getD i []) := by
  have hreq := required_ge dataList.length
  have hleaves : forLoop dataList.length (fun i (l : List (List Nat)) =>
      l ++ [SM3.hash (dataList.getD i [])]) [] =
      (List.range dataList.length).map (fun i => SM3.hash (dataList.getD i [])) :=
    (forLoop_push _ [] _).trans (List.nil_append _)
  unfold init buildTree
  dsimp only
  rw [if_neg (show ¬ dataList.length = 0 by omega), hleaves, forLoop_push_const]
  have hlen : ((List.range dataList.length).map (fun i => SM3.hash (dataList.getD i [])) ++
      List.replicate (requiredLoop dataList.length dataList.length 1 - dataList.length)
        EMPTY_HASH).length = requiredLoop dataList.length dataList.length 1 := by
    rw [List.length_append, List.length_map, List.length_range, List.length_replicate]
    omega
  have hget : ∀ i, i < dataList.length →
      ((List.range dataList.length).map (fun i => SM3.hash (dataList.getD i [])) ++
        List.replicate (requiredLoop dataList.length dataList.length 1 - dataList.length)
          EMPTY_HASH).getD i [] = SM3.hash (dataList.getD i []) := by
    intro i hi
    rw [List.getD_append _ _ _ _ (by rw [List.length_map, List.length_range]; exact hi),
      getD_range_map _ _ _ _ hi]
  generalize (List.range dataList.length).map (fun i => SM3.hash (dataList.getD i [])) ++
    List.replicate (requiredLoop dataList.length dataList.length 1 - dataList.length)
      EMPTY_HASH = L0 at hlen hget ⊢
  have hlast : [L0].getLastD [] = L0 := rfl
  have r := levelsLoop_spec L0.length [L0] (by simp) (fun k hk => by simp at hk)
    (by rw [hlast, hlen]; omega) (by rw [hlast]; omega)
  exact ⟨⟨r.1, r.2.1, hlen, r.2.2.1, r.2.2.2, rfl⟩, rfl, hreq, hget⟩

end MerkleTree

namespace MerkleTree

/-- One iteration of verifyInclusionProof, from the node c of a level and the
proof entry that generateInclusionProof makes for this node, gives the parent
node in the level above. -/
theorem verifyStep_level (l : List (List Nat)) (c : Nat) (hc : c < l.length) :
    verifyStep (hashCopy (l.getD c []))
      (hashCopy (l.getD
        (if (if (c % 2 == 0) = true then c + 1 else c - 1) ≥ l.length then c
          else (if (c % 2 == 0) = true then c + 1 else c - 1)) []), c % 2 == 0) =
      hashCopy ((nextLevel l).getD (c / 2) []) := by
  rw [nextLevel_getD l (c / 2) (by omega), hashCopy_of_length _ (combineHashes_length _ _)]
  unfold verifyStep
  dsimp only
  by_cases he : c % 2 = 0
  · have hb : (c % 2 == 0) = true := by rw [he]; rfl
    have h2 : 2 * (c / 2) = c := by omega
    simp only [hb, if_true]
    rw [h2, combineHashes_hashCopy,
      memcpy_hash _ _ (hashCopy_length _) (combineHashes_length _ _)]
    by_cases hs : c + 1 < l.length
    · rw [if_neg (show ¬ c + 1 ≥ l.length by omega), if_pos hs]
    · rw [if_pos (show c + 1 ≥ l.length by omega), if_neg hs]
  · have hb : (c % 2 == 0) = false := by
      cases h : (c % 2 == 0) with
      | false => rfl
      | true => exact absurd (beq_iff_eq.mp h) he
    have h2 : 2 * (c / 2) = c - 1 := by omega
    have h3 : 2 * (c / 2) + 1 = c := by omega
    simp only [hb, Bool.false_eq_true, if_false]
    rw [if_neg (show ¬ c - 1 ≥ l.length by omega),
      combineHashes_hashCopy, memcpy_hash _ _ (hashCopy_length _) (combineHashes_length _ _),
      h3, if_pos hc, h2]

theorem proofStep_eq (levels : List (List (List Nat))) (i : Nat) (P : List (List Nat × Bool))
    (c : Nat) :
    proofStep levels i (P, c) =
      (P ++ [(hashCopy ((levels.getD i []).getD
        (if (if (c % 2 == 0) = true then c + 1 else c - 1) ≥ (levels.getD i []).length then c
          else (if (c % 2 == 0) = true then c + 1 else c - 1)) []), c % 2 == 0)], c / 2) := by
  unfold proofStep hashCopy
  dsimp only

/-- The loop of generateInclusionProof over the first k levels, from the leaf
c0: the index it reaches is a node of the level k, and the loop of
verifyInclusionProof over the entries collected so far, from the leaf hash,
ends on the hash of that node. -/
theorem proofLoop_spec (levels : List (List (List Nat)))
    (hch : ∀ k, k + 1 < levels.length → levels.getD (k + 1) [] = nextLevel (levels.getD k []))
    (c0 : Nat) (h0 : c0 < (levels.getD 0 []).length) :
    ∀ k, k + 1 ≤ levels.length →
      (forLoop k (proofStep levels) ([], c0)).2 < (levels.getD k []).length ∧
      (forLoop k (proofStep levels) ([], c0)).1.foldl verifyStep
          (hashCopy ((levels.getD 0 []).getD c0 [])) =
        hashCopy ((levels.getD k []).getD (forLoop k (proofStep levels) ([], c0)).2 []) := by
  intro k
  induction k with
  | zero =>
    intro _
    simp only [forLoop, List.foldl_nil]
    exact ⟨h0, trivial⟩
  | succ k ih =>
    intro hk
    have r := ih (by omega)
    rw [forLoop_succ]
    generalize forLoop k (proofStep levels) ([], c0) = s at r ⊢
    obtain ⟨P, c⟩ := s
    dsimp only at r
    rw [proofStep_eq]
    dsimp only
    rw [hch k (by omega), nextLevel_length, List.foldl_append, r.2]
    refine ⟨by omega, ?_⟩
    rw [List.foldl_cons, List.foldl_nil]
    exact verifyStep_level _ c r.1

/-- In a well-built tree, generateInclusionProof succeeds for every index
below the number of leaves, and verifyInclusionProof accepts the proof it
makes for the hash of that leaf and the root hash. -/
theorem inclusion_of_wellBuilt (t : MerkleTree) (hw : t.WellBuilt) (index : Nat)
    (hi : index < t.leafCount) (proof : List (List Nat × Bool)) :
    (t.generateInclusionProof index proof).1 = true ∧
    verifyInclusionProof (t.leaves.getD index []) index (t.generateInclusionProof index proof).2
      t.getRootHash = true := by
  obtain ⟨hne, h0, hlen, hch, hlast, hroot⟩ := hw
  have hg : t.generateInclusionProof index proof =
      (true, (forLoop (t.levels.length - 1) (proofStep t.levels) ([], index)).1) := by
    unfold generateInclusionProof
    rw [if_neg]
    rw [hroot]
    intro h
    rcases h with h | h
    · omega
    · exact absurd h (by simp)
  have hpos : 0 < t.levels.length := List.length_pos.mpr hne
  have r := proofLoop_spec t.levels hch index (by rw [h0, hlen]; exact hi)
    (t.levels.length - 1) (by omega)
  rw [getD_length_sub_one, hlast] at r
  have hz : (forLoop (t.levels.length - 1) (proofStep t.levels) ([], index)).2 = 0 := by omega
  rw [hg]
  refine ⟨rfl, ?_⟩
  unfold verifyInclusionProof getRootHash
  dsimp only
  rw [hroot]
  dsimp only
  rw [← h0]
  have r2 := r.2
  rw [hz] at r2
  show memcmpEq ((forLoop (t.levels.length - 1) (proofStep t.levels) ([], index)).1.foldl
    verifyStep (hashCopy ((t.levels.getD 0 []).getD index []))) (hashCopy _) HASH_SIZE = true
  rw [r2]
  exact memcmpEq_self _ _

end MerkleTree

/-- C24: for every tree object, every data list and every index i below the
length of the list (which is then not empty), after initialize(dataList) the
call generateInclusionProof(i, proof) returns true, and verifyInclusionProof
on the SM3 hash of dataList[i], the index i, the generated proof and the root
hash of the tree returns true. -/
theorem C24_inclusion_proof_verifies (self : MerkleTree) (dataList : List (List Nat)) (i : Nat)
    (proof : List (List Nat × Bool)) (hi : i < dataList.length) :
    ((self.init dataList).generateInclusionProof i proof).1 = true ∧
    MerkleTree.verifyInclusionProof (SM3.hash (dataList.getD i [])) i
      ((self.init dataList).generateInclusionProof i proof).2
      (self.init dataList).getRootHash = true := by
  have hs := MerkleTree.init_spec self dataList (by omega)
  have r := MerkleTree.inclusion_of_wellBuilt (self.init dataList) hs.1 i (by omega) proof
  rw [hs.2.2.2 i hi] at r
  exact r

/-- C24 at the fresh tree, a list of three strings and the index 2. -/
theorem C24_inclusion_proof_verifies_witness :
    ((MerkleTree.new.init [[1], [2], [3]]).generateInclusionProof 2 []).1 = true ∧
    MerkleTree.verifyInclusionProof (SM3.hash (([[1], [2], [3]] : List (List Nat)).getD 2 [])) 2
      ((MerkleTree.new.init [[1], [2], [3]]).generateInclusionProof 2 []).2
      (MerkleTree.new.init [[1], [2], [3]]).getRootHash = true :=
  C24_inclusion_proof_verifies MerkleTree.new [[1], [2], [3]] 2 [] (by decide)

/-! ## The Merkle tree: the exclusion proof of an inner index is rejected -/

namespace MerkleTree

/-- For an index that has a leaf on each side, generateExclusionProof returns
true with the neighbours index - 1 and index + 1 and their inclusion
proofs. -/
theorem generateExclusionProof_inner (t : MerkleTree) (hroot : t.root ≠ none) (index : Nat)
    (p : ExclusionProof) (h1 : 1 ≤ index) (h2 : index + 1 < t.leafCount)
    (h64 : index + 1 < 2 ^ 64) :
    t.generateExclusionProof index p =
      (true, { leftProof := (t.generateInclusionProof (index - 1) p.leftProof).2,
               rightProof := (t.generateInclusionProof (index + 1) p.rightProof).2,
               leftIndex := index - 1, rightIndex := index + 1 }) := by
  have e : (2 : Nat) ^ 64 = 18446744073709551616 := by decide
  have hl : (index + 2 ^ 64 - 1) % 2 ^ 64 = index - 1 := by
    rw [e] at h64 ⊢
    omega
  have hr : (index + 1) % 2 ^ 64 = index + 1 := Nat.mod_eq_of_lt h64
  unfold generateExclusionProof
  rw [if_neg (show ¬ (index ≥ t.leafCount ∨ t.leafCount < 2 ∨ t.root = none) from
    fun h => by rcases h with h | h | h <;> first | omega | exact hroot h)]
  dsimp only
  rw [hl, hr, if_neg (show ¬ (index - 1 ≥ t.leafCount ∧ index + 1 ≥ t.leafCount) from
    fun h => by omega), if_pos (show index - 1 < t.leafCount by omega), if_pos h2]

/-- For neighbours index - 1 and index + 1 that are both leaves,
verifyExclusionProof returns false whatever the proofs and the hashes are: the
two neighbours of an index are never next to each other. -/
theorem verifyExclusionProof_inner (t : MerkleTree) (index : Nat)
    (leftProof rightProof : List (List Nat × Bool)) (leftHash rightHash rootHash : List Nat)
    (h1 : 1 ≤ index) (h2 : index + 1 < t.leafCount) :
    t.verifyExclusionProof index leftProof rightProof (index - 1) (index + 1) leftHash rightHash
      rootHash = false := by
  have hL : index - 1 < t.leafCount := by omega
  have hadj : index + 1 ≠ index - 1 + 1 := by omega
  unfold verifyExclusionProof
  dsimp only
  rw [if_pos hL, if_pos h2]
  by_cases c1 : index - 1 < t.leafCount ∧
      ((!verifyInclusionProof leftHash (index - 1) leftProof rootHash) = true ∨
        index - 1 ≥ index)
  · rw [if_pos c1]
  · rw [if_neg c1]
    by_cases c2 : index + 1 < t.leafCount ∧
        ((!verifyInclusionProof rightHash (index + 1) rightProof rootHash) = true ∨
          index + 1 ≤ index)
    · rw [if_pos c2]
    · rw [if_neg c2, if_pos ⟨hL, h2, hadj⟩]

/-- The inclusion check does not change when the leaf hash is first copied to
a buffer of 32 bytes, as getLeafHash does. -/
theorem verifyInclusionProof_getLeafHash (t : MerkleTree) (index : Nat)
    (hi : index < t.leafCount) (i : Nat) (proof : List (List Nat × Bool)) (rootHash : List Nat) :
    verifyInclusionProof (t.getLeafHash index (List.replicate HASH_SIZE 0)).2 i proof rootHash =
      verifyInclusionProof (t.leaves.getD index []) i proof rootHash := by
  have h : (t.getLeafHash index (List.replicate HASH_SIZE 0)).2 =
      hashCopy (t.leaves.getD index []) := by
    unfold getLeafHash hashCopy
    rw [if_neg (show ¬ index ≥ t.leafCount by omega)]
  have h2 : hashCopy (hashCopy (t.leaves.getD index [])) = hashCopy (t.leaves.getD index []) :=
    hashCopy_of_length _ (hashCopy_length _)
  rw [h]
  unfold verifyInclusionProof
  dsimp only
  show memcmpEq (List.foldl verifyStep (hashCopy (hashCopy _)) proof) rootHash HASH_SIZE =
    memcmpEq (List.foldl verifyStep (hashCopy _) proof) rootHash HASH_SIZE
  rw [h2]

end MerkleTree

theorem testData_length : testData.length = 100000 := by
  unfold testData
  rw [List.length_map, List.length_range]

theorem requiredLoop_testData : MerkleTree.requiredLoop 100000 100000 1 = 131072 := by
  simp [MerkleTree.requiredLoop]

theorem testTree_spec : testTree.WellBuilt ∧ testTree.leafCount = 131072 := by
  have h := MerkleTree.init_spec MerkleTree.new testData (by rw [testData_length]; decide)
  have h1 : testTree.leafCount =
      MerkleTree.requiredLoop testData.length testData.length 1 := h.2.1
  refine ⟨h.1, ?_⟩
  rw [h1, testData_length, requiredLoop_testData]


/-- In a well-built tree, for an index with a leaf on each side (left and
right are these neighbours): generateExclusionProof returns true and names the
two neighbours, the two inclusion proofs it makes verify for the leaf hashes
that getLeafHash gives, and verifyExclusionProof on these values returns
false. -/
theorem MerkleTree.exclusion_inner_rejected (t : MerkleTree) (hw : t.WellBuilt)
    (index left right : Nat) (p : MerkleTree.ExclusionProof)
    (hl : left + 1 = index) (hr : right = index + 1) (h2 : right < t.leafCount)
    (h64 : right < 2 ^ 64) :
    (t.generateExclusionProof index p).1 = true ∧
    (t.generateExclusionProof index p).2.leftIndex = left ∧
    (t.generateExclusionProof index p).2.rightIndex = right ∧
    MerkleTree.verifyInclusionProof
      (t.getLeafHash (t.generateExclusionProof index p).2.leftIndex
        (List.replicate HASH_SIZE 0)).2
      (t.generateExclusionProof index p).2.leftIndex
      (t.generateExclusionProof index p).2.leftProof t.getRootHash = true ∧
    MerkleTree.verifyInclusionProof
      (t.getLeafHash (t.generateExclusionProof index p).2.rightIndex
        (List.replicate HASH_SIZE 0)).2
      (t.generateExclusionProof index p).2.rightIndex
      (t.generateExclusionProof index p).2.rightProof t.getRootHash = true ∧
    t.verifyExclusionProof index (t.generateExclusionProof index p).2.leftProof
      (t.generateExclusionProof index p).2.rightProof
      (t.generateExclusionProof index p).2.leftIndex
      (t.generateExclusionProof index p).2.rightIndex
      (t.getLeafHash (t.generateExclusionProof index p).2.leftIndex
        (List.replicate HASH_SIZE 0)).2
      (t.getLeafHash (t.generateExclusionProof index p).2.rightIndex
        (List.replicate HASH_SIZE 0)).2
      t.getRootHash = false := by
  have hroot : t.root ≠ none := by
    rw [hw.2.2.2.2.2]
    simp
  have el : left = index - 1 := by omega
  subst hr
  subst el
  rw [MerkleTree.generateExclusionProof_inner t hroot index p (by omega) h2 h64]
  dsimp only
  refine ⟨rfl, rfl, rfl, ?_, ?_, ?_⟩
  · rw [MerkleTree.verifyInclusionProof_getLeafHash t (index - 1) (by omega)]
    exact (MerkleTree.inclusion_of_wellBuilt t hw (index - 1) (by omega) _).2
  · rw [MerkleTree.verifyInclusionProof_getLeafHash t (index + 1) h2]
    exact (MerkleTree.inclusion_of_wellBuilt t hw (index + 1) h2 _).2
  · exact MerkleTree.verifyExclusionProof_inner t index _ _ _ _ _ (by omega) h2

/-- C25 fails on the code: in testMerkleTree (100000 strings, padded to 131072
leaves, index 51000) generateExclusionProof returns true with the neighbours
50999 and 51001, the two inclusion proofs it makes verify against the root
hash for the leaf hashes that getLeafHash gives, and verifyExclusionProof on
exactly these values returns false. -/
theorem C25_exclusion_proof_rejected :
    testExclusion.1 = true ∧
    testExclusion.2.leftIndex = 50999 ∧ testExclusion.2.rightIndex = 51001 ∧
    MerkleTree.verifyInclusionProof
      (testTree.getLeafHash testExclusion.2.leftIndex (List.replicate HASH_SIZE 0)).2
      testExclusion.2.leftIndex testExclusion.2.leftProof testTree.getRootHash = true ∧
    MerkleTree.verifyInclusionProof
      (testTree.getLeafHash testExclusion.2.rightIndex (List.replicate HASH_SIZE 0)).2
      testExclusion.2.rightIndex testExclusion.2.rightProof testTree.getRootHash = true ∧
    testTree.verifyExclusionProof 51000 testExclusion.2.leftProof testExclusion.2.rightProof
      testExclusion.2.leftIndex testExclusion.2.rightIndex
      (testTree.getLeafHash testExclusion.2.leftIndex (List.replicate HASH_SIZE 0)).2
      (testTree.getLeafHash testExclusion.2.rightIndex (List.replicate HASH_SIZE 0)).2
      testTree.getRootHash = false := by
  unfold testExclusion
  exact MerkleTree.exclusion_inner_rejected testTree testTree_spec.1 51000 50999 51001 _
    (by decide) (by decide) (by rw [testTree_spec.2]; decide) (by decide)

/-! ## The round constants and the cipher of SM4-GCM.cpp -/

/-- C36: every entry of SM4::CK in SM4-GCM.cpp follows the generating rule of
the standard: the table has 32 entries, and for every i in 0..31 and j in 0..3
byte j of CK[i], counted from the most significant byte, is
(7 * (4 * i + j)) mod 256. -/
theorem C36_gcm_CK_follows_generating_rule :
    SM4GCM.SM4.CK.length = 32 ∧
    ∀ (i : Fin 32) (j : Fin 4),
      (SM4GCM.SM4.CK.getD i.val 0 >>> (8 * (3 - j.val))) &&& 0xFF = (7 * (4 * i.val + j.val)) % 256 := by
  decide!

/-- The round keys that SM4::set_key of SM4-GCM.cpp and keyExpansion of
SM4基本实现.cpp derive from the key of the test vector agree at the indices 0
to 23 and differ at every index from 24 on, the first index at which the two CK
tables differ. -/
theorem gcm_basic_round_keys_testBytes :
    (List.range 32).filter (fun i =>
      (SM4GCM.SM4.set_key SM4Basic.testBytes).rk.getD i 0 !=
        (SM4Basic.keyExpansion (SM4Basic.bytesToWords SM4Basic.testBytes)).getD i 0) =
      [24, 25, 26, 27, 28, 29, 30, 31] := by
  decide!

/-- C35: the cipher of SM4-GCM.cpp and the cipher of SM4基本实现.cpp are not the
same function. For the key and the block 0123456789abcdeffedcba9876543210,
encrypt_block after set_key returns 6de720a7aa6776994e14ebe9210f0532 and
wordsToBytes(sm4Encrypt(bytesToWords(block), bytesToWords(key))) returns
d8fdb05c09a878b25eeaa0bf50ada41d. -/
theorem C35_gcm_cipher_differs_from_basic :
    SM4GCM.SM4.encrypt_block (SM4GCM.SM4.set_key SM4Basic.testBytes) SM4Basic.testBytes =
      [0x6d, 0xe7, 0x20, 0xa7, 0xaa, 0x67, 0x76, 0x99, 0x4e, 0x14, 0xeb, 0xe9, 0x21, 0x0f, 0x05, 0x32] ∧
    SM4Basic.wordsToBytes (SM4Basic.sm4Encrypt (SM4Basic.bytesToWords SM4Basic.testBytes)
        (SM4Basic.bytesToWords SM4Basic.testBytes)) =
      [0xd8, 0xfd, 0xb0, 0x5c, 0x09, 0xa8, 0x78, 0xb2, 0x5e, 0xea, 0xa0, 0xbf, 0x50, 0xad, 0xa4, 0x1d] ∧
    SM4GCM.SM4.encrypt_block (SM4GCM.SM4.set_key SM4Basic.testBytes) SM4Basic.testBytes ≠
      SM4Basic.wordsToBytes (SM4Basic.sm4Encrypt (SM4Basic.bytesToWords SM4Basic.testBytes)
        (SM4Basic.bytesToWords SM4Basic.testBytes)) := by
  have h1 : SM4GCM.SM4.encrypt_block (SM4GCM.SM4.set_key SM4Basic.testBytes) SM4Basic.testBytes =
      [0x6d, 0xe7, 0x20, 0xa7, 0xaa, 0x67, 0x76, 0x99, 0x4e, 0x14, 0xeb, 0xe9, 0x21, 0x0f, 0x05, 0x32] := by
    decide!
  have h2 : SM4Basic.wordsToBytes (SM4Basic.sm4Encrypt (SM4Basic.bytesToWords SM4Basic.testBytes)
        (SM4Basic.bytesToWords SM4Basic.testBytes)) =
      [0xd8, 0xfd, 0xb0, 0x5c, 0x09, 0xa8, 0x78, 0xb2, 0x5e, 0xea, 0xa0, 0xbf, 0x50, 0xad, 0xa4, 0x1d] := by
    decide!
  refine ⟨h1, h2, ?_⟩
  rw [h1, h2]
  decide

/-! ## The partial final block of ghash -/

namespace SM4GCM

namespace GCM

/-- With enough fuel, the loop of ghash runs its body once for each of the
first n whole blocks and goes on from there. -/
theorem ghashLoop_prefix (key data : List Nat) (len : Nat) :
    ∀ (n fuel pos : Nat) (hash : List Nat), pos + 16 * n ≤ len →
      ghashLoop key data len (fuel + n) pos hash =
        ghashLoop key data len fuel (pos + 16 * n)
          (forLoop n (fun k hash => ghashBlock key data (pos + 16 * k) hash) hash) := by
  intro n
  induction n with
  | zero =>
    intro fuel pos hash _
    rfl
  | succ n ih =>
    intro fuel pos hash hl
    have e : pos + 16 * (n + 1) = (pos + 16) + 16 * n := by omega
    have ef : fuel + (n + 1) = (fuel + n) + 1 := by omega
    have hc : forLoop n (fun k hash => ghashBlock key data (pos + 16 + 16 * k) hash)
        (ghashBlock key data pos hash) =
        forLoop n (fun i => (fun k hash => ghashBlock key data (pos + 16 * k) hash) (i + 1))
          ((fun k hash => ghashBlock key data (pos + 16 * k) hash) 0 hash) := by
      apply forLoop_congr
      intro k _ t
      have e2 : pos + 16 + 16 * k = pos + 16 * (k + 1) := by omega
      show ghashBlock key data (pos + 16 + 16 * k) t = ghashBlock key data (pos + 16 * (k + 1)) t
      rw [e2]
    rw [ef, ghashLoop_step key data len (fuel + n) pos hash (by omega), forLoop_succ_front, e,
      ih fuel (pos + 16) _ (by omega), hc]

/-- The last iteration of the loop of ghash, on fewer than 16 remaining bytes:
it is the body on a whole block of any array that holds the remaining bytes
followed by zero bytes. -/
theorem ghashLoop_partial (key data data' : List Nat) (len fuel pos : Nat) (hash : List Nat)
    (h1 : pos < len) (h2 : len < pos + 16)
    (h : ∀ j, j < 16 →
      data'.getD (pos + j) 0 = if pos + j < len then data.getD (pos + j) 0 else 0) :
    ghashLoop key data len (fuel + 1) pos hash = ghashBlock key data' pos hash := by
  have hb : memcpy (List.replicate 16 0) 0 data pos (len - pos) =
      memcpy (List.replicate 16 0) 0 data' pos 16 := by
    apply list_ext_getD
    · rw [memcpy_length, memcpy_length]
    · intro i hi
      rw [memcpy_length, List.length_replicate] at hi
      rw [memcpy_getD, memcpy_getD, List.length_replicate, Nat.sub_zero]
      have c2 : 0 ≤ i ∧ i < 0 + 16 ∧ i < 16 := ⟨Nat.zero_le i, by omega, hi⟩
      rw [if_pos c2, h i hi]
      by_cases hlt : pos + i < len
      · have c1 : 0 ≤ i ∧ i < 0 + (len - pos) ∧ i < 16 := ⟨Nat.zero_le i, by omega, hi⟩
        rw [if_pos c1, if_pos hlt]
      · have c1 : ¬ (0 ≤ i ∧ i < 0 + (len - pos) ∧ i < 16) := fun c => hlt (by omega)
        rw [if_neg c1, if_neg hlt, getD_replicate_zero]
  show (if pos < len then _ else _) = _
  rw [if_pos h1]
  dsimp only
  rw [if_pos (show len - pos < 16 by omega), hb]
  have e : pos + (len - pos) = len := by omega
  rw [e, ghashLoop_done]
  rfl

/-- The zero padding of Spec.pad16 does nothing to a string whose length is a
multiple of 16. -/
theorem pad16_of_dvd (data : List Nat) (h : data.length % 16 = 0) : Spec.pad16 data = data := by
  unfold Spec.pad16
  rw [h]
  exact List.append_nil data

/-- The bytes of the padded string: those of the string, then zero. -/
theorem pad16_getD (data : List Nat) (i : Nat) :
    (Spec.pad16 data).getD i 0 = if i < data.length then data.getD i 0 else 0 := by
  unfold Spec.pad16
  rw [getD_append_eq, getD_replicate_zero]

end GCM

end SM4GCM

/-- C34: GCM::ghash pads a partial final block with zero bytes itself. For
every H and every data of any length, ghash over data is ghash over data
followed by the fewest zero bytes that make the length a multiple of 16. -/
theorem C34_ghash_pads_partial_block (H data : List Nat) :
    SM4GCM.GCM.ghash H data data.length =
      SM4GCM.GCM.ghash H (Spec.pad16 data) (Spec.pad16 data).length := by
  by_cases hr : data.length % 16 = 0
  · rw [SM4GCM.GCM.pad16_of_dvd data hr]
  · have hlen : (Spec.pad16 data).length = 16 * (data.length / 16 + 1) := by
      rw [Spec.pad16_length]
      omega
    rw [hlen, SM4GCM.GCM.ghash_blocks, forLoop_succ]
    unfold SM4GCM.GCM.ghash
    have hf : data.length = (data.length - data.length / 16 - 1 + 1) + data.length / 16 := by
      omega
    have hp := SM4GCM.GCM.ghashLoop_prefix H data data.length (data.length / 16)
      (data.length - data.length / 16 - 1 + 1) 0 (List.replicate 16 0) (by omega)
    rw [← hf] at hp
    rw [hp]
    simp only [Nat.zero_add]
    rw [SM4GCM.GCM.ghashLoop_partial H data (Spec.pad16 data) data.length _ _ _ (by omega) (by omega)
      (fun j _ => SM4GCM.GCM.pad16_getD data _)]
    have hc : forLoop (data.length / 16)
        (fun k hash => SM4GCM.GCM.ghashBlock H data (16 * k) hash) (List.replicate 16 0) =
        forLoop (data.length / 16)
          (fun k hash => SM4GCM.GCM.ghashBlock H (Spec.pad16 data) (16 * k) hash)
          (List.replicate 16 0) := by
      apply forLoop_congr
      intro k hk t
      apply SM4GCM.GCM.ghashBlock_congr
      intro j hj
      rw [SM4GCM.GCM.pad16_getD, if_pos (show 16 * k + j < data.length by omega)]
    rw [hc]

/-! ## The bit count of the forged context -/

/-- The function length_extension_attack is update and final on the object
forgedContext. -/
theorem length_extension_attack_eq (original_hash : List Nat) (original_length : Nat)
    (append_data : List Nat) :
    length_extension_attack original_hash original_length append_data =
      bytes_to_hex (SM3.final (SM3.update (forgedContext original_hash original_length)
        append_data)).1 := rfl

/-- The bit count that length_extension_attack installs, whatever the hash. -/
theorem forgedContext_total_bits (original_hash : List Nat) (original_length : Nat) :
    (forgedContext original_hash original_length).total_bits =
      ((original_length * 8) % 2 ^ 64 +
        ((if original_length % 64 < 56 then 56 - original_length % 64
          else 64 + 56 - original_length % 64) + 1) * 8) % 2 ^ 64 := rfl

namespace Spec

/-- The number sm3PaddedLength n is the smallest multiple of 64 that is at least
n + 9. -/
theorem sm3PaddedLength_spec (n : Nat) :
    sm3PaddedLength n % 64 = 0 ∧ n + 9 ≤ sm3PaddedLength n ∧
    ∀ m, m % 64 = 0 → n + 9 ≤ m → sm3PaddedLength n ≤ m := by
  unfold sm3PaddedLength
  refine ⟨by omega, by omega, ?_⟩
  intro m h1 h2
  omega

end Spec

/-- For every original length whose bit count fits 64 bits, the bit count that
length_extension_attack installs is 56 bits (7 bytes) short of the bit length
of the padded original message: padding_length counts the byte 0x80 twice over
the zero bytes and leaves out the 8 bytes of the length field. -/
theorem forgedContext_total_bits_short (original_hash : List Nat) (n : Nat) (hn : n < 2 ^ 60) :
    (forgedContext original_hash n).total_bits + 56 = 8 * Spec.sm3PaddedLength n := by
  rw [forgedContext_total_bits]
  unfold Spec.sm3PaddedLength
  split <;> omega

/-- C32: the bit count that length_extension_attack installs in the forged
context is not the bit length of the padded original message. For the call of
test_length_extension_attack (original_length = 6) it is 456, and 8 times the
smallest multiple of 64 that is at least 6 + 9 is 512. -/
theorem C32_forged_bit_count_is_short :
    (forgedContext (bytes_to_hex (SM3.hash testKeyMessage)) testKeyMessage.length).total_bits = 456 ∧
    8 * Spec.sm3PaddedLength testKeyMessage.length = 512 ∧
    (forgedContext (bytes_to_hex (SM3.hash testKeyMessage)) testKeyMessage.length).total_bits ≠
      8 * Spec.sm3PaddedLength testKeyMessage.length := by
  rw [forgedContext_total_bits]
  decide

/-! ## The leaves of the Merkle tree -/

namespace MerkleTree

/-- The loop on required ends on a power of two, and on the smallest one that
is at least leafCount when it started on one that is not above every such
power. -/
theorem requiredLoop_pow (leafCount : Nat) :
    ∀ (fuel required a : Nat), required = 2 ^ a →
      (∀ j, leafCount ≤ 2 ^ j → required ≤ 2 ^ j) →
      ∃ k, requiredLoop leafCount fuel required = 2 ^ k ∧
        ∀ j, leafCount ≤ 2 ^ j → 2 ^ k ≤ 2 ^ j := by
  intro fuel
  induction fuel with
  | zero =>
    intro required a h1 h2
    exact ⟨a, h1, fun j hj => h1 ▸ h2 j hj⟩
  | succ fuel ih =>
    intro required a h1 h2
    unfold requiredLoop
    by_cases h : required < leafCount
    · rw [if_pos h]
      apply ih (required <<< 1) (a + 1)
      · rw [Nat.shiftLeft_eq, h1, Nat.pow_one, Nat.pow_succ]
      · intro j hj
        have hlt : 2 ^ a < 2 ^ j := by rw [← h1]; omega
        have haj : a < j := (Nat.pow_lt_pow_iff_right (by decide)).mp hlt
        have hle : 2 ^ (a + 1) ≤ 2 ^ j := Nat.pow_le_pow_right (by decide) haj
        rw [Nat.shiftLeft_eq, h1, Nat.pow_one, ← Nat.pow_succ]
        exact hle
    · rw [if_neg h]
      exact ⟨a, h1, fun j hj => h1 ▸ h2 j hj⟩

/-- The leaves and the leaf count after initialize on a list of n > 0 strings:
the hashes of the strings, then the constant EMPTY_HASH up to the number
computed by the loop on required. -/
theorem init_leaves (self : MerkleTree) (dataList : List (List Nat)) (hn : 0 < dataList.length) :
    (init self dataList).leafCount = requiredLoop dataList.length dataList.length 1 ∧
    (init self dataList).leaves =
      (List.range dataList.length).map (fun i => SM3.hash (dataList.getD i [])) ++
        List.replicate (requiredLoop dataList.length dataList.length 1 - dataList.length)
          EMPTY_HASH := by
  have hleaves : forLoop dataList.length (fun i (l : List (List Nat)) =>
      l ++ [SM3.hash (dataList.getD i [])]) [] =
      (List.range dataList.length).map (fun i => SM3.hash (dataList.getD i [])) :=
    (forLoop_push _ [] _).trans (List.nil_append _)
  unfold init buildTree
  dsimp only
  rw [if_neg (show ¬ dataList.length = 0 by omega), hleaves, forLoop_push_const]
  exact ⟨rfl, rfl⟩

theorem EMPTY_HASH_length : EMPTY_HASH.length = 32 := rfl

end MerkleTree

/-- C31: after initialize on a list of n >= 1 strings, getLeafCount is the
smallest power of two that is at least n; getLeafHash(i) returns true and
writes SM3(dataList[i]) to its 32-byte result for every i < n; and
getLeafHash(i) returns true and writes EMPTY_HASH for every i with
n <= i < getLeafCount. -/
theorem C31_leaf_count_and_leaf_hashes (t : MerkleTree) (dataList : List (List Nat))
    (hn : 1 ≤ dataList.length) :
    (∃ k, (t.init dataList).getLeafCount = 2 ^ k ∧ dataList.length ≤ 2 ^ k ∧
      ∀ j, dataList.length ≤ 2 ^ j → 2 ^ k ≤ 2 ^ j) ∧
    (∀ i result, i < dataList.length → result.length = 32 →
      (t.init dataList).getLeafHash i result = (true, SM3.hash (dataList.getD i []))) ∧
    (∀ i result, dataList.length ≤ i → i < (t.init dataList).getLeafCount → result.length = 32 →
      (t.init dataList).getLeafHash i result = (true, EMPTY_HASH)) := by
  obtain ⟨hc, hl⟩ := MerkleTree.init_leaves t dataList hn
  have hge := MerkleTree.required_ge dataList.length
  obtain ⟨k, hk, hmin⟩ := MerkleTree.requiredLoop_pow dataList.length dataList.length 1 0 rfl
    (fun j _ => Nat.one_le_two_pow)
  unfold MerkleTree.getLeafCount
  refine ⟨⟨k, by rw [hc, hk], by rw [← hk]; exact hge, hmin⟩, ?_, ?_⟩
  · intro i result hi hr
    unfold MerkleTree.getLeafHash
    rw [if_neg (show ¬ i ≥ (t.init dataList).leafCount by rw [hc]; omega), hl,
      List.getD_append _ _ _ _ (by rw [List.length_map, List.length_range]; exact hi),
      getD_range_map _ _ _ _ hi, memcpy_hash _ _ hr (SM3.hash_length _)]
  · intro i result hi1 hi2 hr
    unfold MerkleTree.getLeafHash
    rw [hc] at hi2
    have hget : (List.replicate (MerkleTree.requiredLoop dataList.length dataList.length 1 -
        dataList.length) EMPTY_HASH).getD (i - dataList.length) [] = EMPTY_HASH := by
      rw [List.getD_eq_getElem _ _ (by rw [List.length_replicate]; omega), List.getElem_replicate]
    rw [if_neg (show ¬ i ≥ (t.init dataList).leafCount by rw [hc]; omega), hl,
      List.getD_append_right _ _ _ _ (by rw [List.length_map, List.length_range]; exact hi1),
      List.length_map, List.length_range, hget,
      memcpy_hash _ _ hr MerkleTree.EMPTY_HASH_length]

/-- A witness for C31: three strings give four leaves, the last one being the
constant EMPTY_HASH. -/
theorem C31_leaf_count_and_leaf_hashes_witness :
    1 ≤ [[1], [2], [3]].length ∧
    ((∃ k, (MerkleTree.new.init [[1], [2], [3]]).getLeafCount = 2 ^ k ∧ [[1], [2], [3]].length ≤ 2 ^ k ∧
      ∀ j, [[1], [2], [3]].length ≤ 2 ^ j → 2 ^ k ≤ 2 ^ j) ∧
    (∀ i result, i < [[1], [2], [3]].length → result.length = 32 →
      (MerkleTree.new.init [[1], [2], [3]]).getLeafHash i result =
        (true, SM3.hash ([[1], [2], [3]].getD i []))) ∧
    (∀ i result, [[1], [2], [3]].length ≤ i → i < (MerkleTree.new.init [[1], [2], [3]]).getLeafCount →
      result.length = 32 →
      (MerkleTree.new.init [[1], [2], [3]]).getLeafHash i result = (true, EMPTY_HASH))) :=
  ⟨by decide, C31_leaf_count_and_leaf_hashes MerkleTree.new [[1], [2], [3]] (by decide)⟩

/-! ## The optimised SM3 against the reference SM3 -/

/-- An object is determined by its four data members. -/
theorem SM3.eq_of_members (s : SM3) (b : List Nat) (ml tb : Nat) (d : List Nat)
    (h : s.members = (b, ml, tb, d)) : s = ⟨b, ml, tb, d⟩ := by
  cases s
  simp only [SM3.members, Prod.mk.injEq] at h
  obtain ⟨h1, h2, h3, h4⟩ := h
  subst h1 h2 h3 h4
  rfl

theorem SM3.eq_some_of_members (o : Option SM3) (b : List Nat) (ml tb : Nat) (d : List Nat)
    (h : o.map SM3.members = some (b, ml, tb, d)) : o = some ⟨b, ml, tb, d⟩ := by
  cases o with
  | none => simp at h
  | some s =>
    simp only [Option.map_some', Option.some.injEq] at h
    rw [SM3.eq_of_members s b ml tb d h]

namespace SM3Optimized

/-- The mask ~(size_t)63 clears a length below 64. -/
theorem land_mask_of_lt (n : Nat) (h : n < 64) : n &&& 0xFFFFFFFFFFFFFFC0 = 0 := by
  have hall : ∀ k : Fin 64, k.val &&& 0xFFFFFFFFFFFFFFC0 = 0 := by decide!
  exact hall ⟨n, h⟩

/-- The function update on fewer than 64 bytes only appends them to the
buffer, whatever the number of bytes the buffer holds: it never compresses,
and it writes beyond message_block when the buffer cannot take them all. -/
theorem update_of_short (self : SM3) (data : List Nat) (h0 : 0 < data.length)
    (h : data.length < 64) :
    update self data =
      if self.message_length + data.length ≤ 64 then
        some { self with
          message_block := memcpy self.message_block self.message_length data 0 data.length,
          message_length := self.message_length + data.length }
      else none := by
  unfold update
  dsimp only
  rw [land_mask_of_lt data.length h]
  have hl : updateLoop data 0 (data.length / 64 + 2) 0 self = some self := by
    simp [updateLoop]
  rw [hl]
  dsimp only
  rw [Nat.sub_zero, if_pos (show data.length > 0 from h0)]

/-- The optimised class returns the standard digest of "abc" when the message
is handed over in one call. -/
theorem hash_abc :
    hash [0x61, 0x62, 0x63] =
      some [0x66, 0xC7, 0xF0, 0xF4, 0x62, 0xEE, 0xED, 0xD9, 0xD1, 0xF2, 0xD4, 0x6B, 0xDC, 0x10, 0xE4, 0xE2,
            0x41, 0x67, 0xC4, 0x87, 0x5C, 0xF2, 0xF7, 0xA2, 0x29, 0x7D, 0xA0, 0x2B, 0x8F, 0x4B, 0xA8, 0xE0] := by
  decide!

/-- The object after update on the 32 bytes of firstInput: the bytes are
buffered. -/
theorem update_firstInput :
    update reset firstInput =
      some ⟨[0x00, 0x01, 0x02, 0x03, 0x04, 0x05, 0x06, 0x07, 0x08, 0x09, 0x0a, 0x0b, 0x0c, 0x0d, 0x0e, 0x0f,
       0x10, 0x11, 0x12, 0x13, 0x14, 0x15, 0x16, 0x17, 0x18, 0x19, 0x1a, 0x1b, 0x1c, 0x1d, 0x1e, 0x1f,
       0x00, 0x00, 0x00, 0x00, 0x00, 0x00, 0x00, 0x00, 0x00, 0x00, 0x00, 0x00, 0x00, 0x00, 0x00, 0x00,
       0x00, 0x00, 0x00, 0x00, 0x00, 0x00, 0x00, 0x00, 0x00, 0x00, 0x00, 0x00, 0x00, 0x00, 0x00, 0x00],
      32, 0,
      [0x7380166F, 0x4914B2B9, 0x172442D7, 0xDA8A0600,
       0xA96F30BC, 0x163138AA, 0xE38DEE4D, 0xB0FB0E4E]⟩ := by
  apply SM3.eq_some_of_members
  decide!

/-- The object after the second call, update on the 96 bytes of secondInput:
two blocks have been compressed, and the bytes 96 to 127 are in the buffer
although the second compression has read them already. -/
theorem update_secondInput :
    update ⟨[0x00, 0x01, 0x02, 0x03, 0x04, 0x05, 0x06, 0x07, 0x08, 0x09, 0x0a, 0x0b, 0x0c, 0x0d, 0x0e, 0x0f,
       0x10, 0x11, 0x12, 0x13, 0x14, 0x15, 0x16, 0x17, 0x18, 0x19, 0x1a, 0x1b, 0x1c, 0x1d, 0x1e, 0x1f,
       0x00, 0x00, 0x00, 0x00, 0x00, 0x00, 0x00, 0x00, 0x00, 0x00, 0x00, 0x00, 0x00, 0x00, 0x00, 0x00,
       0x00, 0x00, 0x00, 0x00, 0x00, 0x00, 0x00, 0x00, 0x00, 0x00, 0x00, 0x00, 0x00, 0x00, 0x00, 0x00],
      32, 0,
      [0x7380166F, 0x4914B2B9, 0x172442D7, 0xDA8A0600,
       0xA96F30BC, 0x163138AA, 0xE38DEE4D, 0xB0FB0E4E]⟩ secondInput =
      some ⟨[0x60, 0x61, 0x62, 0x63, 0x64, 0x65, 0x66, 0x67, 0x68, 0x69, 0x6a, 0x6b, 0x6c, 0x6d, 0x6e, 0x6f,
       0x70, 0x71, 0x72, 0x73, 0x74, 0x75, 0x76, 0x77, 0x78, 0x79, 0x7a, 0x7b, 0x7c, 0x7d, 0x7e, 0x7f,
       0x20, 0x21, 0x22, 0x23, 0x24, 0x25, 0x26, 0x27, 0x28, 0x29, 0x2a, 0x2b, 0x2c, 0x2d, 0x2e, 0x2f,
       0x30, 0x31, 0x32, 0x33, 0x34, 0x35, 0x36, 0x37, 0x38, 0x39, 0x3a, 0x3b, 0x3c, 0x3d, 0x3e, 0x3f],
      32, 1024,
      [0x0C26E1C0, 0xDDD309C2, 0x43117E6D, 0x187F1AA2,
       0xDF1114BE, 0x12B42A67, 0x30ACB623, 0x9A2FD528]⟩ := by
  apply SM3.eq_some_of_members
  decide!

/-- The digest that final returns for that object. -/
theorem final_secondInput :
    (final ⟨[0x60, 0x61, 0x62, 0x63, 0x64, 0x65, 0x66, 0x67, 0x68, 0x69, 0x6a, 0x6b, 0x6c, 0x6d, 0x6e, 0x6f,
       0x70, 0x71, 0x72, 0x73, 0x74, 0x75, 0x76, 0x77, 0x78, 0x79, 0x7a, 0x7b, 0x7c, 0x7d, 0x7e, 0x7f,
       0x20, 0x21, 0x22, 0x23, 0x24, 0x25, 0x26, 0x27, 0x28, 0x29, 0x2a, 0x2b, 0x2c, 0x2d, 0x2e, 0x2f,
       0x30, 0x31, 0x32, 0x33, 0x34, 0x35, 0x36, 0x37, 0x38, 0x39, 0x3a, 0x3b, 0x3c, 0x3d, 0x3e, 0x3f],
      32, 1024,
      [0x0C26E1C0, 0xDDD309C2, 0x43117E6D, 0x187F1AA2,
       0xDF1114BE, 0x12B42A67, 0x30ACB623, 0x9A2FD528]⟩).map (fun r => r.1) =
      some [0x7c, 0x9e, 0xdf, 0xef, 0x46, 0xe6, 0xfd, 0xc8, 0xac, 0x9c, 0x29, 0x13, 0xe2, 0x7a, 0xc1, 0x5a,
       0x2a, 0xc6, 0xa2, 0x70, 0x4b, 0xae, 0x48, 0xd6, 0xcd, 0x59, 0x31, 0x49, 0x94, 0x20, 0x7e, 0x55] := by
  decide!

/-- The digest of the optimised class for update on firstInput, update on
secondInput, final. -/
theorem twoUpdates_value :
    twoUpdates firstInput secondInput =
      some [0x7c, 0x9e, 0xdf, 0xef, 0x46, 0xe6, 0xfd, 0xc8, 0xac, 0x9c, 0x29, 0x13, 0xe2, 0x7a, 0xc1, 0x5a,
       0x2a, 0xc6, 0xa2, 0x70, 0x4b, 0xae, 0x48, 0xd6, 0xcd, 0x59, 0x31, 0x49, 0x94, 0x20, 0x7e, 0x55] := by
  unfold twoUpdates
  rw [update_firstInput, Option.some_bind, update_secondInput, Option.some_bind,
    final_secondInput]

end SM3Optimized

namespace SM3

/-- The reference object after update on the bytes 0 to 63. -/
theorem update_block0 :
    update reset (List.range 64) =
      ⟨[0x00, 0x01, 0x02, 0x03, 0x04, 0x05, 0x06, 0x07, 0x08, 0x09, 0x0a, 0x0b, 0x0c, 0x0d, 0x0e, 0x0f,
       0x10, 0x11, 0x12, 0x13, 0x14, 0x15, 0x16, 0x17, 0x18, 0x19, 0x1a, 0x1b, 0x1c, 0x1d, 0x1e, 0x1f,
       0x20, 0x21, 0x22, 0x23, 0x24, 0x25, 0x26, 0x27, 0x28, 0x29, 0x2a, 0x2b, 0x2c, 0x2d, 0x2e, 0x2f,
       0x30, 0x31, 0x32, 0x33, 0x34, 0x35, 0x36, 0x37, 0x38, 0x39, 0x3a, 0x3b, 0x3c, 0x3d, 0x3e, 0x3f],
      0, 512,
      [0x96A60EC7, 0x1E7EC7A7, 0x890A07DC, 0xBEF2AEA6,
       0x9CF8936B, 0xD3F6D07F, 0x47597D30, 0x97DB3CCB]⟩ := by
  apply SM3.eq_of_members
  decide!

/-- The reference object after update on the bytes 64 to 127 as well. -/
theorem update_block1 :
    update ⟨[0x00, 0x01, 0x02, 0x03, 0x04, 0x05, 0x06, 0x07, 0x08, 0x09, 0x0a, 0x0b, 0x0c, 0x0d, 0x0e, 0x0f,
       0x10, 0x11, 0x12, 0x13, 0x14, 0x15, 0x16, 0x17, 0x18, 0x19, 0x1a, 0x1b, 0x1c, 0x1d, 0x1e, 0x1f,
       0x20, 0x21, 0x22, 0x23, 0x24, 0x25, 0x26, 0x27, 0x28, 0x29, 0x2a, 0x2b, 0x2c, 0x2d, 0x2e, 0x2f,
       0x30, 0x31, 0x32, 0x33, 0x34, 0x35, 0x36, 0x37, 0x38, 0x39, 0x3a, 0x3b, 0x3c, 0x3d, 0x3e, 0x3f],
      0, 512,
      [0x96A60EC7, 0x1E7EC7A7, 0x890A07DC, 0xBEF2AEA6,
       0x9CF8936B, 0xD3F6D07F, 0x47597D30, 0x97DB3CCB]⟩ ((List.range 64).map (fun k => k + 64)) =
      ⟨[0x40, 0x41, 0x42, 0x43, 0x44, 0x45, 0x46, 0x47, 0x48, 0x49, 0x4a, 0x4b, 0x4c, 0x4d, 0x4e, 0x4f,
       0x50, 0x51, 0x52, 0x53, 0x54, 0x55, 0x56, 0x57, 0x58, 0x59, 0x5a, 0x5b, 0x5c, 0x5d, 0x5e, 0x5f,
       0x60, 0x61, 0x62, 0x63, 0x64, 0x65, 0x66, 0x67, 0x68, 0x69, 0x6a, 0x6b, 0x6c, 0x6d, 0x6e, 0x6f,
       0x70, 0x71, 0x72, 0x73, 0x74, 0x75, 0x76, 0x77, 0x78, 0x79, 0x7a, 0x7b, 0x7c, 0x7d, 0x7e, 0x7f],
      0, 1024,
      [0x0C26E1C0, 0xDDD309C2, 0x43117E6D, 0x187F1AA2,
       0xDF1114BE, 0x12B42A67, 0x30ACB623, 0x9A2FD528]⟩ := by
  apply SM3.eq_of_members
  decide!

/-- The reference object after update on firstInput and update on
secondInput. -/
theorem update_firstInput_secondInput :
    update (update reset SM3Optimized.firstInput) SM3Optimized.secondInput =
      ⟨[0x40, 0x41, 0x42, 0x43, 0x44, 0x45, 0x46, 0x47, 0x48, 0x49, 0x4a, 0x4b, 0x4c, 0x4d, 0x4e, 0x4f,
       0x50, 0x51, 0x52, 0x53, 0x54, 0x55, 0x56, 0x57, 0x58, 0x59, 0x5a, 0x5b, 0x5c, 0x5d, 0x5e, 0x5f,
       0x60, 0x61, 0x62, 0x63, 0x64, 0x65, 0x66, 0x67, 0x68, 0x69, 0x6a, 0x6b, 0x6c, 0x6d, 0x6e, 0x6f,
       0x70, 0x71, 0x72, 0x73, 0x74, 0x75, 0x76, 0x77, 0x78, 0x79, 0x7a, 0x7b, 0x7c, 0x7d, 0x7e, 0x7f],
      0, 1024,
      [0x0C26E1C0, 0xDDD309C2, 0x43117E6D, 0x187F1AA2,
       0xDF1114BE, 0x12B42A67, 0x30ACB623, 0x9A2FD528]⟩ := by
  have hs : SM3Optimized.firstInput ++ SM3Optimized.secondInput =
      List.range 64 ++ (List.range 64).map (fun k => k + 64) := by decide
  rw [← update_append, hs, update_append, update_block0, update_block1]

/-- The digest of the reference class for the 128 bytes 0 to 127. -/
theorem final_block1 :
    (final ⟨[0x40, 0x41, 0x42, 0x43, 0x44, 0x45, 0x46, 0x47, 0x48, 0x49, 0x4a, 0x4b, 0x4c, 0x4d, 0x4e, 0x4f,
       0x50, 0x51, 0x52, 0x53, 0x54, 0x55, 0x56, 0x57, 0x58, 0x59, 0x5a, 0x5b, 0x5c, 0x5d, 0x5e, 0x5f,
       0x60, 0x61, 0x62, 0x63, 0x64, 0x65, 0x66, 0x67, 0x68, 0x69, 0x6a, 0x6b, 0x6c, 0x6d, 0x6e, 0x6f,
       0x70, 0x71, 0x72, 0x73, 0x74, 0x75, 0x76, 0x77, 0x78, 0x79, 0x7a, 0x7b, 0x7c, 0x7d, 0x7e, 0x7f],
      0, 1024,
      [0x0C26E1C0, 0xDDD309C2, 0x43117E6D, 0x187F1AA2,
       0xDF1114BE, 0x12B42A67, 0x30ACB623, 0x9A2FD528]⟩).1 =
      [0xa9, 0xe7, 0x98, 0x54, 0x73, 0xca, 0x09, 0xdf, 0x15, 0x10, 0xd8, 0x3b, 0x57, 0x2f, 0x72, 0x37,
       0x54, 0x30, 0x75, 0x6c, 0x4a, 0x66, 0x1b, 0x00, 0x72, 0x4a, 0xfe, 0xb8, 0xb7, 0x5d, 0xd0, 0xa5] := by
  decide!

/-- The digest of the reference class for the 160 bytes 0 to 127, 96 to 127:
the digest that the optimised class returns for the 128 bytes 0 to 127 handed
over in two calls. -/
theorem hash_with_repeated_tail :
    hash (SM3Optimized.firstInput ++ SM3Optimized.secondInput ++
        SM3Optimized.secondInput.drop 64) =
      [0x7c, 0x9e, 0xdf, 0xef, 0x46, 0xe6, 0xfd, 0xc8, 0xac, 0x9c, 0x29, 0x13, 0xe2, 0x7a, 0xc1, 0x5a,
       0x2a, 0xc6, 0xa2, 0x70, 0x4b, 0xae, 0x48, 0xd6, 0xcd, 0x59, 0x31, 0x49, 0x94, 0x20, 0x7e, 0x55] := by
  unfold hash
  rw [update_append, update_append, update_firstInput_secondInput]
  decide!

end SM3

/-- C33 fails on the code: the optimised class of SM3-optimized.h (x86-64
path) is not the function of SM3.cpp, and its update lets message_length pass 64.
On a fresh object, update on the bytes 0..31, update on the bytes 32..127 and
final return 7C9EDFEF..94207E55 in the optimised class, with every access in
bounds, and A9E79854..B75DD0A5 in the reference class. In the loop of main of
SM3-optimized.h, which hands long_data to update ten bytes at a time, the
object holds 60 buffered bytes after six calls and the seventh call writes
beyond the 64 bytes of message_block. -/
theorem C33_optimised_update_diverges :
    SM3Optimized.twoUpdates SM3Optimized.firstInput SM3Optimized.secondInput =
      some [0x7c, 0x9e, 0xdf, 0xef, 0x46, 0xe6, 0xfd, 0xc8, 0xac, 0x9c, 0x29, 0x13, 0xe2, 0x7a, 0xc1, 0x5a,
       0x2a, 0xc6, 0xa2, 0x70, 0x4b, 0xae, 0x48, 0xd6, 0xcd, 0x59, 0x31, 0x49, 0x94, 0x20, 0x7e, 0x55] ∧
    (SM3.final (SM3.update (SM3.update SM3.reset SM3Optimized.firstInput)
        SM3Optimized.secondInput)).1 =
      [0xa9, 0xe7, 0x98, 0x54, 0x73, 0xca, 0x09, 0xdf, 0x15, 0x10, 0xd8, 0x3b, 0x57, 0x2f, 0x72, 0x37,
       0x54, 0x30, 0x75, 0x6c, 0x4a, 0x66, 0x1b, 0x00, 0x72, 0x4a, 0xfe, 0xb8, 0xb7, 0x5d, 0xd0, 0xa5] ∧
    SM3Optimized.twoUpdates SM3Optimized.firstInput SM3Optimized.secondInput ≠
      some (SM3.final (SM3.update (SM3.update SM3.reset SM3Optimized.firstInput)
        SM3Optimized.secondInput)).1 ∧
    (SM3Optimized.mainAfter 6).map (fun sm3 => sm3.message_length) = some 60 ∧
    (SM3Optimized.mainAfter 7).isNone = true := by
  have h1 := SM3Optimized.twoUpdates_value
  have h2 : (SM3.final (SM3.update (SM3.update SM3.reset SM3Optimized.firstInput)
        SM3Optimized.secondInput)).1 =
      [0xa9, 0xe7, 0x98, 0x54, 0x73, 0xca, 0x09, 0xdf, 0x15, 0x10, 0xd8, 0x3b, 0x57, 0x2f, 0x72, 0x37,
       0x54, 0x30, 0x75, 0x6c, 0x4a, 0x66, 0x1b, 0x00, 0x72, 0x4a, 0xfe, 0xb8, 0xb7, 0x5d, 0xd0, 0xa5] := by
    rw [SM3.update_firstInput_secondInput, SM3.final_block1]
  refine ⟨h1, h2, ?_, by decide!, by decide!⟩
  rw [h1, h2]
  decide
